import Mathlib

/-!
# Electronic life: a shallow embedding of `main.js`

The JavaScript program keeps a grid of references to mutable entity objects.
The embedding makes that state explicit:

* an entity reference is a natural number and the objects live in a store
  `World.objs : Ref → Entity`; `World.next` is the first reference that has
  not been handed out yet, so `new` is `World.alloc`;
* the array `Grid.space` is a map from integer keys to optional references
  (`none` stands for both `null` and `undefined`, which the program never
  tells apart: it only tests `== null`, `!= null` and truthiness);
* a number-valued field is a `Num`: absent (`undefined`), `NaN`, an infinity
  or a finite value. A finite value is a rational number, and every
  arithmetic operation rounds its exact result as IEEE 754 double precision
  does (`Num.round`: to the nearest double, ties to even, overflow to an
  infinity), so the values the program computes are the doubles JavaScript
  computes. The two zeros are one value: the program only adds, subtracts,
  multiplies and compares numbers, which never tells `-0` from `0`;
* grid coordinates, sizes and array keys are integers: in a grid that
  `new Grid` can build they stay far below `2 ^ 53`, where the arithmetic of
  doubles is exact;
* `Math.random` is a stream of doubles in `[0, 1)` threaded through every
  function that draws from it;
* a thrown `TypeError` is `Except.error Fault.typeError`, a thrown `RangeError`
  is `Except.error Fault.rangeError`;
* a string used as text (a map row, the rendering) is a `List Char`, one
  character for each UTF-16 code unit of the string (the statements about maps
  ask for characters below `U+10000`, see `UnitLine`); a direction name or an
  action type is a `String`.
-/

namespace ELife

/-! ## Numbers -/

/-- The value of a numeric property: missing, `NaN`, a finite number or an
infinity (`inf true` is `-Infinity`). -/
inductive Num where
  | undef
  | nan
  | val (q : ℚ)
  | inf (negative : Bool)
  deriving DecidableEq

namespace Num

/-- The power `2 ^ e`, for an integer exponent. -/
def pow2 (e : Int) : ℚ :=
  if 0 ≤ e then ((2 ^ e.toNat : Nat) : ℚ) else 1 / ((2 ^ (-e).toNat : Nat) : ℚ)

/-- The loop of `log2`, with `fuel` rounds left. -/
def log2Aux : Nat → Nat → Nat
  | 0, _ => 0
  | fuel + 1, n => if n < 2 then 0 else log2Aux fuel (n / 2) + 1

/-- The position of the leading bit of `n`: the integer part of the binary
logarithm, for `n ≥ 1`. -/
def log2 (n : Nat) : Nat := log2Aux n n

/-- The binary exponent of a positive rational `a`: the integer `k` with
`2 ^ k ≤ a < 2 ^ (k + 1)`. -/
def ilog2 (a : ℚ) : Int :=
  let k : Int := (log2 a.num.natAbs : Int) - (log2 a.den : Int)
  if pow2 k ≤ a then k else k - 1

/-- The nearest integer of a non-negative rational; a tie goes to the even
neighbour. -/
def roundHalfEven (m : ℚ) : Int :=
  if m - ⌊m⌋ < 1 / 2 then ⌊m⌋
  else if 1 / 2 < m - ⌊m⌋ then ⌊m⌋ + 1
  else if ⌊m⌋ % 2 = 0 then ⌊m⌋ else ⌊m⌋ + 1

/-- The exponent of the last place of the doubles around `a ≥ 0`: a double
has 53 significant bits, and no exponent of the last place goes below `-1074`
(the subnormal numbers). -/
def quantum (a : ℚ) : Int := max (ilog2 a - 52) (-1074)

/-- The multiple of `2 ^ quantum a` nearest to `a ≥ 0`, ties to even. -/
def roundMag (a : ℚ) : ℚ :=
  (roundHalfEven (a / pow2 (quantum a)) : ℚ) * pow2 (quantum a)

/-- The double that an exact result `q` is rounded to (IEEE 754 binary64,
round to nearest, ties to even): the nearest multiple of the quantum, or an
infinity when that is `2 ^ 1024` or more in magnitude. -/
def round (q : ℚ) : Num :=
  if pow2 1024 ≤ roundMag |q| then inf (decide (q < 0))
  else val (if q < 0 then -roundMag |q| else roundMag |q|)

/-- JavaScript `a + b` on numeric operands (`undefined` converts to `NaN`). -/
def add : Num → Num → Num
  | val a, val b => round (a + b)
  | val _, inf t => inf t
  | inf s, val _ => inf s
  | inf s, inf t => if s = t then inf s else nan
  | _, _ => nan

/-- JavaScript `a - b`. -/
def sub : Num → Num → Num
  | val a, val b => round (a - b)
  | val _, inf t => inf (!t)
  | inf s, val _ => inf s
  | inf s, inf t => if s = t then nan else inf s
  | _, _ => nan

/-- JavaScript `a * b`. -/
def mul : Num → Num → Num
  | val a, val b => round (a * b)
  | val a, inf t => if a = 0 then nan else inf (Bool.xor (decide (a < 0)) t)
  | inf s, val b => if b = 0 then nan else inf (Bool.xor s (decide (b < 0)))
  | inf s, inf t => inf (Bool.xor s t)
  | _, _ => nan

/-- JavaScript `a <= b`: false as soon as one side is not a number. -/
def le : Num → Num → Bool
  | val a, val b => decide (a ≤ b)
  | val _, inf t => !t
  | inf s, val _ => s
  | inf s, inf t => s || !t
  | _, _ => false

/-- JavaScript `a < b`. -/
def lt : Num → Num → Bool
  | val a, val b => decide (a < b)
  | val _, inf t => !t
  | inf s, val _ => s
  | inf s, inf t => s && !t
  | _, _ => false

/-- JavaScript `a > b`. -/
def gt (a b : Num) : Bool := lt b a

/-- JavaScript `a == null`. -/
def isNull : Num → Bool
  | undef => true
  | _ => false

end Num

/-! ## Randomness -/

/-- A result of `Math.random()`: a double in `[0, 1)`. -/
def Unit01 : Type := { q : ℚ // 0 ≤ q ∧ q < 1 ∧ Num.round q = Num.val q }

/-- The results of the successive calls of `Math.random()`. -/
abbrev Rng : Type := Nat → Unit01

/-- The stream after one draw. -/
def Rng.tail (rng : Rng) : Rng := fun n => rng (n + 1)

/-- The expression `array[Math.floor(Math.random() * array.length)]`, for the
draw `r`. -/
def randomElement {α : Type} (array : List α) (r : Unit01) : Option α :=
  match Num.mul (Num.val r.1) (Num.val (array.length : ℚ)) with
  | Num.val q => array[(Int.toNat ⌊q⌋)]?
  | _ => none

/-! ## Vector and Grid -/

/-- A thrown exception. -/
inductive Fault where
  | typeError
  | rangeError
  deriving DecidableEq

/-- An entity reference. -/
abbrev Ref : Type := Nat

structure Vector where
  x : Int
  y : Int
  deriving DecidableEq

def Vector.plus (this vector : Vector) : Vector :=
  ⟨this.x + vector.x, this.y + vector.y⟩

structure Grid where
  space : Int → Option Ref
  width : Nat
  height : Nat

/-- The grid made by `new Grid(width, height)`: no key of `space` is set.
The call `new Array(width * height)` throws a `RangeError` when the length is
not below `2 ^ 32`. -/
def Grid.new (width height : Nat) : Except Fault Grid :=
  if width * height < 2 ^ 32 then pure ⟨fun _ => none, width, height⟩
  else throw Fault.rangeError

def Grid.isInside (this : Grid) (vector : Vector) : Bool :=
  decide (vector.x ≥ 0) && decide (vector.x < this.width) &&
    decide (vector.y ≥ 0) && decide (vector.y < this.height)

def Grid.get (this : Grid) (vector : Vector) : Option Ref :=
  this.space (vector.x + this.width * vector.y)

def Grid.set (this : Grid) (vector : Vector) (value : Option Ref) : Grid :=
  { this with space := Function.update this.space (vector.x + this.width * vector.y) value }

/-- The positions `Grid.forEach` and `World.toString` go through, in the order
of the two nested loops: `y` from `0` to `height - 1`, and for each `y`, `x`
from `0` to `width - 1`. -/
def Grid.positions (this : Grid) : List Vector :=
  (List.range this.height).flatMap fun (y : Nat) =>
    (List.range this.width).map fun (x : Nat) => (⟨(x : Int), (y : Int)⟩ : Vector)

/-- One round of the inner loop of `Grid.prototype.forEach`, at position `v`,
for a callback that works on a state `σ` holding the grid: the cell is read
from the grid as the earlier callbacks left it, and the callback runs when the
cell is not empty. Once a callback has thrown, nothing more is done. -/
def Grid.visit {σ : Type} (grid : σ → Grid) (fn : Ref → Vector → σ → σ × Option Fault)
    (acc : σ × Option Fault) (v : Vector) : σ × Option Fault :=
  match acc.2 with
  | some _ => acc
  | none =>
      match (grid acc.1).space (v.x + v.y * (grid acc.1).width) with
      | some value => fn value v acc.1
      | none => acc

/-- The method `Grid.prototype.forEach`: the positions are visited in row-major
order.
The result is the last state, with the fault when a callback has thrown. -/
def Grid.forEach {σ : Type} (grid : σ → Grid) (fn : Ref → Vector → σ → σ × Option Fault)
    (s : σ) : σ × Option Fault :=
  (grid s).positions.foldl (Grid.visit grid fn) (s, none)

/-! ## Directions -/

/-- The table `directions`. -/
def directions (name : String) : Option Vector :=
  if name = "n" then some ⟨0, -1⟩
  else if name = "ne" then some ⟨1, -1⟩
  else if name = "e" then some ⟨1, 0⟩
  else if name = "se" then some ⟨1, 1⟩
  else if name = "s" then some ⟨0, 1⟩
  else if name = "sw" then some ⟨-1, 1⟩
  else if name = "w" then some ⟨-1, 0⟩
  else if name = "nw" then some ⟨-1, -1⟩
  else none

/-- The array `"n ne e se s sw w nw".split(" ")`, which is also the order in
which `for (var dir in directions)` enumerates the keys of `directions`. -/
def directionNames : List String := ["n", "ne", "e", "se", "s", "sw", "w", "nw"]

/-! ## Entities and the world -/

/-- The constructors of the program. -/
inductive Kind where
  | Wall
  | Plant
  | PlantEater
  | BouncingCritter
  deriving DecidableEq

/-- An entity object: its constructor and the properties the program reads. -/
structure Entity where
  kind : Kind
  originChar : Char
  energy : Num
  direction : Option String

/-- Whether `critter.act` is truthy: every constructor but `Wall` has an `act`
on its prototype. -/
def Entity.hasAct (e : Entity) : Bool :=
  match e.kind with
  | Kind.Wall => false
  | _ => true

structure World where
  grid : Grid
  legend : Char → Option Kind
  objs : Ref → Entity
  next : Ref

/-- Store a new object: the reference is `next`. -/
def World.alloc (w : World) (e : Entity) : Ref × World :=
  (w.next, { w with objs := Function.update w.objs w.next e, next := w.next + 1 })

/-- Assign the `energy` property of an object. -/
def World.setEnergy (w : World) (r : Ref) (energy : Num) : World :=
  { w with objs := Function.update w.objs r { w.objs r with energy := energy } }

/-- Assign the `direction` property of an object. -/
def World.setDirection (w : World) (r : Ref) (direction : Option String) : World :=
  { w with objs := Function.update w.objs r { w.objs r with direction := direction } }

/-- Run a constructor with `new`: the object before `originChar` is assigned
(the character is passed along to fill the field). `Plant` and
`BouncingCritter` draw one random number. -/
def Kind.construct (k : Kind) (ch : Char) (rng : Rng) : Entity × Rng :=
  match k with
  | Kind.Wall => (⟨Kind.Wall, ch, Num.undef, none⟩, rng)
  | Kind.Plant =>
      (⟨Kind.Plant, ch, Num.add (Num.val 3) (Num.mul (Num.val (rng 0).1) (Num.val 4)), none⟩,
        rng.tail)
  | Kind.PlantEater => (⟨Kind.PlantEater, ch, Num.val 20, none⟩, rng)
  | Kind.BouncingCritter =>
      (⟨Kind.BouncingCritter, ch, Num.undef, randomElement directionNames (rng 0)⟩, rng.tail)

def elementFromChar (w : World) (rng : Rng) (ch : Char) :
    Except Fault (Option Ref × World × Rng) :=
  if ch = ' ' then
    pure (none, w, rng)
  else
    match w.legend ch with
    | none => throw Fault.typeError
    | some k =>
        let (element, rng1) := k.construct ch rng
        let (r, w1) := w.alloc element
        pure (some r, w1, rng1)

def charFromElement (w : World) (element : Option Ref) : Char :=
  match element with
  | none => ' '
  | some r => (w.objs r).originChar

/-! ## View -/

structure View where
  world : World
  vector : Vector

def View.look (this : View) (dir : String) : Except Fault Char :=
  match directions dir with
  | none => throw Fault.typeError
  | some d =>
      let target := this.vector.plus d
      if this.world.grid.isInside target then
        pure (charFromElement this.world (this.world.grid.get target))
      else
        pure '#'

def View.findAll (this : View) (ch : Char) : Except Fault (List String) :=
  directionNames.foldlM
    (fun found dir => do
      let c ← this.look dir
      pure (if c = ch then found ++ [dir] else found))
    []

def View.find (this : View) (rng : Rng) (ch : Char) : Except Fault (Option String × Rng) := do
  let found ← this.findAll ch
  if found.length = 0 then
    pure (none, rng)
  else
    pure (randomElement found (rng 0), rng.tail)

/-! ## The decision rules -/

structure Action where
  type : String
  direction : Option String
  deriving DecidableEq

/-- The method `BouncingCritter.prototype.act`; the new `direction` is written
to the object `this`. -/
def BouncingCritter.act (w : World) (rng : Rng) (this : Ref) (view : View) :
    Except Fault (Option Action × World × Rng) :=
  match (w.objs this).direction with
  | none => throw Fault.typeError
  | some d => do
      let c ← view.look d
      if c ≠ ' ' then
        let (found, rng1) ← view.find rng ' '
        let w1 := w.setDirection this (some (found.getD "s"))
        pure (some ⟨"move", (w1.objs this).direction⟩, w1, rng1)
      else
        pure (some ⟨"move", some d⟩, w, rng)

def Plant.act (w : World) (rng : Rng) (this : Ref) (context : View) :
    Except Fault (Option Action × Rng) :=
  let rest (rng : Rng) : Option Action × Rng :=
    if Num.lt (w.objs this).energy (Num.val 20) then (some ⟨"grow", none⟩, rng) else (none, rng)
  if Num.gt (w.objs this).energy (Num.val 15) then do
    let (space, rng1) ← context.find rng ' '
    match space with
    | some sp => pure (some ⟨"reproduce", some sp⟩, rng1)
    | none => pure (rest rng1)
  else
    pure (rest rng)

def PlantEater.act (w : World) (rng : Rng) (this : Ref) (context : View) :
    Except Fault (Option Action × Rng) := do
  let (space, rng1) ← context.find rng ' '
  let rest : Except Fault (Option Action × Rng) := do
    let (plant, rng2) ← context.find rng1 '*'
    match plant with
    | some pl => pure (some ⟨"eat", some pl⟩, rng2)
    | none =>
        match space with
        | some sp => pure (some ⟨"move", some sp⟩, rng2)
        | none => pure (none, rng2)
  match space with
  | some sp =>
      if Num.gt (w.objs this).energy (Num.val 60) then
        pure (some ⟨"reproduce", some sp⟩, rng1)
      else
        rest
  | none => rest

/-- The call `critter.act(view)`, resolved on the constructor of `critter`.
A `Wall` has no `act`, so the call throws. -/
def World.act (w : World) (rng : Rng) (critter : Ref) (view : View) :
    Except Fault (Option Action × World × Rng) :=
  match (w.objs critter).kind with
  | Kind.Wall => throw Fault.typeError
  | Kind.Plant => do
      let (a, rng1) ← Plant.act w rng critter view
      pure (a, w, rng1)
  | Kind.PlantEater => do
      let (a, rng1) ← PlantEater.act w rng critter view
      pure (a, w, rng1)
  | Kind.BouncingCritter => BouncingCritter.act w rng critter view

/-! ## Action handlers -/

def World.checkDestination (this : World) (action : Action) (vector : Vector) : Option Vector :=
  match action.direction with
  | none => none
  | some name =>
      match directions name with
      | none => none
      | some d =>
          let dest := vector.plus d
          if this.grid.isInside dest then some dest else none

def actionTypes.grow (this : World) (critter : Ref) : Bool × World :=
  (true, this.setEnergy critter (Num.add (this.objs critter).energy (Num.val (1 / 2))))

def actionTypes.move (this : World) (critter : Ref) (vector : Vector) (action : Action) :
    Bool × World :=
  match this.checkDestination action vector with
  | none => (false, this)
  | some dest =>
      if Num.le (this.objs critter).energy (Num.val 1) || (this.grid.get dest).isSome then
        (false, this)
      else
        let w1 := this.setEnergy critter (Num.sub (this.objs critter).energy (Num.val 1))
        let w2 := { w1 with grid := w1.grid.set vector none }
        (true, { w2 with grid := w2.grid.set dest (some critter) })

def actionTypes.eat (this : World) (critter : Ref) (vector : Vector) (action : Action) :
    Bool × World :=
  match this.checkDestination action vector with
  | none => (false, this)
  | some dest =>
      match this.grid.get dest with
      | none => (false, this)
      | some atDest =>
          if (this.objs atDest).energy.isNull then
            (false, this)
          else
            let w1 := this.setEnergy critter
              (Num.add (this.objs critter).energy (this.objs atDest).energy)
            (true, { w1 with grid := w1.grid.set dest none })

/-- The handler `actionTypes.reproduce`. The baby is constructed first, whatever happens
next; `baby.energy` is only read once `dest == null` has turned out false, and
reading it throws when `baby` is `null`. -/
def actionTypes.reproduce (this : World) (rng : Rng) (critter : Ref) (vector : Vector)
    (action : Action) : Except Fault (Bool × World × Rng) := do
  let (baby, w1, rng1) ← elementFromChar this rng (this.objs critter).originChar
  match w1.checkDestination action vector with
  | none => pure (false, w1, rng1)
  | some dest =>
      match baby with
      | none => throw Fault.typeError
      | some b =>
          let cost := Num.mul (Num.val 2) (w1.objs b).energy
          if Num.le (w1.objs critter).energy cost || (w1.grid.get dest).isSome then
            pure (false, w1, rng1)
          else
            let w2 := w1.setEnergy critter (Num.sub (w1.objs critter).energy cost)
            pure (true, { w2 with grid := w2.grid.set dest (some b) }, rng1)

/-- The value of `handled` in `letAct`:
`action && action.type in actionTypes && actionTypes[action.type].call(...)`,
with the four handlers the program puts in `actionTypes`. The properties that
`actionTypes` inherits from `Object.prototype` (`toString` and the like) are
left out: no decision rule of the program proposes such a type. -/
def World.handled (this : World) (rng : Rng) (critter : Ref) (vector : Vector)
    (action : Option Action) : Except Fault (Bool × World × Rng) :=
  match action with
  | none => pure (false, this, rng)
  | some a =>
      if a.type = "grow" then
        pure ((actionTypes.grow this critter).1, (actionTypes.grow this critter).2, rng)
      else if a.type = "move" then
        pure ((actionTypes.move this critter vector a).1,
          (actionTypes.move this critter vector a).2, rng)
      else if a.type = "eat" then
        pure ((actionTypes.eat this critter vector a).1,
          (actionTypes.eat this critter vector a).2, rng)
      else if a.type = "reproduce" then
        actionTypes.reproduce this rng critter vector a
      else
        pure (false, this, rng)

/-- The penalty branch of `letAct`: `critter.energy -= 0.2`, and the cell is
cleared when the energy is then `<= 0`. The literal `0.2` is the double
nearest to `1 / 5`. -/
def World.penalty (this : World) (critter : Ref) (vector : Vector) : World :=
  let w1 := this.setEnergy critter (Num.sub (this.objs critter).energy (Num.round (1 / 5)))
  if Num.le (w1.objs critter).energy (Num.val 0) then
    { w1 with grid := w1.grid.set vector none }
  else
    w1

def World.letAct (this : World) (rng : Rng) (critter : Ref) (vector : Vector) :
    Except Fault (World × Rng) := do
  let (action, w1, rng1) ← this.act rng critter ⟨this, vector⟩
  let (handled, w2, rng2) ← w1.handled rng1 critter vector action
  if handled then
    pure (w2, rng2)
  else
    pure (w2.penalty critter vector, rng2)

/-! ## The turn -/

/-- What the loop of `World.turn` works on: the world, the random stream, the
array `acted`, and `calls`, a record of the calls of `letAct` made so far
(the program keeps no such record; it is here to state properties of the
order of calls). -/
structure TurnState where
  world : World
  rng : Rng
  acted : List Ref
  calls : List (Ref × Vector)

/-- The callback `World.turn` gives to `forEach`. When `letAct` throws, the
world is as it was before the call: each `throw` of the model comes before the
first assignment of the call. -/
def World.turnFn (critter : Ref) (vector : Vector) (s : TurnState) : TurnState × Option Fault :=
  if (s.world.objs critter).hasAct && !(s.acted.contains critter) then
    match s.world.letAct s.rng critter vector with
    | Except.ok (w, rng) =>
        (⟨w, rng, s.acted ++ [critter], s.calls ++ [(critter, vector)]⟩, none)
    | Except.error f =>
        (⟨s.world, s.rng, s.acted ++ [critter], s.calls ++ [(critter, vector)]⟩, some f)
  else
    (s, none)

/-- The method `World.prototype.turn`, without the final `draw` (which prints
`toString()` and changes nothing). -/
def World.turn (this : World) (rng : Rng) : TurnState × Option Fault :=
  Grid.forEach (fun s => s.world.grid) World.turnFn ⟨this, rng, [], []⟩

/-- The state of the loop of `World.turn` once the positions `visited` have
been gone through; `World.turn` is the case `visited = this.grid.positions`. -/
def World.turnAfter (this : World) (rng : Rng) (visited : List Vector) :
    TurnState × Option Fault :=
  visited.foldl (Grid.visit (fun s => s.world.grid) World.turnFn) (⟨this, rng, [], []⟩, none)

/-! ## Construction and rendering -/

/-- The inner loop of the constructor `World`: the characters of one line,
from column `x` on. -/
def World.fillLine (w : World) (rng : Rng) (y : Nat) :
    List Char → Nat → Except Fault (World × Rng)
  | [], _ => pure (w, rng)
  | ch :: rest, x => do
      let (element, w1, rng1) ← elementFromChar w rng ch
      World.fillLine { w1 with grid := w1.grid.set ⟨(x : Int), (y : Int)⟩ element } rng1 y rest (x + 1)

/-- The outer loop of the constructor `World`: the lines from row `y` on. -/
def World.fillLines (w : World) (rng : Rng) :
    List (List Char) → Nat → Except Fault (World × Rng)
  | [], _ => pure (w, rng)
  | line :: rest, y => do
      let (w1, rng1) ← World.fillLine w rng y line 0
      World.fillLines w1 rng1 rest (y + 1)

/-- The object every reference points to before it is allocated. -/
def Entity.blank : Entity := ⟨Kind.Wall, ' ', Num.undef, none⟩

/-- The constructor `World(map, legend)`, starting from an empty store.
`map[0].length` throws on an empty map, and `new Grid` throws when the map has
`2 ^ 32` cells or more. -/
def World.new (map : List (List Char)) (legend : Char → Option Kind) (rng : Rng) :
    Except Fault (World × Rng) :=
  match map with
  | [] => throw Fault.typeError
  | line0 :: _ => do
      let grid ← Grid.new line0.length map.length
      World.fillLines ⟨grid, legend, fun _ => Entity.blank, 0⟩ rng map 0

/-- The method `World.prototype.toString`; `separator = none` is the call
without argument. -/
def World.toString (this : World) (separator : Option (List Char)) : List Char :=
  let separator := separator.getD ['\n']
  (List.range this.grid.height).foldl
    (fun (output : List Char) (y : Nat) =>
      (List.range this.grid.width).foldl
        (fun (output : List Char) (x : Nat) =>
          output ++ [charFromElement this (this.grid.get ⟨(x : Int), (y : Int)⟩)])
        output ++ separator)
    []

/-! ## Predicates used in the statements -/

/-- Every reference held in the grid has been allocated. -/
def World.Allocated (w : World) : Prop :=
  ∀ key r, w.grid.space key = some r → r < w.next

/-- Every character of the line is a space or a key of the legend. -/
def LegalLine (legend : Char → Option Kind) (line : List Char) : Prop :=
  ∀ ch ∈ line, ch = ' ' ∨ ∃ k, legend ch = some k

/-- Every character of the line is one UTF-16 code unit, so that the list is
the JavaScript string, unit by unit (a character from `U+10000` on takes two
units in a string). -/
def UnitLine (line : List Char) : Prop :=
  ∀ ch ∈ line, ch.toNat < 65536

/-- The references found in the cells of `w1` were there in `w`, or are `c`,
or have been allocated in between; the size of the grid is the same. -/
def World.CellsFrom (w w1 : World) (c : Ref) : Prop :=
  w.next ≤ w1.next ∧ w1.grid.width = w.grid.width ∧ w1.grid.height = w.grid.height ∧
    ∀ key r, w1.grid.space key = some r →
      w.grid.space key = some r ∨ r = c ∨ (w.next ≤ r ∧ r < w1.next)

/-- The cells of the result hold what they held, or `c`. -/
def World.NoNewCell (w w1 : World) (c : Ref) : Prop :=
  ∀ key r, w1.grid.space key = some r → w.grid.space key = some r ∨ r = c

/-- No reference is held by two cells of the array `space`. -/
def World.Unique (w : World) : Prop :=
  ∀ k1 k2 r, w.grid.space k1 = some r → w.grid.space k2 = some r → k1 = k2

/-- The ways the grid of `w1` can differ from the grid of `w` after `letAct`
on `c` at `p` with the proposed `action`: not at all; a move (source cleared,
empty destination now holding `c`); an eaten neighbour (the destination, which
held an entity with an energy, cleared); an offspring (the empty destination
now holding the new object); or the removal of `c` (cell `p` cleared). -/
def World.GridEffect (w w1 : World) (c : Ref) (p : Vector) (action : Option Action) : Prop :=
  w1.grid.space = w.grid.space ∨
    (∃ a dest, action = some a ∧ w.checkDestination a p = some dest ∧
      w.grid.get dest = none ∧
      w1.grid.space =
        Function.update (Function.update w.grid.space (p.x + w.grid.width * p.y) none)
          (dest.x + w.grid.width * dest.y) (some c)) ∨
    (∃ a dest t, action = some a ∧ w.checkDestination a p = some dest ∧
      w.grid.get dest = some t ∧ (w.objs t).energy ≠ Num.undef ∧
      w1.grid.space = Function.update w.grid.space (dest.x + w.grid.width * dest.y) none) ∨
    (∃ a dest, action = some a ∧ w.checkDestination a p = some dest ∧
      w.grid.get dest = none ∧ w1.next = w.next + 1 ∧
      w1.grid.space =
        Function.update w.grid.space (dest.x + w.grid.width * dest.y) (some w.next)) ∨
    w1.grid.space = Function.update w.grid.space (p.x + w.grid.width * p.y) none

/-- The objects that existed keep their fields, the acting one apart. -/
def World.ObjsKept (w w1 : World) (c : Ref) : Prop :=
  ∀ r, r < w.next → r ≠ c → w1.objs r = w.objs r

/-! ## Concrete worlds -/

/-- A random source whose every draw is `0`. -/
def rngZero : Rng := fun _ => ⟨0, le_refl 0, zero_lt_one, by decide!⟩

/-- A random source whose every draw is `2 ^ (-53)`. -/
def rngTiny : Rng := fun _ => ⟨1 / 9007199254740992, by norm_num, by norm_num, by decide!⟩

/-- A random source whose every draw is `1 - 2 ^ (-53)`, the largest double
below 1. -/
def rngMax : Rng :=
  fun _ => ⟨9007199254740991 / 9007199254740992, by norm_num, by norm_num, by decide!⟩

/-- The legend `init` passes to `World`. -/
def initLegend (ch : Char) : Option Kind :=
  if ch = '#' then some Kind.Wall
  else if ch = '*' then some Kind.Plant
  else if ch = 'O' then some Kind.PlantEater
  else none

/-- A row of two cells: a `PlantEater` with energy 20, then an empty cell. -/
def eaterWorld : World :=
  ⟨⟨fun key => if key = 0 then some 0 else none, 2, 1⟩, initLegend,
    fun _ => ⟨Kind.PlantEater, 'O', Num.val 20, none⟩, 1⟩

/-- A single cell holding a `PlantEater` with energy 20. -/
def loneEaterWorld : World :=
  ⟨⟨fun key => if key = 0 then some 0 else none, 1, 1⟩, initLegend,
    fun _ => ⟨Kind.PlantEater, 'O', Num.val 20, none⟩, 1⟩

/-- A row of two cells: a `PlantEater` with energy `2 ^ 53 + 2`, then an empty
cell. -/
def bigEaterWorld : World :=
  ⟨⟨fun key => if key = 0 then some 0 else none, 2, 1⟩, initLegend,
    fun _ => ⟨Kind.PlantEater, 'O', Num.val 9007199254740994, none⟩, 1⟩

/-- A single cell holding a `PlantEater` with energy 1. -/
def starvingWorld : World :=
  ⟨⟨fun key => if key = 0 then some 0 else none, 1, 1⟩, initLegend,
    fun _ => ⟨Kind.PlantEater, 'O', Num.val 1, none⟩, 1⟩

/-- The world `starvingWorld` after `n` calls of `turn`. -/
def starvingAfter : Nat → World
  | 0 => starvingWorld
  | n + 1 => (World.turn (starvingAfter n) rngZero).1.world

/-- A row of two cells: a `Plant` with energy 16, then an empty cell. -/
def plantWorld : World :=
  ⟨⟨fun key => if key = 0 then some 0 else none, 2, 1⟩, initLegend,
    fun _ => ⟨Kind.Plant, '*', Num.val 16, none⟩, 1⟩

/-- A row of three cells: an empty cell, a `Plant` with energy 16 (object 0)
and a `Plant` with energy 3 (object 1). -/
def plantRowWorld : World :=
  ⟨⟨fun key => if key = 1 then some 0 else if key = 2 then some 1 else none, 3, 1⟩, initLegend,
    fun r => if r = 0 then ⟨Kind.Plant, '*', Num.val 16, none⟩
      else ⟨Kind.Plant, '*', Num.val 3, none⟩, 2⟩

/-- A single cell holding a `Plant` with energy 16. -/
def lonePlantWorld : World :=
  ⟨⟨fun key => if key = 0 then some 0 else none, 1, 1⟩, initLegend,
    fun _ => ⟨Kind.Plant, '*', Num.val 16, none⟩, 1⟩

/-- A row of two cells: a `PlantEater` with energy 20 (object 0), then a
`Plant` with energy 3 (object 1). -/
def eaterPlantWorld : World :=
  ⟨⟨fun key => if key = 0 then some 0 else if key = 1 then some 1 else none, 2, 1⟩, initLegend,
    fun r => if r = 0 then ⟨Kind.PlantEater, 'O', Num.val 20, none⟩
      else ⟨Kind.Plant, '*', Num.val 3, none⟩, 2⟩

/-- A row of three cells: a `Wall` (object 0), a `PlantEater` with energy 20
(object 1) and an empty cell. -/
def wallWorld : World :=
  ⟨⟨fun key => if key = 0 then some 0 else if key = 1 then some 1 else none, 3, 1⟩, initLegend,
    fun r => if r = 0 then ⟨Kind.Wall, '#', Num.undef, none⟩
      else ⟨Kind.PlantEater, 'O', Num.val 20, none⟩, 2⟩

/-- The scenario of the surrounded `PlantEater`: a grid of 3 by 3 cells whose
centre holds a `PlantEater` with energy 20 (object 4) and whose other cells
each hold a `Plant` with energy 3 (the object `k` in the cell of key `k`). -/
def surroundedWorld : World :=
  ⟨⟨fun key => if 0 ≤ key ∧ key < 9 then some key.toNat else none, 3, 3⟩, initLegend,
    fun r => if r = 4 then ⟨Kind.PlantEater, 'O', Num.val 20, none⟩
      else ⟨Kind.Plant, '*', Num.val 3, none⟩, 9⟩

/-- The scenario once the four plants that come before the centre have grown. -/
def surroundedGrown : World :=
  (((surroundedWorld.setEnergy 0 (Num.val (3 + 1 / 2))).setEnergy 1
    (Num.val (3 + 1 / 2))).setEnergy 2 (Num.val (3 + 1 / 2))).setEnergy 3 (Num.val (3 + 1 / 2))

/-- A legend with a `BouncingCritter`, under the character `'*'`. -/
def bounceLegend (ch : Char) : Option Kind :=
  if ch = '*' then some Kind.BouncingCritter
  else if ch = 'O' then some Kind.PlantEater
  else none

/-! # Theorems -/

/-! ### Rounding -/

namespace Num

theorem pow2_eq (e : Int) : pow2 e = (2 : ℚ) ^ e := by
  unfold pow2
  split
  · rename_i h
    obtain ⟨n, rfl⟩ := Int.eq_ofNat_of_zero_le h
    simp
  · rename_i h
    obtain ⟨n, hn⟩ := Int.eq_ofNat_of_zero_le (show 0 ≤ -e by omega)
    have he : e = -(n : Int) := by omega
    subst he
    simp

theorem pow2_pos (e : Int) : 0 < pow2 e := by
  rw [pow2_eq]
  positivity

theorem pow2_add (a b : Int) : pow2 (a + b) = pow2 a * pow2 b := by
  simp only [pow2_eq]
  exact zpow_add₀ (by norm_num) a b

theorem pow2_le_pow2 {a b : Int} (h : a ≤ b) : pow2 a ≤ pow2 b := by
  simp only [pow2_eq]
  exact zpow_le_zpow_right₀ (by norm_num) h

theorem log2Aux_spec : ∀ (fuel n : Nat), n ≤ fuel → n ≠ 0 →
    2 ^ log2Aux fuel n ≤ n ∧ n < 2 ^ (log2Aux fuel n + 1)
  | 0, n, h, h0 => absurd (Nat.le_zero.mp h) h0
  | fuel + 1, n, h, h0 => by
      unfold log2Aux
      split
      · constructor <;> simp <;> omega
      · have ih := log2Aux_spec fuel (n / 2) (by omega) (by omega)
        have e1 : 2 ^ (log2Aux fuel (n / 2) + 1) = 2 * 2 ^ log2Aux fuel (n / 2) := by
          rw [pow_succ]; ring
        have e2 : 2 ^ (log2Aux fuel (n / 2) + 1 + 1) = 4 * 2 ^ log2Aux fuel (n / 2) := by
          rw [pow_succ, pow_succ]; ring
        rw [e2, e1]
        rw [e1] at ih
        omega

theorem log2_spec (n : Nat) (h : n ≠ 0) : 2 ^ log2 n ≤ n ∧ n < 2 ^ (log2 n + 1) :=
  log2Aux_spec n n (le_refl n) h

theorem ilog2_spec (a : ℚ) (h : 0 < a) : pow2 (ilog2 a) ≤ a ∧ a < pow2 (ilog2 a + 1) := by
  have hnum : 0 < a.num := Rat.num_pos.mpr h
  have hn0 : a.num.natAbs ≠ 0 := by omega
  have hd0 : a.den ≠ 0 := a.den_nz
  obtain ⟨hn1, hn2⟩ := log2_spec a.num.natAbs hn0
  obtain ⟨hd1, hd2⟩ := log2_spec a.den hd0
  have ha : a = (a.num.natAbs : ℚ) / (a.den : ℚ) := by
    have h1 : ((a.num.natAbs : Int) : ℚ) = (a.num : ℚ) := by
      rw [Int.natAbs_of_nonneg hnum.le]
    rw [← Int.cast_natCast, h1, Rat.num_div_den]
  have hdpos : (0 : ℚ) < (a.den : ℚ) := by exact_mod_cast a.den_pos
  have qn1 : (2 : ℚ) ^ (log2 a.num.natAbs) ≤ (a.num.natAbs : ℚ) := by exact_mod_cast hn1
  have qn2 : (a.num.natAbs : ℚ) < (2 : ℚ) ^ (log2 a.num.natAbs + 1) := by exact_mod_cast hn2
  have qd1 : (2 : ℚ) ^ (log2 a.den) ≤ (a.den : ℚ) := by exact_mod_cast hd1
  have qd2 : (a.den : ℚ) < (2 : ℚ) ^ (log2 a.den + 1) := by exact_mod_cast hd2
  have two : (2 : ℚ) ≠ 0 := by norm_num
  unfold ilog2
  simp only
  split
  · rename_i hle
    refine ⟨hle, ?_⟩
    rw [pow2_eq]
    have e : (2 : ℚ) ^ ((log2 a.num.natAbs : Int) - (log2 a.den : Int) + 1) =
        (2 : ℚ) ^ (log2 a.num.natAbs + 1) / (2 : ℚ) ^ (log2 a.den) := by
      rw [show ((log2 a.num.natAbs : Int) - (log2 a.den : Int) + 1) =
        ((log2 a.num.natAbs + 1 : Nat) : Int) - ((log2 a.den : Nat) : Int) by push_cast; ring]
      rw [zpow_sub₀ two, zpow_natCast, zpow_natCast]
    rw [e]
    conv_lhs => rw [ha]
    rw [div_lt_div_iff₀ hdpos (by positivity)]
    calc (a.num.natAbs : ℚ) * (2 : ℚ) ^ (log2 a.den)
        < (2 : ℚ) ^ (log2 a.num.natAbs + 1) * (2 : ℚ) ^ (log2 a.den) := by
          apply mul_lt_mul_of_pos_right qn2 (by positivity)
      _ ≤ (2 : ℚ) ^ (log2 a.num.natAbs + 1) * (a.den : ℚ) := by
          apply mul_le_mul_of_nonneg_left qd1 (by positivity)
  · rename_i hlt
    rw [not_le] at hlt
    refine ⟨?_, ?_⟩
    · rw [pow2_eq]
      have e : (2 : ℚ) ^ ((log2 a.num.natAbs : Int) - (log2 a.den : Int) - 1) =
          (2 : ℚ) ^ (log2 a.num.natAbs) / (2 : ℚ) ^ (log2 a.den + 1) := by
        rw [show ((log2 a.num.natAbs : Int) - (log2 a.den : Int) - 1) =
          ((log2 a.num.natAbs : Nat) : Int) - ((log2 a.den + 1 : Nat) : Int) by push_cast; ring]
        rw [zpow_sub₀ two, zpow_natCast, zpow_natCast]
      rw [e]
      conv_rhs => rw [ha]
      rw [div_le_div_iff₀ (by positivity) hdpos]
      calc (2 : ℚ) ^ (log2 a.num.natAbs) * (a.den : ℚ)
          ≤ (2 : ℚ) ^ (log2 a.num.natAbs) * (2 : ℚ) ^ (log2 a.den + 1) := by
            apply mul_le_mul_of_nonneg_left qd2.le (by positivity)
        _ ≤ (a.num.natAbs : ℚ) * (2 : ℚ) ^ (log2 a.den + 1) := by
            apply mul_le_mul_of_nonneg_right qn1 (by positivity)
    · rw [show ((log2 a.num.natAbs : Int) - (log2 a.den : Int) - 1 + 1) =
        (log2 a.num.natAbs : Int) - (log2 a.den : Int) by ring]
      exact hlt

theorem ilog2_unique (a : ℚ) (k : Int) (h1 : pow2 k ≤ a) (h2 : a < pow2 (k + 1)) :
    ilog2 a = k := by
  have h : 0 < a := lt_of_lt_of_le (pow2_pos k) h1
  obtain ⟨s1, s2⟩ := ilog2_spec a h
  have two : (1 : ℚ) < 2 := by norm_num
  rw [pow2_eq] at h1 h2 s1 s2
  have a1 : (2 : ℚ) ^ k < (2 : ℚ) ^ (ilog2 a + 1) := lt_of_le_of_lt h1 s2
  have a2 : (2 : ℚ) ^ (ilog2 a) < (2 : ℚ) ^ (k + 1) := lt_of_le_of_lt s1 h2
  have b1 := (zpow_lt_zpow_iff_right₀ two).mp a1
  have b2 := (zpow_lt_zpow_iff_right₀ two).mp a2
  omega

theorem ilog2_mono (a b : ℚ) (h : 0 < a) (hab : a ≤ b) : ilog2 a ≤ ilog2 b := by
  obtain ⟨s1, -⟩ := ilog2_spec a h
  obtain ⟨-, t2⟩ := ilog2_spec b (lt_of_lt_of_le h hab)
  have two : (1 : ℚ) < 2 := by norm_num
  rw [pow2_eq] at s1 t2
  have a1 : (2 : ℚ) ^ (ilog2 a) < (2 : ℚ) ^ (ilog2 b + 1) :=
    lt_of_le_of_lt s1 (lt_of_le_of_lt hab t2)
  have b1 := (zpow_lt_zpow_iff_right₀ two).mp a1
  omega


theorem roundHalfEven_bounds (m : ℚ) : ⌊m⌋ ≤ roundHalfEven m ∧ roundHalfEven m ≤ ⌊m⌋ + 1 := by
  unfold roundHalfEven
  split_ifs <;> constructor <;> omega

theorem roundHalfEven_intCast (n : Int) : roundHalfEven (n : ℚ) = n := by
  unfold roundHalfEven
  simp

theorem roundHalfEven_mono {x y : ℚ} (h : x ≤ y) : roundHalfEven x ≤ roundHalfEven y := by
  have hf : ⌊x⌋ ≤ ⌊y⌋ := Int.floor_mono h
  rcases lt_or_eq_of_le hf with hlt | heq
  · have := (roundHalfEven_bounds x).2
    have := (roundHalfEven_bounds y).1
    omega
  · unfold roundHalfEven
    rw [heq]
    have hxy : x - (⌊y⌋ : ℚ) ≤ y - (⌊y⌋ : ℚ) := by linarith
    split_ifs <;> first | omega | (exfalso; linarith)

theorem roundMag_nonneg (a : ℚ) (h : 0 ≤ a) : 0 ≤ roundMag a := by
  unfold roundMag
  have h1 : 0 ≤ a / pow2 (quantum a) := div_nonneg h (pow2_pos _).le
  have h2 : (0 : Int) ≤ roundHalfEven (a / pow2 (quantum a)) :=
    le_trans (Int.floor_nonneg.mpr h1) (roundHalfEven_bounds _).1
  exact mul_nonneg (by exact_mod_cast h2) (pow2_pos _).le

theorem roundMag_le_of_le {x B : ℚ} (N : Int) (hx : x ≤ B) (hB : B = N * pow2 (quantum x)) :
    roundMag x ≤ B := by
  unfold roundMag
  have h1 : x / pow2 (quantum x) ≤ (N : ℚ) := by
    rw [div_le_iff₀ (pow2_pos _), ← hB]
    exact hx
  have h2 := roundHalfEven_mono h1
  rw [roundHalfEven_intCast] at h2
  rw [hB]
  exact mul_le_mul_of_nonneg_right (by exact_mod_cast h2) (pow2_pos _).le

theorem le_roundMag_of_le {x B : ℚ} (N : Int) (hx : B ≤ x) (hB : B = N * pow2 (quantum x)) :
    B ≤ roundMag x := by
  unfold roundMag
  have h1 : (N : ℚ) ≤ x / pow2 (quantum x) := by
    rw [le_div_iff₀ (pow2_pos _), ← hB]
    exact hx
  have h2 := roundHalfEven_mono h1
  rw [roundHalfEven_intCast] at h2
  rw [hB]
  exact mul_le_mul_of_nonneg_right (by exact_mod_cast h2) (pow2_pos _).le

/-- A power of two with a non-negative exponent is an integer. -/
theorem pow2_intCast {e : Int} (h : 0 ≤ e) : pow2 e = (((2 : Int) ^ e.toNat : Int) : ℚ) := by
  unfold pow2
  rw [if_pos h]
  push_cast
  rfl

theorem roundMag_zero : roundMag 0 = 0 := by
  unfold roundMag
  simp [roundHalfEven]

theorem roundMag_mono {x y : ℚ} (hx : 0 ≤ x) (h : x ≤ y) : roundMag x ≤ roundMag y := by
  rcases eq_or_lt_of_le hx with h0 | hpos
  · rw [← h0, roundMag_zero]
    exact roundMag_nonneg y (le_trans hx h)
  have hy : 0 < y := lt_of_lt_of_le hpos h
  have hl : ilog2 x ≤ ilog2 y := ilog2_mono x y hpos h
  have hq : quantum x ≤ quantum y := by
    unfold quantum
    omega
  rcases eq_or_lt_of_le hq with heq | hlt
  · unfold roundMag
    rw [heq]
    have h1 : x / pow2 (quantum y) ≤ y / pow2 (quantum y) :=
      div_le_div_of_nonneg_right h (pow2_pos _).le
    exact mul_le_mul_of_nonneg_right (by exact_mod_cast roundHalfEven_mono h1) (pow2_pos _).le
  · have hqy : quantum y = ilog2 y - 52 := by
      unfold quantum at hlt ⊢
      omega
    have hqx : ilog2 x - 52 ≤ quantum x := by
      unfold quantum
      omega
    have hB1 : pow2 (ilog2 y) ≤ y := (ilog2_spec y hy).1
    have hB2 : x ≤ pow2 (ilog2 y) :=
      le_trans (ilog2_spec x hpos).2.le (pow2_le_pow2 (by omega))
    have e1 : pow2 (ilog2 y) =
        (((2 : Int) ^ (ilog2 y - quantum x).toNat : Int) : ℚ) * pow2 (quantum x) := by
      rw [← pow2_intCast (by omega), ← pow2_add]
      congr 1
      ring
    have e2 : pow2 (ilog2 y) = (((2 : Int) ^ (52 : Int).toNat : Int) : ℚ) * pow2 (quantum y) := by
      rw [← pow2_intCast (by omega), ← pow2_add, hqy]
      congr 1
      ring
    exact le_trans (roundMag_le_of_le _ hB2 e1) (le_roundMag_of_le _ hB1 e2)

theorem round_of_nonneg (x : ℚ) (hx : 0 ≤ x) :
    round x = if pow2 1024 ≤ roundMag x then inf false else val (roundMag x) := by
  unfold round
  rw [abs_of_nonneg hx]
  simp [not_lt.mpr hx]

theorem round_eq_val_nonneg {x v : ℚ} (hx : 0 ≤ x) (h : round x = val v) :
    roundMag x < pow2 1024 ∧ v = roundMag x := by
  rw [round_of_nonneg x hx] at h
  split_ifs at h with hc
  · exact ⟨not_le.mp hc, (Num.val.inj h).symm⟩

/-- Rounding keeps a non-negative number between the doubles that enclose it. -/
theorem round_between {lo x hi l h : ℚ} (h0 : 0 ≤ lo) (h1 : lo ≤ x) (h2 : x ≤ hi)
    (hl : round lo = val l) (hh : round hi = val h) :
    ∃ q, round x = val q ∧ l ≤ q ∧ q ≤ h := by
  have hx : 0 ≤ x := le_trans h0 h1
  obtain ⟨hlt, rfl⟩ := round_eq_val_nonneg (le_trans hx h2) hh
  obtain ⟨-, rfl⟩ := round_eq_val_nonneg h0 hl
  have m1 := roundMag_mono h0 h1
  have m2 := roundMag_mono hx h2
  refine ⟨roundMag x, ?_, m1, m2⟩
  rw [round_of_nonneg x hx, if_neg (not_le.mpr (lt_of_le_of_lt m2 hlt))]

/-- A double is a multiple of its quantum. -/
theorem round_fixed_multiple {x : ℚ} (hx : 0 ≤ x) (h : round x = val x) :
    ∃ n : Int, x = n * pow2 (quantum x) := by
  obtain ⟨-, e⟩ := round_eq_val_nonneg hx h
  exact ⟨roundHalfEven (x / pow2 (quantum x)), e⟩

/-- A multiple of a power of two that is not finer than the quantum is kept by
the rounding (up to overflow). -/
theorem roundMag_multiple {x : ℚ} (n : Int) (m : Int) (hm : quantum x ≤ m)
    (h : x = n * pow2 m) : roundMag x = x := by
  have e : x / pow2 (quantum x) = ((n * (2 : Int) ^ (m - quantum x).toNat : Int) : ℚ) := by
    rw [div_eq_iff (pow2_pos _).ne']
    push_cast
    have := pow2_intCast (show 0 ≤ m - quantum x by omega)
    push_cast at this
    rw [mul_assoc, ← this, ← pow2_add, h]
    congr 2
    ring
  unfold roundMag
  rw [e, roundHalfEven_intCast, ← e]
  exact div_mul_cancel₀ _ (pow2_pos _).ne'


theorem ilog2_le_of_lt {v : ℚ} {k : Int} (hv : 0 < v) (h : v < pow2 (k + 1)) : ilog2 v ≤ k := by
  have s1 := (ilog2_spec v hv).1
  have two : (1 : ℚ) < 2 := by norm_num
  rw [pow2_eq] at s1 h
  have b1 := (zpow_lt_zpow_iff_right₀ two).mp (lt_of_le_of_lt s1 h)
  omega

/-- The result of a rounding is a double: rounding it again changes nothing. -/
theorem roundMag_idem {q : ℚ} (hq : 0 ≤ q) : roundMag (roundMag q) = roundMag q := by
  rcases eq_or_lt_of_le hq with h0 | hpos
  · rw [← h0, roundMag_zero, roundMag_zero]
  have hv0 : 0 ≤ roundMag q := roundMag_nonneg q hq
  rcases eq_or_lt_of_le hv0 with hz | hvpos
  · rw [← hz, roundMag_zero]
  have hK : quantum q ≤ max (ilog2 q + 1) (quantum q) := le_max_right _ _
  have hup : roundMag q ≤ pow2 (max (ilog2 q + 1) (quantum q)) := by
    refine roundMag_le_of_le ((2 : Int) ^ (max (ilog2 q + 1) (quantum q) - quantum q).toNat)
      (le_trans (ilog2_spec q hpos).2.le (pow2_le_pow2 (le_max_left _ _))) ?_
    rw [← pow2_intCast (by omega), ← pow2_add]
    congr 1
    ring
  rcases eq_or_lt_of_le hup with heq | hlt
  · refine roundMag_multiple 1 (max (ilog2 q + 1) (quantum q)) ?_ (by rw [heq]; simp)
    have : ilog2 (roundMag q) = max (ilog2 q + 1) (quantum q) := by
      apply ilog2_unique
      · rw [heq]
      · rw [heq]
        simp only [pow2_eq]
        exact zpow_lt_zpow_right₀ (by norm_num) (by omega)
    have hQ : quantum q = max (ilog2 q - 52) (-1074) := rfl
    have hQ1 : quantum (roundMag q) = max (ilog2 (roundMag q) - 52) (-1074) := rfl
    omega
  · have hk : ilog2 (roundMag q) ≤ max (ilog2 q + 1) (quantum q) - 1 :=
      ilog2_le_of_lt hvpos (by rw [sub_add_cancel]; exact hlt)
    refine roundMag_multiple (roundHalfEven (q / pow2 (quantum q))) (quantum q) ?_ rfl
    have hQ : quantum q = max (ilog2 q - 52) (-1074) := rfl
    have hQ1 : quantum (roundMag q) = max (ilog2 (roundMag q) - 52) (-1074) := rfl
    omega

theorem round_idem {q v : ℚ} (hq : 0 ≤ q) (h : round q = val v) : round v = val v := by
  obtain ⟨hlt, rfl⟩ := round_eq_val_nonneg hq h
  rw [round_of_nonneg _ (roundMag_nonneg q hq), roundMag_idem hq, if_neg (not_le.mpr hlt)]

/-- Doubling a double is exact, short of overflow. -/
theorem round_two_mul {b : ℚ} (hb : 0 ≤ b) (hd : round b = val b) (hlt : 2 * b < pow2 1024) :
    round (2 * b) = val (2 * b) := by
  rcases eq_or_lt_of_le hb with h0 | hpos
  · subst h0
    simpa using hd
  obtain ⟨n, hn⟩ := round_fixed_multiple hb hd
  have hlog : ilog2 (2 * b) = ilog2 b + 1 := by
    obtain ⟨s1, s2⟩ := ilog2_spec b hpos
    apply ilog2_unique
    · rw [pow2_add]
      have : pow2 1 = 2 := by decide!
      rw [this]
      linarith
    · rw [pow2_add (ilog2 b + 1) 1]
      have : pow2 1 = 2 := by decide!
      rw [this]
      linarith
  have hm : roundMag (2 * b) = 2 * b := by
    refine roundMag_multiple n (quantum b + 1) ?_ ?_
    · unfold quantum
      rw [hlog]
      omega
    · rw [pow2_add]
      have : pow2 1 = 2 := by decide!
      rw [this]
      conv_lhs => rw [hn]
      ring
  rw [round_of_nonneg _ (by linarith), hm, if_neg (not_le.mpr hlt)]

/-- Between a multiple `N * 2 ^ (k - 52)` of the quantum and the next one there
is no double of the binade `[2 ^ k, 2 ^ (k + 1))`. -/
theorem double_succ {x : ℚ} (k N : Int) (hk : -1022 ≤ k) (h1 : pow2 k ≤ x)
    (h2 : x < pow2 (k + 1)) (hd : round x = val x) (hlt : (N : ℚ) * pow2 (k - 52) < x) :
    ((N + 1 : Int) : ℚ) * pow2 (k - 52) ≤ x := by
  have hx : 0 < x := lt_of_lt_of_le (pow2_pos k) h1
  have hq : quantum x = k - 52 := by
    unfold quantum
    rw [ilog2_unique x k h1 h2]
    omega
  obtain ⟨n, hn⟩ := round_fixed_multiple hx.le hd
  rw [hq] at hn
  rw [hn] at hlt ⊢
  have h3 : (N : ℚ) < (n : ℚ) := lt_of_mul_lt_mul_right hlt (pow2_pos _).le
  have h4 : N + 1 ≤ n := by
    have : N < n := by exact_mod_cast h3
    omega
  exact mul_le_mul_of_nonneg_right (by exact_mod_cast h4) (pow2_pos _).le

theorem double_pred {x : ℚ} (k N : Int) (hk : -1022 ≤ k) (h1 : pow2 k ≤ x)
    (h2 : x < pow2 (k + 1)) (hd : round x = val x) (hlt : x < (N : ℚ) * pow2 (k - 52)) :
    x ≤ ((N - 1 : Int) : ℚ) * pow2 (k - 52) := by
  have hx : 0 < x := lt_of_lt_of_le (pow2_pos k) h1
  have hq : quantum x = k - 52 := by
    unfold quantum
    rw [ilog2_unique x k h1 h2]
    omega
  obtain ⟨n, hn⟩ := round_fixed_multiple hx.le hd
  rw [hq] at hn
  rw [hn] at hlt ⊢
  have h3 : (n : ℚ) < (N : ℚ) := lt_of_mul_lt_mul_right hlt (pow2_pos _).le
  have h4 : n ≤ N - 1 := by
    have : n < N := by exact_mod_cast h3
    omega
  exact mul_le_mul_of_nonneg_right (by exact_mod_cast h4) (pow2_pos _).le

/-- The largest double below 1 is `1 - 2 ^ (-53)`. -/
theorem double_lt_one {r : ℚ} (h1 : r < 1) (hd : round r = val r) :
    r ≤ 1 - pow2 (-53) := by
  have e53 : pow2 (-53) = 1 / 9007199254740992 := by decide!
  by_cases hhalf : r < 1 / 2
  · rw [e53]
    linarith
  · have := double_pred (-1) 9007199254740992 (by norm_num)
      (by rw [show pow2 (-1) = 1 / 2 by decide!]; linarith)
      (by rw [show pow2 (-1 + 1) = 1 by decide!]; exact h1) hd
      (by rw [show pow2 (-1 - 52) = 1 / 9007199254740992 by decide!]; norm_num; linarith)
    rw [show pow2 (-1 - 52) = 1 / 9007199254740992 by decide!] at this
    rw [e53]
    norm_num at this ⊢
    linarith

/-- The smallest double above 15 is `15 + 2 ^ (-49)`. -/
theorem double_gt_fifteen {e : ℚ} (h : 15 < e) (hd : round e = val e) :
    15 + pow2 (-49) ≤ e := by
  have e49 : pow2 (-49) = 1 / 562949953421312 := by decide!
  by_cases h16 : 16 ≤ e
  · rw [e49]
    linarith
  · have := double_succ 3 8444249301319680 (by norm_num)
      (by rw [show pow2 3 = 8 by decide!]; linarith)
      (by rw [show pow2 (3 + 1) = 16 by decide!]; linarith) hd
      (by rw [show pow2 (3 - 52) = 1 / 562949953421312 by decide!]; norm_num; linarith)
    rw [show pow2 (3 - 52) = 1 / 562949953421312 by decide!] at this
    rw [e49]
    norm_num at this ⊢
    linarith


/-- Taking 1 from a double between 1 and `2 ^ 53` is exact. -/
theorem round_sub_one {e : ℚ} (h1 : 1 < e) (hd : round e = val e) (h53 : e ≤ pow2 53) :
    round (e - 1) = val (e - 1) := by
  have hpos : 0 < e := by linarith
  have hlog0 : 0 ≤ ilog2 e := by
    by_contra hneg
    have h2 := (ilog2_spec e hpos).2
    have h3 := pow2_le_pow2 (show ilog2 e + 1 ≤ 0 by omega)
    rw [show pow2 0 = 1 by decide!] at h3
    linarith
  have hlog53 : ilog2 e ≤ 53 :=
    ilog2_le_of_lt hpos (lt_of_le_of_lt h53 (by decide!))
  obtain ⟨n, hn⟩ := round_fixed_multiple hpos.le hd
  have hQ : quantum e = max (ilog2 e - 52) (-1074) := rfl
  have hm : roundMag (e - 1) = e - 1 := by
    rcases eq_or_lt_of_le hlog53 with h | h
    · have h4 : pow2 53 ≤ e := by
        rw [← h]
        exact (ilog2_spec e hpos).1
      rw [le_antisymm h53 h4]
      decide!
    · have hq1 : quantum (e - 1) ≤ quantum e := by
        have h5 := ilog2_mono (e - 1) e (by linarith) (by linarith)
        have hQ1 : quantum (e - 1) = max (ilog2 (e - 1) - 52) (-1074) := rfl
        omega
      refine roundMag_multiple (n - (2 : Int) ^ (-(quantum e)).toNat) (quantum e) hq1 ?_
      have h6 : pow2 (-(quantum e)) = (((2 : Int) ^ (-(quantum e)).toNat : Int) : ℚ) :=
        pow2_intCast (by omega)
      have h7 : pow2 (-(quantum e)) * pow2 (quantum e) = 1 := by
        rw [← pow2_add, neg_add_cancel]
        decide!
      rw [Int.cast_sub, sub_mul, ← hn, ← h6, h7]
  have hlt : e - 1 < pow2 1024 :=
    lt_of_lt_of_le (by linarith) (le_trans h53 (pow2_le_pow2 (by norm_num)))
  rw [round_of_nonneg _ (by linarith), hm, if_neg (not_le.mpr hlt)]


end Num

/-! ### Random draws and construction energies -/

theorem Num.unit_mul_aux (r n : ℚ) (h0 : 0 ≤ r) (hn : 0 ≤ n) (hr : r ≤ 1 - Num.pow2 (-53))
    (hF : Num.lt (Num.round ((1 - Num.pow2 (-53)) * n)) (Num.val n) = true) :
    ∃ q, Num.mul (Num.val r) (Num.val n) = Num.val q ∧ 0 ≤ q ∧ q < n := by
  have hu0 : (0 : ℚ) ≤ 1 - Num.pow2 (-53) := by decide!
  have hx0 : 0 ≤ (1 - Num.pow2 (-53)) * n := mul_nonneg hu0 hn
  cases hh : Num.round ((1 - Num.pow2 (-53)) * n) with
  | undef =>
      rw [hh] at hF
      simp [Num.lt] at hF
  | nan =>
      rw [hh] at hF
      simp [Num.lt] at hF
  | inf s =>
      rw [Num.round_of_nonneg _ hx0] at hh
      split_ifs at hh
      cases hh
      rw [Num.round_of_nonneg _ hx0, if_pos (by assumption)] at hF
      simp [Num.lt] at hF
  | val h =>
      rw [hh] at hF
      have hlt : h < n := by simpa [Num.lt] using hF
      obtain ⟨q, hq, hq0, hqh⟩ := Num.round_between (le_refl 0) (mul_nonneg h0 hn)
        (mul_le_mul_of_nonneg_right hr hn) (show Num.round 0 = Num.val 0 by decide!) hh
      exact ⟨q, hq, hq0, lt_of_le_of_lt hqh hlt⟩

/-- The energy of a new `Plant`: a double between 3 and 7, both included. -/
theorem Kind.construct_plant_energy (ch : Char) (rng : Rng) :
    ∃ b, (Kind.Plant.construct ch rng).1.energy = Num.val b ∧ 3 ≤ b ∧ b ≤ 7 ∧
      Num.round b = Num.val b := by
  obtain ⟨q, hq, hq0, hq4⟩ := Num.round_between (le_refl 0)
    (mul_nonneg (rng 0).2.1 (by norm_num : (0 : ℚ) ≤ 4))
    (show (rng 0).1 * 4 ≤ 4 by linarith [(rng 0).2.2.1])
    (show Num.round 0 = Num.val 0 by decide!) (show Num.round 4 = Num.val 4 by decide!)
  obtain ⟨b1, hb1, h3, h7⟩ := Num.round_between (by norm_num : (0 : ℚ) ≤ 3)
    (show (3 : ℚ) ≤ 3 + q by linarith) (show 3 + q ≤ 7 by linarith)
    (show Num.round 3 = Num.val 3 by decide!) (show Num.round 7 = Num.val 7 by decide!)
  refine ⟨b1, ?_, h3, h7, Num.round_idem (by linarith) hb1⟩
  show Num.add (Num.val 3) (Num.mul (Num.val (rng 0).1) (Num.val 4)) = _
  rw [show Num.mul (Num.val (rng 0).1) (Num.val 4) = Num.round ((rng 0).1 * 4) from rfl, hq]
  exact hb1

/-- The energy a constructor of the program gives: a double between 3 and 20,
at most 7 for a `Plant`. -/
theorem Kind.construct_energy (k : Kind) (ch : Char) (rng : Rng) (b : ℚ)
    (hb : (k.construct ch rng).1.energy = Num.val b) :
    3 ≤ b ∧ b ≤ 20 ∧ (k = Kind.Plant → b ≤ 7) ∧ Num.round b = Num.val b := by
  cases k with
  | Wall => simp [Kind.construct] at hb
  | BouncingCritter => simp [Kind.construct] at hb
  | PlantEater =>
      have h20 : b = 20 := by
        simp only [Kind.construct] at hb
        exact (Num.val.inj hb).symm
      subst h20
      exact ⟨by norm_num, le_refl _, fun h => (by cases h), by decide!⟩
  | Plant =>
      obtain ⟨b1, hb1, h3, h7, hd⟩ := Kind.construct_plant_energy ch rng
      rw [hb1] at hb
      cases hb
      exact ⟨h3, by linarith, fun _ => h7, hd⟩

/-! ### Grid -/

theorem Grid.isInside_iff (g : Grid) (v : Vector) :
    g.isInside v = true ↔ 0 ≤ v.x ∧ v.x < g.width ∧ 0 ≤ v.y ∧ v.y < g.height := by
  simp [Grid.isInside, and_assoc]

/-- Inside the grid the key `x + width * y` determines the position. -/
theorem Grid.key_injective (g : Grid) (p q : Vector)
    (hp : g.isInside p = true) (hq : g.isInside q = true)
    (h : p.x + g.width * p.y = q.x + g.width * q.y) : p = q := by
  rw [Grid.isInside_iff] at hp hq
  obtain ⟨hp1, hp2, -, -⟩ := hp
  obtain ⟨hq1, hq2, -, -⟩ := hq
  have hy : p.y = q.y := by
    by_contra hne
    rcases lt_or_gt_of_ne hne with hlt | hgt
    · have : (g.width : Int) * (p.y + 1) ≤ g.width * q.y :=
        Int.mul_le_mul_of_nonneg_left (by omega) (by omega)
      nlinarith
    · have : (g.width : Int) * (q.y + 1) ≤ g.width * p.y :=
        Int.mul_le_mul_of_nonneg_left (by omega) (by omega)
      nlinarith
  have hx : p.x = q.x := by
    rw [hy] at h
    omega
  cases p
  cases q
  simp_all

theorem Grid.get_set_same (g : Grid) (p : Vector) (v : Option Ref) :
    (g.set p v).get p = v := by
  simp [Grid.get, Grid.set]

theorem Grid.get_set_other (g : Grid) (p q : Vector) (v : Option Ref)
    (hp : g.isInside p = true) (hq : g.isInside q = true) (hne : q ≠ p) :
    (g.set p v).get q = g.get q := by
  have hk : q.x + g.width * q.y ≠ p.x + g.width * p.y :=
    fun h => hne (Grid.key_injective g q p hq hp h)
  simp [Grid.get, Grid.set, Function.update_noteq hk]

theorem Grid.isInside_set (g : Grid) (p q : Vector) (v : Option Ref) :
    (g.set p v).isInside q = g.isInside q := rfl

/-- No compass offset is the null vector. -/
theorem directions_ne_zero (name : String) (off : Vector) (h : directions name = some off) :
    off.x ≠ 0 ∨ off.y ≠ 0 := by
  unfold directions at h
  repeat' split at h
  all_goals first
    | (cases h; simp)
    | (exact absurd h (by simp))

theorem Vector.plus_ne_self (p off : Vector) (h : off.x ≠ 0 ∨ off.y ≠ 0) : p.plus off ≠ p := by
  intro heq
  have hx : (p.plus off).x = p.x := by rw [heq]
  have hy : (p.plus off).y = p.y := by rw [heq]
  simp [Vector.plus] at hx hy
  omega

theorem World.checkDestination_eq_some (w : World) (a : Action) (p dest : Vector) :
    w.checkDestination a p = some dest ↔
      ∃ d off, a.direction = some d ∧ directions d = some off ∧
        dest = p.plus off ∧ w.grid.isInside (p.plus off) = true := by
  unfold World.checkDestination
  constructor
  · intro h
    split at h
    · cases h
    · rename_i name hname
      split at h
      · cases h
      · rename_i off hoff
        simp only at h
        split at h
        · rename_i hin
          exact ⟨name, off, hname, hoff, (Option.some.inj h).symm, hin⟩
        · cases h
  · rintro ⟨d, off, hd, hoff, rfl, hin⟩
    simp [hd, hoff, hin]

theorem World.setEnergy_grid (w : World) (r : Ref) (n : Num) :
    (w.setEnergy r n).grid = w.grid := rfl

theorem World.setEnergy_next (w : World) (r : Ref) (n : Num) :
    (w.setEnergy r n).next = w.next := rfl

theorem World.setEnergy_legend (w : World) (r : Ref) (n : Num) :
    (w.setEnergy r n).legend = w.legend := rfl

theorem World.setEnergy_objs_same (w : World) (r : Ref) (n : Num) :
    ((w.setEnergy r n).objs r).energy = n := by
  simp [World.setEnergy]

theorem World.setEnergy_objs_other (w : World) (r s : Ref) (n : Num) (h : s ≠ r) :
    (w.setEnergy r n).objs s = w.objs s := by
  simp [World.setEnergy, Function.update_noteq h]

/-- C1. The move handler succeeds exactly when the direction is a compass name,
the destination is inside the grid and empty, and the energy `e` is above 1; it
then empties the source cell, puts the critter in the destination cell and
sets its energy to the double nearest to `e - 1`, which is `e - 1` itself when
`e` is a double not above `2 ^ 53`. When it fails, the world is left as it
was. -/
theorem move_spec (w : World) (c : Ref) (p : Vector) (a : Action) (e : ℚ)
    (hp : w.grid.isInside p = true)
    (he : (w.objs c).energy = Num.val e) :
    ((actionTypes.move w c p a).1 = true ↔
        ∃ d off, a.direction = some d ∧ directions d = some off ∧
          w.grid.isInside (p.plus off) = true ∧ w.grid.get (p.plus off) = none ∧ 1 < e) ∧
      (∀ d off, (actionTypes.move w c p a).1 = true → a.direction = some d →
        directions d = some off →
          (actionTypes.move w c p a).2.grid.get p = none ∧
          (actionTypes.move w c p a).2.grid.get (p.plus off) = some c ∧
          ((actionTypes.move w c p a).2.objs c).energy = Num.round (e - 1) ∧
          (Num.round e = Num.val e → e ≤ 9007199254740992 →
            ((actionTypes.move w c p a).2.objs c).energy = Num.val (e - 1))) ∧
      ((actionTypes.move w c p a).1 = false → (actionTypes.move w c p a).2 = w) := by
  cases hdest : w.checkDestination a p with
  | none =>
      refine ⟨⟨?_, ?_⟩, ?_, ?_⟩
      · simp [actionTypes.move, hdest]
      · rintro ⟨d, off, hd, hoff, hin, -, -⟩
        have := (World.checkDestination_eq_some w a p (p.plus off)).2 ⟨d, off, hd, hoff, rfl, hin⟩
        rw [hdest] at this
        cases this
      · simp [actionTypes.move, hdest]
      · simp [actionTypes.move, hdest]
  | some dest =>
      obtain ⟨d, off, hd, hoff, rfl, hin⟩ := (World.checkDestination_eq_some w a p _).1 hdest
      have hne : p.plus off ≠ p := Vector.plus_ne_self p off (directions_ne_zero d off hoff)
      by_cases hfree : w.grid.get (p.plus off) = none
      · by_cases hen : 1 < e
        · have hle : ¬ e ≤ 1 := not_le.mpr hen
          refine ⟨⟨fun _ => ⟨d, off, hd, hoff, hin, hfree, hen⟩, ?_⟩, ?_, ?_⟩
          · intro _
            simp [actionTypes.move, hdest, he, Num.le, hle, hfree]
          · intro d' off' _ hd' hoff'
            rw [hd] at hd'
            cases hd'
            rw [hoff] at hoff'
            cases hoff'
            simp only [actionTypes.move, hdest, he, Num.le, hle, hfree, decide_False,
              Option.isSome_none, Bool.or_self, Bool.false_eq_true, if_false, Num.sub]
            refine ⟨?_, ?_, ?_, ?_⟩
            · rw [Grid.get_set_other _ _ _ _ (by simpa using hin) (by simpa using hp) hne.symm]
              exact Grid.get_set_same _ _ _
            · exact Grid.get_set_same _ _ _
            · exact World.setEnergy_objs_same _ _ _
            · intro hd h53
              rw [← Num.round_sub_one hen hd (by rwa [show Num.pow2 53 = 9007199254740992 by decide!])]
              exact World.setEnergy_objs_same _ _ _
          · simp [actionTypes.move, hdest, he, Num.le, hle, hfree]
        · have hle : e ≤ 1 := not_lt.mp hen
          refine ⟨⟨?_, ?_⟩, ?_, ?_⟩
          · simp [actionTypes.move, hdest, he, Num.le, hle]
          · rintro ⟨_, _, _, _, _, _, h1⟩
            exact absurd h1 hen
          · simp [actionTypes.move, hdest, he, Num.le, hle]
          · simp [actionTypes.move, hdest, he, Num.le, hle]
      · obtain ⟨t, ht⟩ := Option.ne_none_iff_exists'.mp hfree
        refine ⟨⟨?_, ?_⟩, ?_, ?_⟩
        · simp [actionTypes.move, hdest, ht]
        · rintro ⟨d', off', hd', hoff', _, hfree', _⟩
          rw [hd] at hd'
          cases hd'
          rw [hoff] at hoff'
          cases hoff'
          exact absurd hfree' hfree
        · simp [actionTypes.move, hdest, ht]
        · simp [actionTypes.move, hdest, ht]

/-- C2. The eat handler succeeds exactly when the destination is inside the
grid and holds an entity whose energy is not missing; the eater's energy is
then the sum of the two energies as JavaScript computes it (for finite
energies `e` and `E`, the double nearest to `e + E`) and the destination cell
is emptied. When it fails (empty cell, entity without energy, no destination)
the world is left as it was. -/
theorem eat_spec (w : World) (c : Ref) (p : Vector) (a : Action) :
    ((actionTypes.eat w c p a).1 = true ↔
        ∃ d off t, a.direction = some d ∧ directions d = some off ∧
          w.grid.isInside (p.plus off) = true ∧ w.grid.get (p.plus off) = some t ∧
          (w.objs t).energy ≠ Num.undef) ∧
      (∀ d off t, (actionTypes.eat w c p a).1 = true → a.direction = some d →
        directions d = some off → w.grid.get (p.plus off) = some t →
          ((actionTypes.eat w c p a).2.objs c).energy =
              Num.add (w.objs c).energy (w.objs t).energy ∧
          (∀ e E, (w.objs c).energy = Num.val e → (w.objs t).energy = Num.val E →
            ((actionTypes.eat w c p a).2.objs c).energy = Num.round (e + E)) ∧
          (actionTypes.eat w c p a).2.grid.get (p.plus off) = none) ∧
      ((actionTypes.eat w c p a).1 = false → (actionTypes.eat w c p a).2 = w) := by
  have hnull : ∀ n : Num, n.isNull = true ↔ n = Num.undef := by
    intro n
    cases n <;> simp [Num.isNull]
  cases hdest : w.checkDestination a p with
  | none =>
      refine ⟨⟨?_, ?_⟩, ?_, ?_⟩
      · simp [actionTypes.eat, hdest]
      · rintro ⟨d, off, t, hd, hoff, hin, -, -⟩
        have := (World.checkDestination_eq_some w a p (p.plus off)).2 ⟨d, off, hd, hoff, rfl, hin⟩
        rw [hdest] at this
        cases this
      · simp [actionTypes.eat, hdest]
      · simp [actionTypes.eat, hdest]
  | some dest =>
      obtain ⟨d, off, hd, hoff, rfl, hin⟩ := (World.checkDestination_eq_some w a p _).1 hdest
      cases hget : w.grid.get (p.plus off) with
      | none =>
          refine ⟨⟨?_, ?_⟩, ?_, ?_⟩
          · simp [actionTypes.eat, hdest, hget]
          · rintro ⟨d', off', t, hd', hoff', -, ht, -⟩
            rw [hd] at hd'
            cases hd'
            rw [hoff] at hoff'
            cases hoff'
            rw [hget] at ht
            cases ht
          · simp [actionTypes.eat, hdest, hget]
          · simp [actionTypes.eat, hdest, hget]
      | some t =>
          by_cases hE : (w.objs t).energy = Num.undef
          · have hn : (w.objs t).energy.isNull = true := (hnull _).2 hE
            refine ⟨⟨?_, ?_⟩, ?_, ?_⟩
            · simp [actionTypes.eat, hdest, hget, hn]
            · rintro ⟨d', off', t', hd', hoff', -, ht, hne⟩
              rw [hd] at hd'
              cases hd'
              rw [hoff] at hoff'
              cases hoff'
              rw [hget] at ht
              cases ht
              exact absurd hE hne
            · simp [actionTypes.eat, hdest, hget, hn]
            · simp [actionTypes.eat, hdest, hget, hn]
          · have hn : (w.objs t).energy.isNull = false := by
              cases h : (w.objs t).energy.isNull
              · rfl
              · exact absurd ((hnull _).1 h) hE
            refine ⟨⟨fun _ => ⟨d, off, t, hd, hoff, hin, hget, hE⟩, ?_⟩, ?_, ?_⟩
            · intro _
              simp [actionTypes.eat, hdest, hget, hn]
            · intro d' off' t' _ hd' hoff' ht'
              rw [hd] at hd'
              cases hd'
              rw [hoff] at hoff'
              cases hoff'
              rw [hget] at ht'
              cases ht'
              simp only [actionTypes.eat, hdest, hget, hn, Bool.false_eq_true, if_false]
              refine ⟨World.setEnergy_objs_same _ _ _, ?_, Grid.get_set_same _ _ _⟩
              intro e E h1 h2
              rw [h1, h2]
              exact World.setEnergy_objs_same _ _ _
            · simp [actionTypes.eat, hdest, hget, hn]

/-- C4. The grow handler reports success, sets the energy `e` to the double
nearest to `e + 0.5` and leaves the grid alone. -/
theorem grow_spec (w : World) (c : Ref) (e : ℚ) (he : (w.objs c).energy = Num.val e) :
    (actionTypes.grow w c).1 = true ∧
      ((actionTypes.grow w c).2.objs c).energy = Num.round (e + 1 / 2) ∧
      (actionTypes.grow w c).2.grid = w.grid := by
  refine ⟨rfl, ?_, rfl⟩
  simp only [actionTypes.grow, he, Num.add]
  exact World.setEnergy_objs_same _ _ _

theorem elementFromChar_legend (w : World) (rng : Rng) (ch : Char) (k : Kind)
    (hch : ch ≠ ' ') (hk : w.legend ch = some k) :
    elementFromChar w rng ch =
      Except.ok (some w.next, (w.alloc (k.construct ch rng).1).2, (k.construct ch rng).2) := by
  simp [elementFromChar, hch, hk, pure, Except.pure, World.alloc]

theorem Kind.construct_originChar (k : Kind) (ch : Char) (rng : Rng) :
    (k.construct ch rng).1.originChar = ch := by
  cases k <;> rfl

theorem Kind.construct_kind (k : Kind) (ch : Char) (rng : Rng) :
    (k.construct ch rng).1.kind = k := by
  cases k <;> rfl

/-- C3. For a parent with energy `e` whose constructor makes a baby with energy
`b`, the reproduce handler returns, and succeeds exactly when the destination
is inside the grid and empty and `e > 2 * b` (the program's `2 * b` is exact).
It then sets the energy of the parent to the double nearest to `e - 2 * b` and
puts the baby, a new object with the parent's `originChar` and energy `b`, in
the destination cell. When it fails, the grid and the objects that existed
before (the parent among them) are as they were. -/
theorem reproduce_spec (w : World) (rng : Rng) (c : Ref) (p : Vector) (a : Action)
    (k : Kind) (e b : ℚ) (hc : c < w.next) (he : (w.objs c).energy = Num.val e)
    (hch : (w.objs c).originChar ≠ ' ') (hk : w.legend (w.objs c).originChar = some k)
    (hb : (k.construct (w.objs c).originChar rng).1.energy = Num.val b) :
    ∃ ok w1 rng1, actionTypes.reproduce w rng c p a = Except.ok (ok, w1, rng1) ∧
      (ok = true → 2 * b < e) ∧
      (ok = true ↔
        (∃ d off, a.direction = some d ∧ directions d = some off ∧
          w.grid.isInside (p.plus off) = true ∧ w.grid.get (p.plus off) = none) ∧ 2 * b < e) ∧
      (∀ d off, ok = true → a.direction = some d → directions d = some off →
        (w1.objs c).energy = Num.round (e - 2 * b) ∧
        ∃ baby, w1.grid.get (p.plus off) = some baby ∧ w.next ≤ baby ∧
          (w1.objs baby).originChar = (w.objs c).originChar ∧
          (w1.objs baby).kind = k ∧
          (w1.objs baby).energy = Num.val b) ∧
      (ok = false → w1.grid = w.grid ∧ (w1.objs c).energy = Num.val e ∧
        ∀ r, r < w.next → w1.objs r = w.objs r) := by
  have hne : c ≠ w.next := Nat.ne_of_lt hc
  obtain ⟨hb3, hb20, -, hbd⟩ := Kind.construct_energy k _ rng b hb
  have hcost : Num.mul (Num.val 2) (Num.val b) = Num.val (2 * b) :=
    Num.round_two_mul (by linarith) hbd
      (lt_of_le_of_lt (show 2 * b ≤ 40 by linarith) (by decide!))
  have hobjs : ∀ r, r < w.next →
      (w.alloc (k.construct (w.objs c).originChar rng).1).2.objs r = w.objs r := by
    intro r hr
    simp [World.alloc, Function.update_noteq (Nat.ne_of_lt hr)]
  have hbaby : (w.alloc (k.construct (w.objs c).originChar rng).1).2.objs w.next =
      (k.construct (w.objs c).originChar rng).1 := by
    simp [World.alloc]
  have hcheck : (w.alloc (k.construct (w.objs c).originChar rng).1).2.checkDestination a p =
      w.checkDestination a p := rfl
  have hgrid : (w.alloc (k.construct (w.objs c).originChar rng).1).2.grid = w.grid := rfl
  unfold actionTypes.reproduce
  rw [elementFromChar_legend w rng _ k hch hk]
  simp only [bind, Except.bind, hcheck]
  cases hdest : w.checkDestination a p with
  | none =>
      refine ⟨false, _, _, rfl, by simp, ⟨by simp, ?_⟩, by simp, ?_⟩
      · rintro ⟨⟨d, off, hd, hoff, hin, -⟩, -⟩
        have := (World.checkDestination_eq_some w a p (p.plus off)).2 ⟨d, off, hd, hoff, rfl, hin⟩
        rw [hdest] at this
        cases this
      · intro _
        exact ⟨rfl, by rw [hobjs c hc, he], hobjs⟩
  | some dest =>
      obtain ⟨d, off, hd, hoff, rfl, hin⟩ := (World.checkDestination_eq_some w a p _).1 hdest
      simp only [hbaby, hb, hobjs c hc, he, hcost, Num.le, hgrid]
      by_cases hen : 2 * b < e
      · have hle : ¬ e ≤ 2 * b := not_le.mpr hen
        cases hget : w.grid.get (p.plus off) with
        | none =>
            simp only [hle, decide_False, Option.isSome_none, Bool.or_self, Bool.false_eq_true,
              if_false, pure, Except.pure]
            refine ⟨true, _, _, rfl, fun _ => hen,
              ⟨fun _ => ⟨⟨d, off, hd, hoff, hin, hget⟩, hen⟩, fun _ => rfl⟩, ?_, by simp⟩
            intro d' off' _ hd' hoff'
            rw [hd] at hd'
            cases hd'
            rw [hoff] at hoff'
            cases hoff'
            refine ⟨?_, w.next, Grid.get_set_same _ _ _, le_refl _, ?_, ?_, ?_⟩
            · simp only [Num.sub]
              exact World.setEnergy_objs_same _ _ _
            · show ((World.setEnergy _ c _).objs w.next).originChar = _
              rw [World.setEnergy_objs_other _ _ _ _ hne.symm, hbaby,
                Kind.construct_originChar]
            · show ((World.setEnergy _ c _).objs w.next).kind = _
              rw [World.setEnergy_objs_other _ _ _ _ hne.symm, hbaby, Kind.construct_kind]
            · show ((World.setEnergy _ c _).objs w.next).energy = _
              rw [World.setEnergy_objs_other _ _ _ _ hne.symm, hbaby, hb]
        | some t =>
            simp only [Option.isSome_some, Bool.or_true, if_true, pure, Except.pure]
            refine ⟨false, _, _, rfl, by simp, ⟨by simp, ?_⟩, by simp, ?_⟩
            · rintro ⟨⟨d', off', hd', hoff', -, hfree⟩, -⟩
              rw [hd] at hd'
              cases hd'
              rw [hoff] at hoff'
              cases hoff'
              rw [hget] at hfree
              cases hfree
            · intro _
              exact ⟨rfl, by rw [hobjs c hc, he], hobjs⟩
      · have hle : e ≤ 2 * b := not_lt.mp hen
        simp only [hle, decide_True, Bool.true_or, if_true, pure, Except.pure]
        refine ⟨false, _, _, rfl, by simp, ⟨by simp, ?_⟩, by simp, ?_⟩
        · rintro ⟨-, h⟩
          exact absurd h hen
        · intro _
          exact ⟨rfl, by rw [hobjs c hc, he], hobjs⟩

theorem elementFromChar_ok (w : World) (rng : Rng) (ch : Char) (el : Option Ref) (w1 : World)
    (rng1 : Rng) (h : elementFromChar w rng ch = Except.ok (el, w1, rng1)) :
    w1.grid = w.grid ∧ w1.legend = w.legend ∧ w.next ≤ w1.next ∧
      (∀ r, r < w.next → w1.objs r = w.objs r) ∧
      (∀ b, el = some b → b = w.next ∧ w1.next = w.next + 1 ∧ (w1.objs b).originChar = ch ∧
        w.legend ch = some (w1.objs b).kind) := by
  unfold elementFromChar at h
  split at h
  · cases h
    exact ⟨rfl, rfl, le_refl _, fun _ _ => rfl, fun b hb => by cases hb⟩
  · split at h
    · cases h
    · rename_i k hk
      cases h
      refine ⟨rfl, rfl, Nat.le_succ _, ?_, ?_⟩
      · intro r hr
        simp [World.alloc, Function.update_noteq (Nat.ne_of_lt hr)]
      · intro b hb
        cases hb
        simp [World.alloc, hk]
        cases k <;> simp [Kind.construct]

/-- A failed reproduce leaves the grid and the objects that existed alone. -/
theorem reproduce_false_frame (w : World) (rng : Rng) (c : Ref) (p : Vector) (a : Action)
    (w1 : World) (rng1 : Rng)
    (h : actionTypes.reproduce w rng c p a = Except.ok (false, w1, rng1)) :
    w1.grid = w.grid ∧ ∀ r, r < w.next → w1.objs r = w.objs r := by
  unfold actionTypes.reproduce at h
  cases hel : elementFromChar w rng (w.objs c).originChar with
  | error f => simp [hel, bind, Except.bind] at h
  | ok res =>
      obtain ⟨el, w0, rng0⟩ := res
      obtain ⟨hg, -, -, hobjs, -⟩ := elementFromChar_ok w rng _ el w0 rng0 hel
      simp only [hel, bind, Except.bind] at h
      split at h
      · cases h
        exact ⟨hg, hobjs⟩
      · split at h
        · cases h
        · split at h
          · cases h
            exact ⟨hg, hobjs⟩
          · cases h

/-! ### The view -/

theorem directions_of_mem (d : String) (hd : d ∈ directionNames) :
    ∃ off, directions d = some off := by
  simp only [directionNames, List.mem_cons, List.mem_singleton, List.not_mem_nil, or_false] at hd
  rcases hd with rfl | rfl | rfl | rfl | rfl | rfl | rfl | rfl <;> exact ⟨_, rfl⟩

theorem mem_of_directions (d : String) (off : Vector) (h : directions d = some off) :
    d ∈ directionNames := by
  unfold directions at h
  repeat' split at h
  all_goals first
    | (subst_vars; decide)
    | (exact absurd h (by simp))

theorem View.look_of_directions (v : View) (d : String) (off : Vector)
    (h : directions d = some off) :
    v.look d = Except.ok (if v.world.grid.isInside (v.vector.plus off) = true then
      charFromElement v.world (v.world.grid.get (v.vector.plus off)) else '#') := by
  unfold View.look
  simp only [h]
  split <;> rfl

theorem View.look_error (v : View) (d : String) (h : directions d = none) :
    v.look d = Except.error Fault.typeError := by
  unfold View.look
  simp only [h]
  rfl

/-- The loop of `findAll` over a list of compass names keeps the names whose
cell renders as `ch`, in order. -/
theorem View.findAll_loop (v : View) (ch : Char) (l : List String)
    (hl : ∀ d ∈ l, ∃ off, directions d = some off) (acc : List String) :
    ∃ found, l.foldlM
        (fun found dir => do
          let c ← v.look dir
          pure (if c = ch then found ++ [dir] else found)) acc = Except.ok (acc ++ found) ∧
      found.Sublist l ∧ ∀ d, d ∈ found ↔ d ∈ l ∧ v.look d = Except.ok ch := by
  induction l generalizing acc with
  | nil => exact ⟨[], by simp [pure, Except.pure], List.Sublist.refl _, by simp⟩
  | cons d rest ih =>
      obtain ⟨off, hoff⟩ := hl d (List.mem_cons_self _ _)
      have hrest : ∀ d' ∈ rest, ∃ off, directions d' = some off :=
        fun d' hd' => hl d' (List.mem_cons_of_mem _ hd')
      have hlook := View.look_of_directions v d off hoff
      simp only [List.foldlM_cons, hlook, bind, Except.bind, pure, Except.pure]
      by_cases hc : (if v.world.grid.isInside (v.vector.plus off) = true then
          charFromElement v.world (v.world.grid.get (v.vector.plus off)) else '#') = ch
      · obtain ⟨found, hf, hsub, hmem⟩ := ih hrest (acc ++ [d])
        refine ⟨d :: found, ?_, hsub.cons₂ d, ?_⟩
        · simp only [hc, if_true]
          simpa [bind, Except.bind, pure, Except.pure] using hf
        · intro d'
          simp only [List.mem_cons, hmem]
          constructor
          · rintro (rfl | ⟨h1, h2⟩)
            · exact ⟨Or.inl rfl, by rw [hlook, hc]⟩
            · exact ⟨Or.inr h1, h2⟩
          · rintro ⟨rfl | h1, h2⟩
            · exact Or.inl rfl
            · exact Or.inr ⟨h1, h2⟩
      · obtain ⟨found, hf, hsub, hmem⟩ := ih hrest acc
        refine ⟨found, ?_, hsub.cons d, ?_⟩
        · simp only [hc, if_false]
          simpa [bind, Except.bind, pure, Except.pure] using hf
        · intro d'
          simp only [List.mem_cons, hmem]
          constructor
          · rintro ⟨h1, h2⟩
            exact ⟨Or.inr h1, h2⟩
          · rintro ⟨rfl | h1, h2⟩
            · rw [hlook] at h2
              exact absurd (Except.ok.inj h2) hc
            · exact ⟨h1, h2⟩

theorem View.findAll_ok (v : View) (ch : Char) :
    ∃ found, v.findAll ch = Except.ok found ∧ found.Sublist directionNames ∧
      ∀ d, d ∈ found ↔ d ∈ directionNames ∧ v.look d = Except.ok ch := by
  obtain ⟨found, hf, hsub, hmem⟩ :=
    View.findAll_loop v ch directionNames (fun d hd => directions_of_mem d hd) []
  exact ⟨found, by simpa [View.findAll] using hf, hsub, hmem⟩

/-- The index `Math.floor(Math.random() * length)` falls inside a non-empty
array of at most eight elements (the longest the program draws from). -/
theorem randomElement_mem {α : Type} (array : List α) (r : Unit01) (h : array ≠ [])
    (h8 : array.length ≤ 8) :
    ∃ x, randomElement array r = some x ∧ x ∈ array := by
  have hlen : 0 < array.length := List.length_pos.mpr h
  have hu := Num.double_lt_one r.2.2.1 r.2.2.2
  have key : ∃ q, Num.mul (Num.val r.1) (Num.val (array.length : ℚ)) = Num.val q ∧
      0 ≤ q ∧ q < array.length := by
    generalize array.length = n at hlen h8
    interval_cases n
    all_goals exact Num.unit_mul_aux _ _ r.2.1 (by norm_num) hu (by decide!)
  obtain ⟨q, hq, hq0, hqn⟩ := key
  have hfl : ⌊q⌋ < (array.length : Int) := by
    rw [Int.floor_lt]
    exact_mod_cast hqn
  have hfl0 : 0 ≤ ⌊q⌋ := Int.floor_nonneg.mpr hq0
  have hidx : (Int.toNat ⌊q⌋) < array.length := by
    omega
  refine ⟨array[(Int.toNat ⌊q⌋)], ?_, List.getElem_mem _⟩
  unfold randomElement
  rw [hq]
  exact List.getElem?_eq_getElem hidx

theorem View.find_ok (v : View) (rng : Rng) (ch : Char) :
    ∃ res rng1, v.find rng ch = Except.ok (res, rng1) ∧
      (res = none ↔ ∀ d ∈ directionNames, v.look d ≠ Except.ok ch) ∧
      (∀ d, res = some d → d ∈ directionNames ∧ v.look d = Except.ok ch) := by
  obtain ⟨found, hf, hsub, hmem⟩ := View.findAll_ok v ch
  have hlen8 : found.length ≤ 8 := hsub.length_le
  unfold View.find
  simp only [hf, bind, Except.bind]
  by_cases hempty : found = []
  · subst hempty
    refine ⟨none, rng, by simp [pure, Except.pure], ⟨fun _ d hd hl => ?_, fun _ => rfl⟩, ?_⟩
    · have := (hmem d).2 ⟨hd, hl⟩
      simp at this
    · intro d hd
      cases hd
  · obtain ⟨x, hx, hxmem⟩ := randomElement_mem found (rng 0) hempty hlen8
    have hlen : found.length ≠ 0 := fun h => hempty (List.length_eq_zero.mp h)
    refine ⟨some x, rng.tail, by simp [hlen, hx, pure, Except.pure], ⟨fun h => (by cases h), ?_⟩, ?_⟩
    · intro hall
      exact absurd ((hmem x).1 hxmem).2 (hall x ((hmem x).1 hxmem).1)
    · intro d hd
      cases hd
      exact (hmem x).1 hxmem

/-! ### letAct -/

theorem move_false_unchanged (w : World) (c : Ref) (p : Vector) (a : Action)
    (h : (actionTypes.move w c p a).1 = false) : (actionTypes.move w c p a).2 = w := by
  unfold actionTypes.move at h ⊢
  split
  · rfl
  · split
    · rfl
    · rename_i hdest hcond
      simp [hdest, hcond] at h

theorem eat_false_unchanged (w : World) (c : Ref) (p : Vector) (a : Action)
    (h : (actionTypes.eat w c p a).1 = false) : (actionTypes.eat w c p a).2 = w := by
  unfold actionTypes.eat at h ⊢
  split
  · rfl
  · split
    · rfl
    · split
      · rfl
      · rename_i _ _ hdest _ _ hget hcond
        simp [hdest, hget, hcond] at h


/-- Deciding on an action changes neither the grid nor any energy: the only
write is to the `direction` of a `BouncingCritter`. -/
theorem World.act_frame (w : World) (rng : Rng) (c : Ref) (v : View) (a : Option Action)
    (w1 : World) (rng1 : Rng) (h : w.act rng c v = Except.ok (a, w1, rng1)) :
    w1.grid = w.grid ∧ w1.next = w.next ∧ w1.legend = w.legend ∧
      ∀ r, (w1.objs r).energy = (w.objs r).energy ∧
        (w1.objs r).originChar = (w.objs r).originChar ∧ (w1.objs r).kind = (w.objs r).kind := by
  unfold World.act at h
  split at h
  · cases h
  · cases hp : Plant.act w rng c v with
    | error f => simp [hp, bind, Except.bind] at h
    | ok res =>
        simp only [hp, bind, Except.bind, pure, Except.pure] at h
        cases h
        exact ⟨rfl, rfl, rfl, fun _ => ⟨rfl, rfl, rfl⟩⟩
  · cases hp : PlantEater.act w rng c v with
    | error f => simp [hp, bind, Except.bind] at h
    | ok res =>
        simp only [hp, bind, Except.bind, pure, Except.pure] at h
        cases h
        exact ⟨rfl, rfl, rfl, fun _ => ⟨rfl, rfl, rfl⟩⟩
  · unfold BouncingCritter.act at h
    have hset : ∀ (d : Option String) (r : Ref),
        ((w.setDirection c d).objs r).energy = (w.objs r).energy ∧
        ((w.setDirection c d).objs r).originChar = (w.objs r).originChar ∧
        ((w.setDirection c d).objs r).kind = (w.objs r).kind := by
      intro d r
      by_cases hr : r = c
      · subst hr
        simp [World.setDirection]
      · simp [World.setDirection, Function.update_noteq hr]
    split at h
    · cases h
    · cases hl : v.look ‹String› with
      | error f => simp [hl, bind, Except.bind] at h
      | ok ch =>
          simp only [hl, bind, Except.bind] at h
          split at h
          · cases hf : v.find rng ' ' with
            | error f => simp [hf, bind, Except.bind] at h
            | ok res =>
                simp only [hf, bind, Except.bind, pure, Except.pure] at h
                cases h
                exact ⟨rfl, rfl, rfl, hset _⟩
          · cases h
            exact ⟨rfl, rfl, rfl, fun _ => ⟨rfl, rfl, rfl⟩⟩

/-- When `handled` comes out false, the grid and the objects that existed are
as before. -/
theorem World.handled_false_frame (w : World) (rng : Rng) (c : Ref) (p : Vector)
    (action : Option Action) (w1 : World) (rng1 : Rng)
    (h : w.handled rng c p action = Except.ok (false, w1, rng1)) :
    w1.grid = w.grid ∧ ∀ r, r < w.next → w1.objs r = w.objs r := by
  unfold World.handled at h
  split at h
  · cases h
    exact ⟨rfl, fun _ _ => rfl⟩
  · rename_i a
    split at h
    · cases h
    · split at h
      · simp only [pure, Except.pure, Except.ok.injEq, Prod.mk.injEq] at h
        obtain ⟨h1, h2, -⟩ := h
        have := (move_false_unchanged w c p a) h1
        rw [← h2, this]
        exact ⟨rfl, fun _ _ => rfl⟩
      · split at h
        · simp only [pure, Except.pure, Except.ok.injEq, Prod.mk.injEq] at h
          obtain ⟨h1, h2, -⟩ := h
          have := eat_false_unchanged w c p a h1
          rw [← h2, this]
          exact ⟨rfl, fun _ _ => rfl⟩
        · split at h
          · exact reproduce_false_frame w rng c p a w1 rng1 h
          · cases h
            exact ⟨rfl, fun _ _ => rfl⟩


/-- C5. `letAct` takes the penalty path exactly when `handled` is false, that
is when no action is proposed, or the action type is not one of the four
handlers, or the handler returns false. The energy `e` the critter had before
the call then becomes the double nearest to `e - d`, where `d` is the double
that the literal `0.2` denotes, and its cell is emptied exactly when that
result is `<= 0`. When the handler returns true, `letAct` leaves the world as
the handler left it. -/
theorem letAct_spec (w : World) (rng : Rng) (c : Ref) (p : Vector) (e : ℚ)
    (hc : c < w.next) (he : (w.objs c).energy = Num.val e)
    (action : Option Action) (w1 : World) (rng1 : Rng)
    (hact : w.act rng c ⟨w, p⟩ = Except.ok (action, w1, rng1))
    (handled : Bool) (w2 : World) (rng2 : Rng)
    (hh : w1.handled rng1 c p action = Except.ok (handled, w2, rng2)) :
    ∃ w3, w.letAct rng c p = Except.ok (w3, rng2) ∧
      (handled = false ↔
        action = none ∨
        (∃ a, action = some a ∧ a.type ∉ ["grow", "move", "eat", "reproduce"]) ∨
        (∃ a, action = some a ∧
          ((a.type = "grow" ∧ (actionTypes.grow w1 c).1 = false) ∨
            (a.type = "move" ∧ (actionTypes.move w1 c p a).1 = false) ∨
            (a.type = "eat" ∧ (actionTypes.eat w1 c p a).1 = false) ∨
            (a.type = "reproduce" ∧
              ∃ w4 rng4, actionTypes.reproduce w1 rng1 c p a = Except.ok (false, w4, rng4))))) ∧
      (handled = true → w3 = w2) ∧
      (handled = false →
        Num.round (1 / 5) = Num.val (3602879701896397 / 18014398509481984) ∧
        (w3.objs c).energy = Num.round (e - 3602879701896397 / 18014398509481984) ∧
        (Num.le (Num.round (e - 3602879701896397 / 18014398509481984)) (Num.val 0) = true →
          w3.grid = w.grid.set p none) ∧
        (Num.le (Num.round (e - 3602879701896397 / 18014398509481984)) (Num.val 0) = false →
          w3.grid = w.grid)) := by
  obtain ⟨hg1, hn1, -, ho1⟩ := World.act_frame w rng c ⟨w, p⟩ action w1 rng1 hact
  have hiff : handled = false ↔
      action = none ∨
      (∃ a, action = some a ∧ a.type ∉ ["grow", "move", "eat", "reproduce"]) ∨
      (∃ a, action = some a ∧
        ((a.type = "grow" ∧ (actionTypes.grow w1 c).1 = false) ∨
          (a.type = "move" ∧ (actionTypes.move w1 c p a).1 = false) ∨
          (a.type = "eat" ∧ (actionTypes.eat w1 c p a).1 = false) ∨
          (a.type = "reproduce" ∧
            ∃ w4 rng4, actionTypes.reproduce w1 rng1 c p a = Except.ok (false, w4, rng4)))) := by
    cases action with
    | none =>
        simp only [World.handled, pure, Except.pure, Except.ok.injEq, Prod.mk.injEq] at hh
        simp [← hh.1]
    | some a =>
        simp only [World.handled] at hh
        by_cases hgrow : a.type = "grow"
        · rw [if_pos hgrow] at hh
          simp only [pure, Except.pure, Except.ok.injEq, Prod.mk.injEq] at hh
          simp [← hh.1, hgrow, actionTypes.grow]
        · rw [if_neg hgrow] at hh
          by_cases hmove : a.type = "move"
          · rw [if_pos hmove] at hh
            simp only [pure, Except.pure, Except.ok.injEq, Prod.mk.injEq] at hh
            simp [← hh.1, hmove]
          · rw [if_neg hmove] at hh
            by_cases heat : a.type = "eat"
            · rw [if_pos heat] at hh
              simp only [pure, Except.pure, Except.ok.injEq, Prod.mk.injEq] at hh
              simp [← hh.1, heat]
            · rw [if_neg heat] at hh
              by_cases hrep : a.type = "reproduce"
              · rw [if_pos hrep] at hh
                constructor
                · intro hf
                  subst hf
                  exact Or.inr (Or.inr ⟨a, rfl, Or.inr (Or.inr (Or.inr ⟨hrep, w2, rng2, hh⟩))⟩)
                · rintro (h | ⟨a', h, hn⟩ | ⟨a', h, h4⟩)
                  · cases h
                  · cases h
                    simp [hrep] at hn
                  · cases h
                    rcases h4 with ⟨h5, -⟩ | ⟨h5, -⟩ | ⟨h5, -⟩ | ⟨-, w4, rng4, h5⟩
                    · exact absurd h5 hgrow
                    · exact absurd h5 hmove
                    · exact absurd h5 heat
                    · rw [hh] at h5
                      simp only [Except.ok.injEq, Prod.mk.injEq] at h5
                      exact h5.1
              · rw [if_neg hrep] at hh
                simp only [pure, Except.pure, Except.ok.injEq, Prod.mk.injEq] at hh
                simp [← hh.1, hgrow, hmove, heat, hrep]
  unfold World.letAct
  simp only [hact, hh, bind, Except.bind]
  cases handled with
  | true => exact ⟨w2, rfl, hiff, fun _ => rfl, fun h => (by cases h)⟩
  | false =>
      obtain ⟨hg2, ho2⟩ := World.handled_false_frame w1 rng1 c p action w2 rng2 hh
      have hen : (w2.objs c).energy = Num.val e := by
        rw [ho2 c (hn1 ▸ hc), (ho1 c).1, he]
      refine ⟨w2.penalty c p, rfl, hiff, fun h => (by cases h), fun _ => ?_⟩
      have h02 : Num.round (1 / 5) = Num.val (3602879701896397 / 18014398509481984) := by
        decide!
      refine ⟨h02, ?_⟩
      unfold World.penalty
      simp only [hen, h02, Num.sub, World.setEnergy_objs_same]
      cases hle : Num.le (Num.round (e - 3602879701896397 / 18014398509481984)) (Num.val 0) with
      | true =>
          simp only [if_true]
          refine ⟨World.setEnergy_objs_same _ _ _, fun _ => ?_, fun h => (by cases h)⟩
          simp [World.setEnergy_grid, hg2, hg1]
      | false =>
          simp only [Bool.false_eq_true, if_false]
          refine ⟨World.setEnergy_objs_same _ _ _, fun h => (by cases h), fun _ => ?_⟩
          simp [World.setEnergy_grid, hg2, hg1]

/-! ### Rendering -/

theorem foldl_append_singleton {α : Type} (f : Nat → α) (l : List Nat) (acc : List α) :
    l.foldl (fun output x => output ++ [f x]) acc = acc ++ l.map f := by
  induction l generalizing acc with
  | nil => simp
  | cons a rest ih => simp [ih]

theorem foldl_append_rows {α : Type} (row : Nat → List α) (l : List Nat) (acc : List α) :
    l.foldl (fun output y => output ++ row y) acc = acc ++ l.flatMap row := by
  induction l generalizing acc with
  | nil => simp
  | cons a rest ih => simp [ih]

/-- The rendering, row by row. -/
theorem World.toString_eq (w : World) (separator : Option (List Char)) :
    w.toString separator =
      (List.range w.grid.height).flatMap fun (y : Nat) =>
        ((List.range w.grid.width).map fun (x : Nat) =>
          charFromElement w (w.grid.get ⟨(x : Int), (y : Int)⟩)) ++ separator.getD ['\n'] := by
  unfold World.toString
  simp only [foldl_append_singleton]
  have := foldl_append_rows (fun (y : Nat) => ((List.range w.grid.width).map fun (x : Nat) =>
          charFromElement w (w.grid.get ⟨(x : Int), (y : Int)⟩)) ++ separator.getD ['\n'])
    (List.range w.grid.height) []
  simpa [List.append_assoc] using this

theorem range_map_getElem {α : Type} [Inhabited α] (l : List α) (f : Nat → α)
    (h : ∀ i (hi : i < l.length), f i = l[i]) : (List.range l.length).map f = l := by
  apply List.ext_getElem
  · simp
  · intro i h1 h2
    simp [h i h2]

theorem range_flatMap_getElem {α β : Type} (l : List (List α)) (f : Nat → List β)
    (g : List α → List β) (h : ∀ j (hj : j < l.length), f j = g l[j]) :
    (List.range l.length).flatMap f = l.flatMap g := by
  induction l using List.reverseRecOn generalizing f with
  | nil => simp
  | append_singleton rest a ih =>
      simp only [List.length_append, List.length_singleton, List.range_succ,
        List.flatMap_append, List.flatMap_cons, List.flatMap_nil, List.append_nil]
      congr 1
      · apply ih
        intro j hj
        have := h j (by simp; omega)
        rw [this, List.getElem_append_left hj]
      · have := h rest.length (by simp)
        simpa using this


/-! ### Construction -/

theorem elementFromChar_legal (w : World) (rng : Rng) (ch : Char)
    (h : ch = ' ' ∨ ∃ k, w.legend ch = some k) :
    ∃ el w1 rng1, elementFromChar w rng ch = Except.ok (el, w1, rng1) ∧
      charFromElement w1 el = ch := by
  by_cases hsp : ch = ' '
  · exact ⟨none, w, rng, by simp [elementFromChar, hsp, pure, Except.pure],
      by simp [charFromElement, hsp]⟩
  · obtain ⟨k, hk⟩ := h.resolve_left hsp
    refine ⟨_, _, _, elementFromChar_legend w rng ch k hsp hk, ?_⟩
    simp [charFromElement, World.alloc, Kind.construct_originChar]

theorem World.fillLine_spec (y : Nat) (row : List Char) :
    ∀ (w : World) (rng : Rng) (x : Nat), LegalLine w.legend row → w.Allocated →
      x + row.length ≤ w.grid.width → y < w.grid.height →
      ∃ w1 rng1, World.fillLine w rng y row x = Except.ok (w1, rng1) ∧
        w1.grid.width = w.grid.width ∧ w1.grid.height = w.grid.height ∧
        w1.legend = w.legend ∧ w1.Allocated ∧
        (∀ v, w.grid.isInside v = true → (v.y ≠ y ∨ v.x < x ∨ (x + row.length : Int) ≤ v.x) →
          charFromElement w1 (w1.grid.get v) = charFromElement w (w.grid.get v)) ∧
        (∀ i (hi : i < row.length),
          charFromElement w1 (w1.grid.get ⟨((x + i : Nat) : Int), (y : Int)⟩) = row[i]) := by
  induction row with
  | nil =>
      intro w rng x _ hwf _ _
      exact ⟨w, rng, rfl, rfl, rfl, rfl, hwf, fun _ _ _ => rfl, fun i hi => by simp at hi⟩
  | cons ch rest ih =>
      intro w rng x hlegal hwf hx hy
      simp only [List.length_cons] at hx
      obtain ⟨el, w0, rng0, hel, hchar⟩ :=
        elementFromChar_legal w rng ch (hlegal ch (List.mem_cons_self _ _))
      obtain ⟨hg0, hl0, hn0, ho0, hb0⟩ := elementFromChar_ok w rng ch el w0 rng0 hel
      have hin : w0.grid.isInside ⟨(x : Int), (y : Int)⟩ = true := by
        rw [hg0, Grid.isInside_iff]
        simp only
        omega
      have hwf1 : World.Allocated
          { w0 with grid := w0.grid.set ⟨(x : Int), (y : Int)⟩ el } := by
        intro key r hr
        simp only [Grid.set, Function.update_apply] at hr
        split at hr
        · obtain ⟨hb1, hb2, -⟩ := hb0 r hr
          show r < w0.next
          rw [hb2, hb1]
          exact Nat.lt_succ_self _
        · rw [hg0] at hr
          exact lt_of_lt_of_le (hwf key r hr) hn0
      have hcell : charFromElement w0 (el) = ch := hchar
      obtain ⟨w1, rng1, hfill, hw1, hh1, hl1, hwf2, hold, hnew⟩ :=
        ih { w0 with grid := w0.grid.set ⟨(x : Int), (y : Int)⟩ el } rng0 (x + 1)
          (by
            intro c hc
            have := hlegal c (List.mem_cons_of_mem _ hc)
            simpa [hl0] using this)
          hwf1
          (by
            show x + 1 + rest.length ≤ w0.grid.width
            rw [hg0]
            omega)
          (by
            show y < w0.grid.height
            rw [hg0]
            exact hy)
      have hkeep : ∀ v, w.grid.isInside v = true → v ≠ ⟨(x : Int), (y : Int)⟩ →
          charFromElement w0 ((w0.grid.set ⟨(x : Int), (y : Int)⟩ el).get v) =
            charFromElement w (w.grid.get v) := by
        intro v hv hne
        rw [Grid.get_set_other _ _ _ _ hin (by rw [hg0]; exact hv) hne, hg0]
        cases hget : w.grid.get v with
        | none => rfl
        | some r =>
            simp only [charFromElement]
            rw [ho0 r (hwf _ r hget)]
      refine ⟨w1, rng1, ?_, ?_, ?_, ?_, hwf2, ?_, ?_⟩
      · simp only [World.fillLine, hel, bind, Except.bind]
        exact hfill
      · rw [hw1]
        show w0.grid.width = _
        rw [hg0]
      · rw [hh1]
        show w0.grid.height = _
        rw [hg0]
      · rw [hl1]
        exact hl0
      · intro v hv hcond
        rw [hold v (by show w0.grid.isInside v = true; rw [hg0]; exact hv)
          (by
            rcases hcond with h | h | h
            · exact Or.inl h
            · exact Or.inr (Or.inl (by omega))
            · refine Or.inr (Or.inr ?_)
              simp only [List.length_cons] at h
              push_cast at h ⊢
              omega)]
        apply hkeep v hv
        intro heq
        subst heq
        simp only [List.length_cons] at hcond
        push_cast at hcond
        omega
      · intro i hi
        cases i with
        | zero =>
            simp only [Nat.add_zero, List.getElem_cons_zero]
            rw [hold ⟨(x : Int), (y : Int)⟩ hin (Or.inr (Or.inl (by simp)))]
            show charFromElement w0 ((w0.grid.set ⟨(x : Int), (y : Int)⟩ el).get _) = ch
            rw [Grid.get_set_same]
            exact hcell
        | succ j =>
            simp only [List.getElem_cons_succ]
            have := hnew j (by simpa using hi)
            have hidx : x + (j + 1) = x + 1 + j := by omega
            rw [hidx]
            exact this


theorem World.fillLines_spec (rows : List (List Char)) :
    ∀ (w : World) (rng : Rng) (y : Nat),
      (∀ row ∈ rows, LegalLine w.legend row ∧ row.length = w.grid.width) → w.Allocated →
      y + rows.length ≤ w.grid.height →
      ∃ w1 rng1, World.fillLines w rng rows y = Except.ok (w1, rng1) ∧
        w1.grid.width = w.grid.width ∧ w1.grid.height = w.grid.height ∧
        w1.legend = w.legend ∧ w1.Allocated ∧
        (∀ v, w.grid.isInside v = true → v.y < y →
          charFromElement w1 (w1.grid.get v) = charFromElement w (w.grid.get v)) ∧
        (∀ j (hj : j < rows.length) i (hi : i < rows[j].length),
          charFromElement w1 (w1.grid.get ⟨(i : Int), ((y + j : Nat) : Int)⟩) = rows[j][i]) := by
  induction rows with
  | nil =>
      intro w rng y _ hwf _
      exact ⟨w, rng, rfl, rfl, rfl, rfl, hwf, fun _ _ _ => rfl, fun j hj => by simp at hj⟩
  | cons row rest ih =>
      intro w rng y hrows hwf hy
      simp only [List.length_cons] at hy
      obtain ⟨hlegal, hlen⟩ := hrows row (List.mem_cons_self _ _)
      obtain ⟨w0, rng0, hfill, hw0, hh0, hl0, hwf0, hold0, hnew0⟩ :=
        World.fillLine_spec y row w rng 0 hlegal hwf (by omega) (by omega)
      obtain ⟨w1, rng1, hfills, hw1, hh1, hl1, hwf1, hold1, hnew1⟩ :=
        ih w0 rng0 (y + 1)
          (by
            intro r hr
            have := hrows r (List.mem_cons_of_mem _ hr)
            rw [hl0, hw0]
            exact this)
          hwf0 (by omega)
      have hin0 : ∀ v, w.grid.isInside v = true → w0.grid.isInside v = true := by
        intro v hv
        rw [Grid.isInside_iff] at hv ⊢
        rw [hw0, hh0]
        exact hv
      refine ⟨w1, rng1, ?_, by rw [hw1, hw0], by rw [hh1, hh0], by rw [hl1, hl0], hwf1, ?_, ?_⟩
      · simp only [World.fillLines, hfill, bind, Except.bind]
        exact hfills
      · intro v hv hlt
        rw [hold1 v (hin0 v hv) (by omega), hold0 v hv (Or.inl (by omega))]
      · intro j hj i hi
        cases j with
        | zero =>
            simp only [List.getElem_cons_zero] at hi ⊢
            have hv : w.grid.isInside ⟨(i : Int), (y : Int)⟩ = true := by
              rw [Grid.isInside_iff]
              simp only
              omega
            simp only [Nat.add_zero]
            rw [hold1 _ (hin0 _ hv) (by simp)]
            have := hnew0 i hi
            simpa using this
        | succ k =>
            simp only [List.getElem_cons_succ] at hi ⊢
            have := hnew1 k (by simpa using hj) i hi
            have hidx : y + (k + 1) = y + 1 + k := by omega
            rw [hidx]
            exact this

/-- C8, as amended. For every non-empty map of equal-length rows, with fewer
than `2 ^ 32` cells, whose characters are single code units and, other than
the space, keys of the legend, the constructor returns a world, and
`toString()` of that world is the rows of the map in order, each one followed
by `"\n"`. -/
theorem World.new_toString (map : List (List Char)) (legend : Char → Option Kind) (rng : Rng)
    (hne : map ≠ [])
    (hlen : ∀ r1 ∈ map, ∀ r2 ∈ map, r1.length = r2.length)
    (hsize : ∀ row ∈ map, row.length * map.length < 2 ^ 32)
    (hunits : ∀ row ∈ map, UnitLine row)
    (hlegal : ∀ row ∈ map, ∀ ch ∈ row, ch = ' ' ∨ (legend ch).isSome = true) :
    ∃ w rng1, World.new map legend rng = Except.ok (w, rng1) ∧
      w.toString none = map.flatMap fun row => row ++ ['\n'] := by
  cases map with
  | nil => exact absurd rfl hne
  | cons row0 rest =>
      have hg : Grid.new row0.length (row0 :: rest).length =
          Except.ok ⟨fun _ => none, row0.length, (row0 :: rest).length⟩ := by
        unfold Grid.new
        rw [if_pos (hsize row0 (List.mem_cons_self _ _))]
        rfl
      obtain ⟨w, rng1, hfill, hw, hh, -, -, -, hcells⟩ :=
        World.fillLines_spec (row0 :: rest)
          ⟨⟨fun _ => none, row0.length, (row0 :: rest).length⟩, legend,
            fun _ => Entity.blank, 0⟩ rng 0
          (by
            intro row hrow
            refine ⟨fun ch hch => ?_, hlen row hrow row0 (List.mem_cons_self _ _)⟩
            rcases hlegal row hrow ch hch with h | h
            · exact Or.inl h
            · exact Or.inr (Option.isSome_iff_exists.mp h))
          (by
            intro key r hr
            cases hr)
          (by simp)
      have hnew : World.new (row0 :: rest) legend rng = Except.ok (w, rng1) := by
        simp only [World.new, hg, bind, Except.bind]
        exact hfill
      refine ⟨w, rng1, hnew, ?_⟩
      rw [World.toString_eq, hh, hw]
      show (List.range (row0 :: rest).length).flatMap _ = _
      apply range_flatMap_getElem
      intro j hj
      have hlenj : (row0 :: rest)[j].length = row0.length :=
        hlen _ (List.getElem_mem _) row0 (List.mem_cons_self _ _)
      simp only [Option.getD_none, List.append_cancel_right_eq]
      show List.map _ (List.range row0.length) = _
      rw [← hlenj]
      apply range_map_getElem
      intro i hi
      have := hcells j hj i hi
      simpa using this


/-! ### The turn -/

theorem World.CellsFrom.refl (w : World) (c : Ref) : World.CellsFrom w w c :=
  ⟨le_refl _, rfl, rfl, fun _ _ h => Or.inl h⟩

theorem World.CellsFrom.of_grid_eq (w w1 : World) (c : Ref) (hn : w.next ≤ w1.next)
    (hg : w1.grid = w.grid) : World.CellsFrom w w1 c :=
  ⟨hn, by rw [hg], by rw [hg], fun _ _ h => Or.inl (by rw [← hg]; exact h)⟩

theorem move_cells (w : World) (c : Ref) (p : Vector) (a : Action) :
    World.CellsFrom w (actionTypes.move w c p a).2 c := by
  unfold actionTypes.move
  split
  · exact World.CellsFrom.refl w c
  · split
    · exact World.CellsFrom.refl w c
    · refine ⟨le_refl _, rfl, rfl, ?_⟩
      intro key r hr
      simp only [Grid.set, World.setEnergy_grid, Function.update_apply] at hr
      split at hr
      · exact Or.inr (Or.inl (Option.some.inj hr).symm)
      · split at hr
        · cases hr
        · exact Or.inl hr

theorem eat_cells (w : World) (c : Ref) (p : Vector) (a : Action) :
    World.CellsFrom w (actionTypes.eat w c p a).2 c := by
  unfold actionTypes.eat
  split
  · exact World.CellsFrom.refl w c
  · split
    · exact World.CellsFrom.refl w c
    · split
      · exact World.CellsFrom.refl w c
      · refine ⟨le_refl _, rfl, rfl, ?_⟩
        intro key r hr
        simp only [Grid.set, World.setEnergy_grid, Function.update_apply] at hr
        split at hr
        · cases hr
        · exact Or.inl hr

theorem reproduce_cells (w : World) (rng : Rng) (c : Ref) (p : Vector) (a : Action)
    (ok : Bool) (w1 : World) (rng1 : Rng)
    (h : actionTypes.reproduce w rng c p a = Except.ok (ok, w1, rng1)) :
    World.CellsFrom w w1 c := by
  unfold actionTypes.reproduce at h
  cases hel : elementFromChar w rng (w.objs c).originChar with
  | error f => simp [hel, bind, Except.bind] at h
  | ok res =>
      obtain ⟨el, w0, rng0⟩ := res
      obtain ⟨hg, -, hn, -, hb⟩ := elementFromChar_ok w rng _ el w0 rng0 hel
      simp only [hel, bind, Except.bind] at h
      split at h
      · cases h
        exact World.CellsFrom.of_grid_eq w _ c hn hg
      · split at h
        · cases h
        · split at h
          · cases h
            exact World.CellsFrom.of_grid_eq w _ c hn hg
          · cases h
            rename_i b _
            obtain ⟨hb1, hb2, -⟩ := hb b rfl
            refine ⟨hn, by simp [Grid.set, World.setEnergy_grid, hg],
              by simp [Grid.set, World.setEnergy_grid, hg], ?_⟩
            intro key r hr
            simp only [Grid.set, World.setEnergy_grid, World.setEnergy_next,
              Function.update_apply] at hr ⊢
            split at hr
            · cases hr
              refine Or.inr (Or.inr ⟨le_of_eq hb1.symm, ?_⟩)
              rw [hb2, hb1]
              exact Nat.lt_succ_self _
            · rw [hg] at hr
              exact Or.inl hr

theorem World.handled_cells (w : World) (rng : Rng) (c : Ref) (p : Vector)
    (action : Option Action) (ok : Bool) (w1 : World) (rng1 : Rng)
    (h : w.handled rng c p action = Except.ok (ok, w1, rng1)) :
    World.CellsFrom w w1 c := by
  unfold World.handled at h
  split at h
  · cases h
    exact World.CellsFrom.refl w c
  · rename_i a
    split at h
    · cases h
      exact World.CellsFrom.of_grid_eq w _ c (le_refl _) rfl
    · split at h
      · simp only [pure, Except.pure, Except.ok.injEq, Prod.mk.injEq] at h
        rw [← h.2.1]
        exact move_cells w c p a
      · split at h
        · simp only [pure, Except.pure, Except.ok.injEq, Prod.mk.injEq] at h
          rw [← h.2.1]
          exact eat_cells w c p a
        · split at h
          · exact reproduce_cells w rng c p a ok w1 rng1 h
          · cases h
            exact World.CellsFrom.refl w c

theorem World.penalty_cells (w : World) (c : Ref) (p : Vector) :
    World.CellsFrom w (w.penalty c p) c := by
  unfold World.penalty
  simp only
  split
  · refine ⟨le_refl _, rfl, rfl, ?_⟩
    intro key r hr
    simp only [Grid.set, World.setEnergy_grid, Function.update_apply] at hr
    split at hr
    · cases hr
    · exact Or.inl hr
  · exact World.CellsFrom.of_grid_eq w _ c (le_refl _) rfl

theorem World.CellsFrom.trans (w w1 w2 : World) (c : Ref) (h1 : World.CellsFrom w w1 c)
    (h2 : World.CellsFrom w1 w2 c) : World.CellsFrom w w2 c := by
  obtain ⟨hn1, hw1, hh1, hc1⟩ := h1
  obtain ⟨hn2, hw2, hh2, hc2⟩ := h2
  refine ⟨le_trans hn1 hn2, by rw [hw2, hw1], by rw [hh2, hh1], ?_⟩
  intro key r hr
  rcases hc2 key r hr with h | h | ⟨h, h'⟩
  · rcases hc1 key r h with h3 | h3 | ⟨h3, h4⟩
    · exact Or.inl h3
    · exact Or.inr (Or.inl h3)
    · exact Or.inr (Or.inr ⟨h3, lt_of_lt_of_le h4 hn2⟩)
  · exact Or.inr (Or.inl h)
  · exact Or.inr (Or.inr ⟨le_trans hn1 h, h'⟩)

theorem World.letAct_cells (w : World) (rng : Rng) (c : Ref) (p : Vector) (w1 : World)
    (rng1 : Rng) (h : w.letAct rng c p = Except.ok (w1, rng1)) : World.CellsFrom w w1 c := by
  unfold World.letAct at h
  cases hact : w.act rng c ⟨w, p⟩ with
  | error f => simp [hact, bind, Except.bind] at h
  | ok res =>
      obtain ⟨action, w0, rng0⟩ := res
      obtain ⟨hg0, hn0, -, -⟩ := World.act_frame w rng c ⟨w, p⟩ action w0 rng0 hact
      have h0 : World.CellsFrom w w0 c :=
        World.CellsFrom.of_grid_eq w w0 c (le_of_eq hn0.symm) hg0
      simp only [hact, bind, Except.bind] at h
      cases hh : w0.handled rng0 c p action with
      | error f => simp [hh] at h
      | ok res2 =>
          obtain ⟨ok, w2, rng2⟩ := res2
          have h2 := World.handled_cells w0 rng0 c p action ok w2 rng2 hh
          simp only [hh] at h
          split at h
          · cases h
            exact World.CellsFrom.trans w w0 w1 c h0 h2
          · cases h
            exact World.CellsFrom.trans w w0 _ c h0
              (World.CellsFrom.trans w0 w2 _ c h2 (World.penalty_cells w2 c p))


theorem World.turn_eq_turnAfter (w : World) (rng : Rng) :
    World.turn w rng = w.turnAfter rng w.grid.positions := rfl

theorem World.turnAfter_append (w : World) (rng : Rng) (l : List Vector) (v : Vector) :
    w.turnAfter rng (l ++ [v]) =
      Grid.visit (fun s => s.world.grid) World.turnFn (w.turnAfter rng l) v := by
  simp [World.turnAfter, List.foldl_append]

/-- What one round of the loop of `turn` can do: nothing, or one call of
`letAct` on the critter found in the cell, which was not in `acted`. -/
theorem World.visit_cases (acc : TurnState × Option Fault) (v : Vector) :
    Grid.visit (fun s => s.world.grid) World.turnFn acc v = acc ∨
      ∃ c, acc.1.world.grid.space (v.x + v.y * acc.1.world.grid.width) = some c ∧
        c ∉ acc.1.acted ∧
        ((∃ w rng, acc.1.world.letAct acc.1.rng c v = Except.ok (w, rng) ∧
            Grid.visit (fun s => s.world.grid) World.turnFn acc v =
              (⟨w, rng, acc.1.acted ++ [c], acc.1.calls ++ [(c, v)]⟩, none)) ∨
          (∃ f, Grid.visit (fun s => s.world.grid) World.turnFn acc v =
              (⟨acc.1.world, acc.1.rng, acc.1.acted ++ [c], acc.1.calls ++ [(c, v)]⟩,
                some f))) := by
  unfold Grid.visit
  split
  · exact Or.inl rfl
  · split
    · rename_i c hc
      simp only at hc
      unfold World.turnFn
      split
      · rename_i hcond
        simp only [Bool.and_eq_true, Bool.not_eq_true', List.contains_eq_any_beq,
          List.any_eq_false, beq_iff_eq] at hcond
        refine Or.inr ⟨c, hc, ?_, ?_⟩
        · intro hmem
          exact hcond.2 c hmem rfl
        · split
          · rename_i w rng hlet
            exact Or.inl ⟨w, rng, hlet, rfl⟩
          · rename_i f hlet
            exact Or.inr ⟨f, rfl⟩
      · rename_i hnone _ _
        left
        cases acc with
        | mk s f =>
            simp only at hnone
            subst hnone
            rfl
    · exact Or.inl rfl

theorem foldl_invariant {α β : Type} (P : α → Prop) (f : α → β → α)
    (hstep : ∀ a b, P a → P (f a b)) (l : List β) (a : α) (h : P a) : P (l.foldl f a) := by
  induction l generalizing a with
  | nil => exact h
  | cons b rest ih => exact ih (f a b) (hstep a b h)

/-- The record of calls follows `acted`, which never holds a reference twice. -/
theorem World.turnAfter_acted (w : World) (rng : Rng) (l : List Vector) :
    (w.turnAfter rng l).1.calls.map Prod.fst = (w.turnAfter rng l).1.acted ∧
      (w.turnAfter rng l).1.acted.Nodup := by
  unfold World.turnAfter
  apply foldl_invariant
    (fun acc : TurnState × Option Fault =>
      acc.1.calls.map Prod.fst = acc.1.acted ∧ acc.1.acted.Nodup)
  · intro acc v ⟨h1, h2⟩
    rcases World.visit_cases acc v with h | ⟨c, -, hc, ⟨w1, rng1, -, h⟩ | ⟨f, h⟩⟩
    · rw [h]
      exact ⟨h1, h2⟩
    · rw [h]
      simp only [List.map_append, List.map_cons, List.map_nil, h1, true_and]
      exact List.Nodup.append h2 (List.nodup_singleton c) (by simpa using hc)
    · rw [h]
      simp only [List.map_append, List.map_cons, List.map_nil, h1, true_and]
      exact List.Nodup.append h2 (List.nodup_singleton c) (by simpa using hc)
  · exact ⟨rfl, List.nodup_nil⟩

/-- C6. In one call of `turn`, whatever the random draws, `letAct` is called
at most once on each entity: no reference occurs twice among the recorded
calls. -/
theorem turn_acts_once (w : World) (rng : Rng) :
    ((World.turn w rng).1.calls.map Prod.fst).Nodup := by
  rw [World.turn_eq_turnAfter, (World.turnAfter_acted w rng _).1]
  exact (World.turnAfter_acted w rng _).2


/-- While the turn runs, the grid holds allocated references only, and so
does the record of calls. -/
theorem World.turnAfter_allocated (w : World) (rng : Rng) (hwf : w.Allocated)
    (l : List Vector) :
    (w.turnAfter rng l).1.world.Allocated ∧
      ∀ call ∈ (w.turnAfter rng l).1.calls, call.1 < (w.turnAfter rng l).1.world.next := by
  unfold World.turnAfter
  apply foldl_invariant
    (fun acc : TurnState × Option Fault =>
      acc.1.world.Allocated ∧ ∀ call ∈ acc.1.calls, call.1 < acc.1.world.next)
  · intro acc v ⟨h1, h2⟩
    rcases World.visit_cases acc v with h | ⟨c, hc, -, ⟨w1, rng1, hlet, h⟩ | ⟨f, h⟩⟩
    · rw [h]
      exact ⟨h1, h2⟩
    · rw [h]
      obtain ⟨hn, -, -, hcells⟩ := World.letAct_cells _ _ _ _ _ _ hlet
      have hcn : c < acc.1.world.next := h1 _ c hc
      refine ⟨?_, ?_⟩
      · intro key r hr
        rcases hcells key r hr with h3 | h3 | ⟨-, h3⟩
        · exact lt_of_lt_of_le (h1 key r h3) hn
        · rw [h3]
          exact lt_of_lt_of_le hcn hn
        · exact h3
      · intro call hcall
        simp only [List.mem_append, List.mem_singleton] at hcall
        rcases hcall with h3 | h3
        · exact lt_of_lt_of_le (h2 call h3) hn
        · rw [h3]
          exact lt_of_lt_of_le hcn hn
    · rw [h]
      refine ⟨h1, ?_⟩
      intro call hcall
      simp only [List.mem_append, List.mem_singleton] at hcall
      rcases hcall with h3 | h3
      · exact h2 call h3
      · rw [h3]
        exact h1 _ c hc
  · exact ⟨hwf, fun call hcall => by simp at hcall⟩

/-- An allocated reference that is in no cell still to be visited, and has
not been given an action so far, is given none in the rest of the loop. -/
theorem World.visit_rest_no_act (r : Ref) (rest : List Vector) :
    ∀ acc : TurnState × Option Fault,
      r < acc.1.world.next → (∀ call ∈ acc.1.calls, call.1 ≠ r) →
      (∀ v ∈ rest, acc.1.world.grid.space (v.x + v.y * acc.1.world.grid.width) ≠ some r) →
      ∀ call ∈ (rest.foldl (Grid.visit (fun s => s.world.grid) World.turnFn) acc).1.calls,
        call.1 ≠ r := by
  induction rest with
  | nil =>
      intro acc _ hcalls _
      exact hcalls
  | cons v rest ih =>
      intro acc hr hcalls hcells
      simp only [List.foldl_cons]
      have hv := hcells v (List.mem_cons_self _ _)
      have hrest : ∀ v' ∈ rest,
          acc.1.world.grid.space (v'.x + v'.y * acc.1.world.grid.width) ≠ some r :=
        fun v' hv' => hcells v' (List.mem_cons_of_mem _ hv')
      rcases World.visit_cases acc v with h | ⟨c, hc, -, ⟨w1, rng1, hlet, h⟩ | ⟨f, h⟩⟩
      · rw [h]
        exact ih acc hr hcalls hrest
      · have hne : c ≠ r := by
          intro heq
          rw [heq] at hc
          exact hv hc
        obtain ⟨hn, hw, -, hcells1⟩ := World.letAct_cells _ _ _ _ _ _ hlet
        rw [h]
        apply ih
        · exact lt_of_lt_of_le hr hn
        · intro call hcall
          simp only [List.mem_append, List.mem_singleton] at hcall
          rcases hcall with h3 | h3
          · exact hcalls call h3
          · rw [h3]
            exact hne
        · intro v' hv' hcell
          simp only [hw] at hcell
          rcases hcells1 _ r hcell with h3 | h3 | ⟨h3, -⟩
          · exact hrest v' hv' h3
          · exact hne h3.symm
          · exact absurd hr (not_lt.mpr h3)
      · have hne : c ≠ r := by
          intro heq
          rw [heq] at hc
          exact hv hc
        rw [h]
        apply ih
        · exact hr
        · intro call hcall
          simp only [List.mem_append, List.mem_singleton] at hcall
          rcases hcall with h3 | h3
          · exact hcalls call h3
          · rw [h3]
            exact hne
        · exact hrest

/-- An entity created while the cell `p` is visited (its reference is allocated
during that visit) and found, right after that visit, in none of the cells the
loop has still to go through, is never given an action in that turn. -/
theorem World.no_act_of_not_ahead (w : World) (rng : Rng) (hwf : w.Allocated)
    (pre post : List Vector) (p : Vector) (hsplit : w.grid.positions = pre ++ p :: post)
    (r : Ref)
    (hborn : (w.turnAfter rng pre).1.world.next ≤ r ∧
      r < (w.turnAfter rng (pre ++ [p])).1.world.next)
    (hcell : ∀ v ∈ post, (w.turnAfter rng (pre ++ [p])).1.world.grid.get v ≠ some r) :
    ∀ call ∈ (World.turn w rng).1.calls, call.1 ≠ r := by
  have hturn : World.turn w rng =
      post.foldl (Grid.visit (fun s => s.world.grid) World.turnFn)
        (w.turnAfter rng (pre ++ [p])) := by
    rw [World.turn_eq_turnAfter, hsplit]
    simp [World.turnAfter, List.foldl_append]
  rw [hturn]
  apply World.visit_rest_no_act r post _ hborn.2
  · obtain ⟨hwf1, hcalls1⟩ := World.turnAfter_allocated w rng hwf pre
    rw [World.turnAfter_append]
    rcases World.visit_cases (w.turnAfter rng pre) p with
      h | ⟨c, hc, -, ⟨w1, rng1, hlet, h⟩ | ⟨f, h⟩⟩
    · rw [h]
      intro call hcall
      exact Nat.ne_of_lt (lt_of_lt_of_le (hcalls1 call hcall) hborn.1)
    · rw [h]
      intro call hcall
      simp only [List.mem_append, List.mem_singleton] at hcall
      rcases hcall with h3 | h3
      · exact Nat.ne_of_lt (lt_of_lt_of_le (hcalls1 call h3) hborn.1)
      · rw [h3]
        exact Nat.ne_of_lt (lt_of_lt_of_le (hwf1 _ c hc) hborn.1)
    · rw [h]
      intro call hcall
      simp only [List.mem_append, List.mem_singleton] at hcall
      rcases hcall with h3 | h3
      · exact Nat.ne_of_lt (lt_of_lt_of_le (hcalls1 call h3) hborn.1)
      · rw [h3]
        exact Nat.ne_of_lt (lt_of_lt_of_le (hwf1 _ c hc) hborn.1)
  · intro v hv hsp
    apply hcell v hv
    unfold Grid.get
    rw [mul_comm]
    exact hsp

theorem Grid.mem_positions (g : Grid) (v : Vector) :
    v ∈ g.positions ↔ g.isInside v = true := by
  rw [Grid.isInside_iff]
  simp only [Grid.positions, List.mem_flatMap, List.mem_range, List.mem_map]
  constructor
  · rintro ⟨y, hy, x, hx, rfl⟩
    simp only
    omega
  · rintro ⟨h1, h2, h3, h4⟩
    refine ⟨v.y.toNat, by omega, v.x.toNat, by omega, ?_⟩
    cases v
    simp only [Vector.mk.injEq] at h1 h3 ⊢
    constructor <;> omega

theorem Grid.positions_nodup (g : Grid) : g.positions.Nodup := by
  unfold Grid.positions
  rw [List.nodup_flatMap]
  constructor
  · intro y _
    apply List.Nodup.map _ (List.nodup_range _)
    intro a b hab
    simpa using hab
  · apply List.Pairwise.imp _ (List.nodup_range g.height)
    intro a b hab
    simp only [Function.onFun]
    intro v hva hvb
    simp only [List.mem_map, List.mem_range] at hva hvb
    obtain ⟨x1, -, rfl⟩ := hva
    obtain ⟨x2, -, h2⟩ := hvb
    simp only [Vector.mk.injEq] at h2
    apply hab
    omega

theorem move_noNewCell (w : World) (c : Ref) (p : Vector) (a : Action) :
    World.NoNewCell w (actionTypes.move w c p a).2 c := by
  unfold actionTypes.move
  split
  · exact fun _ _ h => Or.inl h
  · split
    · exact fun _ _ h => Or.inl h
    · intro key r hr
      simp only [Grid.set, World.setEnergy_grid, Function.update_apply] at hr
      split at hr
      · exact Or.inr (Option.some.inj hr).symm
      · split at hr
        · cases hr
        · exact Or.inl hr

theorem eat_noNewCell (w : World) (c : Ref) (p : Vector) (a : Action) :
    World.NoNewCell w (actionTypes.eat w c p a).2 c := by
  unfold actionTypes.eat
  split
  · exact fun _ _ h => Or.inl h
  · split
    · exact fun _ _ h => Or.inl h
    · split
      · exact fun _ _ h => Or.inl h
      · intro key r hr
        simp only [Grid.set, World.setEnergy_grid, Function.update_apply] at hr
        split at hr
        · cases hr
        · exact Or.inl hr

theorem World.penalty_noNewCell (w : World) (c : Ref) (p : Vector) :
    World.NoNewCell w (w.penalty c p) c := by
  unfold World.penalty
  simp only
  split
  · intro key r hr
    simp only [Grid.set, World.setEnergy_grid, Function.update_apply] at hr
    split at hr
    · cases hr
    · exact Or.inl hr
  · exact fun _ _ h => Or.inl h

/-- After `reproduce`, at most one key holds something that was not there. -/
theorem reproduce_one_new_cell (w : World) (rng : Rng) (c : Ref) (p : Vector) (a : Action)
    (ok : Bool) (w1 : World) (rng1 : Rng)
    (h : actionTypes.reproduce w rng c p a = Except.ok (ok, w1, rng1)) :
    ∃ k0 : Int, ∀ key r, w1.grid.space key = some r → w.grid.space key = some r ∨ key = k0 := by
  unfold actionTypes.reproduce at h
  cases hel : elementFromChar w rng (w.objs c).originChar with
  | error f => simp [hel, bind, Except.bind] at h
  | ok res =>
      obtain ⟨el, w0, rng0⟩ := res
      obtain ⟨hg, -, -, -, -⟩ := elementFromChar_ok w rng _ el w0 rng0 hel
      simp only [hel, bind, Except.bind] at h
      split at h
      · cases h
        exact ⟨0, fun key r hr => Or.inl (by rw [← hg]; exact hr)⟩
      · split at h
        · cases h
        · split at h
          · cases h
            exact ⟨0, fun key r hr => Or.inl (by rw [← hg]; exact hr)⟩
          · cases h
            rename_i dest _ _ _ _
            refine ⟨dest.x + w0.grid.width * dest.y, ?_⟩
            intro key r hr
            simp only [Grid.set, World.setEnergy_grid, Function.update_apply] at hr
            split at hr
            · rename_i hkey
              exact Or.inr hkey
            · rw [hg] at hr
              exact Or.inl hr

theorem World.handled_one_new_cell (w : World) (rng : Rng) (c : Ref) (p : Vector)
    (action : Option Action) (ok : Bool) (w1 : World) (rng1 : Rng)
    (h : w.handled rng c p action = Except.ok (ok, w1, rng1)) :
    ∃ k0 : Int, ∀ key r, w1.grid.space key = some r →
      w.grid.space key = some r ∨ r = c ∨ key = k0 := by
  unfold World.handled at h
  split at h
  · cases h
    exact ⟨0, fun _ _ hr => Or.inl hr⟩
  · rename_i a
    split at h
    · cases h
      exact ⟨0, fun _ _ hr => Or.inl hr⟩
    · split at h
      · simp only [pure, Except.pure, Except.ok.injEq, Prod.mk.injEq] at h
        rw [← h.2.1]
        exact ⟨0, fun key r hr => (move_noNewCell w c p a key r hr).imp id Or.inl⟩
      · split at h
        · simp only [pure, Except.pure, Except.ok.injEq, Prod.mk.injEq] at h
          rw [← h.2.1]
          exact ⟨0, fun key r hr => (eat_noNewCell w c p a key r hr).imp id Or.inl⟩
        · split at h
          · obtain ⟨k0, hk0⟩ := reproduce_one_new_cell w rng c p a ok w1 rng1 h
            exact ⟨k0, fun key r hr => (hk0 key r hr).imp id Or.inr⟩
          · cases h
            exact ⟨0, fun _ _ hr => Or.inl hr⟩

/-- After `letAct`, the references that did not exist before the call are in
at most one cell. -/
theorem World.letAct_new_once (w : World) (rng : Rng) (c : Ref) (p : Vector) (w1 : World)
    (rng1 : Rng) (h : w.letAct rng c p = Except.ok (w1, rng1)) (hwf : w.Allocated)
    (hc : c < w.next) (r : Ref) (hr : w.next ≤ r) (k1 k2 : Int)
    (h1 : w1.grid.space k1 = some r) (h2 : w1.grid.space k2 = some r) : k1 = k2 := by
  have hrc : r ≠ c := fun heq => absurd hc (not_lt.mpr (heq ▸ hr))
  have hold : ∀ key, w.grid.space key ≠ some r :=
    fun key hk => absurd (hwf key r hk) (not_lt.mpr hr)
  unfold World.letAct at h
  cases hact : w.act rng c ⟨w, p⟩ with
  | error f => simp [hact, bind, Except.bind] at h
  | ok res =>
      obtain ⟨action, w0, rng0⟩ := res
      obtain ⟨hg0, -, -, -⟩ := World.act_frame w rng c ⟨w, p⟩ action w0 rng0 hact
      simp only [hact, bind, Except.bind] at h
      cases hh : w0.handled rng0 c p action with
      | error f => simp [hh] at h
      | ok res2 =>
          obtain ⟨ok, w2, rng2⟩ := res2
          obtain ⟨k0, hk0⟩ := World.handled_one_new_cell w0 rng0 c p action ok w2 rng2 hh
          have hkey : ∀ key, w2.grid.space key = some r → key = k0 := by
            intro key hk
            rcases hk0 key r hk with h3 | h3 | h3
            · rw [hg0] at h3
              exact absurd h3 (hold key)
            · exact absurd h3 hrc
            · exact h3
          simp only [hh] at h
          split at h
          · cases h
            rw [hkey k1 h1, hkey k2 h2]
          · cases h
            have hp := World.penalty_noNewCell w2 c p
            have h1' := (hp k1 r h1).resolve_right hrc
            have h2' := (hp k2 r h2).resolve_right hrc
            rw [hkey k1 h1', hkey k2 h2']

/-- The size of the grid is the same all along the turn. -/
theorem World.turnAfter_size (w : World) (rng : Rng) (l : List Vector) :
    (w.turnAfter rng l).1.world.grid.width = w.grid.width ∧
      (w.turnAfter rng l).1.world.grid.height = w.grid.height := by
  unfold World.turnAfter
  apply foldl_invariant
    (fun acc : TurnState × Option Fault =>
      acc.1.world.grid.width = w.grid.width ∧ acc.1.world.grid.height = w.grid.height)
  · intro acc v ⟨h1, h2⟩
    rcases World.visit_cases acc v with h | ⟨c, -, -, ⟨w1, rng1, hlet, h⟩ | ⟨f, h⟩⟩
    · rw [h]
      exact ⟨h1, h2⟩
    · rw [h]
      obtain ⟨-, hw, hh, -⟩ := World.letAct_cells _ _ _ _ _ _ hlet
      exact ⟨by rw [← h1, ← hw], by rw [← h2, ← hh]⟩
    · rw [h]
      exact ⟨h1, h2⟩
  · exact ⟨rfl, rfl⟩

/-- C7, as amended. An entity that does not exist when the loop of `turn`
reaches the cell `p` and is found, right after the visit of `p`, in a cell `q`
that comes before `p` in row-major order (the offspring of the critter of `p`,
placed behind it) is never given an action in that turn. -/
theorem offspring_behind_no_act (w : World) (rng : Rng) (hwf : w.Allocated)
    (pre post : List Vector) (p : Vector) (hsplit : w.grid.positions = pre ++ p :: post)
    (r : Ref) (q : Vector) (hq : q ∈ pre)
    (hborn : (w.turnAfter rng pre).1.world.next ≤ r)
    (hplaced : (w.turnAfter rng (pre ++ [p])).1.world.grid.get q = some r) :
    ∀ call ∈ (World.turn w rng).1.calls, call.1 ≠ r := by
  obtain ⟨hwf1, -⟩ := World.turnAfter_allocated w rng hwf pre
  obtain ⟨hwf2, -⟩ := World.turnAfter_allocated w rng hwf (pre ++ [p])
  obtain ⟨hw2, hh2⟩ := World.turnAfter_size w rng (pre ++ [p])
  have hnodup : (pre ++ p :: post).Nodup := hsplit ▸ Grid.positions_nodup w.grid
  have hinside : ∀ v ∈ pre ++ p :: post,
      (w.turnAfter rng (pre ++ [p])).1.world.grid.isInside v = true := by
    intro v hv
    rw [← hsplit, Grid.mem_positions, Grid.isInside_iff] at hv
    rw [Grid.isInside_iff, hw2, hh2]
    exact hv
  have hqpost : ∀ v ∈ post, v ≠ q := by
    intro v hv heq
    have hdisj := List.disjoint_of_nodup_append hnodup
    exact hdisj hq (List.mem_cons_of_mem _ (heq ▸ hv))
  apply World.no_act_of_not_ahead w rng hwf pre post p hsplit r ⟨hborn, hwf2 _ r hplaced⟩
  intro v hv hget
  have hkeys : v.x + (w.turnAfter rng (pre ++ [p])).1.world.grid.width * v.y =
      q.x + (w.turnAfter rng (pre ++ [p])).1.world.grid.width * q.y := by
    unfold Grid.get at hget hplaced
    rw [World.turnAfter_append] at hget hplaced ⊢
    rcases World.visit_cases (w.turnAfter rng pre) p with
      h | ⟨c, hc, -, ⟨w1, rng1, hlet, h⟩ | ⟨f, h⟩⟩
    · rw [h] at hplaced
      exact absurd (hwf1 _ r hplaced) (not_lt.mpr hborn)
    · rw [h] at hget hplaced ⊢
      exact World.letAct_new_once _ _ c p w1 rng1 hlet hwf1 (hwf1 _ c hc) r hborn _ _
        hget hplaced
    · rw [h] at hplaced
      exact absurd (hwf1 _ r hplaced) (not_lt.mpr hborn)
  exact hqpost v hv
    (Grid.key_injective _ v q
      (hinside v (List.mem_append_right _ (List.mem_cons_of_mem _ hv)))
      (hinside q (List.mem_append_left _ hq)) hkeys)

/-! ### The view: the claims -/

/-- C9. For each of the eight compass names, `look` gives `'#'` when the
neighbouring position is outside the grid, a space when that cell is empty,
and otherwise the `originChar` of the entity in the cell. (`look` is a
function of the view: it returns a character and no new state.) -/
theorem look_spec (v : View) (d : String) (hd : d ∈ directionNames) :
    ∃ off, directions d = some off ∧
      (v.world.grid.isInside (v.vector.plus off) = false → v.look d = Except.ok '#') ∧
      (v.world.grid.isInside (v.vector.plus off) = true →
        v.world.grid.get (v.vector.plus off) = none → v.look d = Except.ok ' ') ∧
      (∀ r, v.world.grid.isInside (v.vector.plus off) = true →
        v.world.grid.get (v.vector.plus off) = some r →
          v.look d = Except.ok (v.world.objs r).originChar) := by
  obtain ⟨off, hoff⟩ := directions_of_mem d hd
  refine ⟨off, hoff, ?_, ?_, ?_⟩
  · intro hout
    rw [View.look_of_directions v d off hoff]
    simp [hout]
  · intro hin hget
    rw [View.look_of_directions v d off hoff]
    simp [hin, hget, charFromElement]
  · intro r hin hget
    rw [View.look_of_directions v d off hoff]
    simp [hin, hget, charFromElement]

/-- C10. `findAll(ch)` returns, each once, exactly the compass names `d` with
`look(d) = ch`; `find(ch)` returns nothing exactly when no neighbouring cell
renders as `ch`, and otherwise a compass name `d` with `look(d) = ch`. -/
theorem findAll_find_spec (v : View) (rng : Rng) (ch : Char) :
    ∃ found res rng1, v.findAll ch = Except.ok found ∧
      (∀ d, d ∈ found ↔ d ∈ directionNames ∧ v.look d = Except.ok ch) ∧
      found.Nodup ∧
      v.find rng ch = Except.ok (res, rng1) ∧
      (res = none ↔ ∀ d ∈ directionNames, v.look d ≠ Except.ok ch) ∧
      (∀ d, res = some d → d ∈ directionNames ∧ v.look d = Except.ok ch) := by
  obtain ⟨found, hf, hsub, hmem⟩ := View.findAll_ok v ch
  obtain ⟨res, rng1, hfind, hnone, hsome⟩ := View.find_ok v rng ch
  exact ⟨found, res, rng1, hf, hmem, hsub.nodup (by decide), hfind, hnone, hsome⟩

/-! ### The claims on concrete worlds -/

theorem move_spec_witness :
    (eaterWorld.grid.isInside ⟨0, 0⟩ = true ∧ (eaterWorld.objs 0).energy = Num.val 20) ∧
      (actionTypes.move eaterWorld 0 ⟨0, 0⟩ ⟨"move", some "e"⟩).2.grid.get ⟨0, 0⟩ = none ∧
      (actionTypes.move eaterWorld 0 ⟨0, 0⟩ ⟨"move", some "e"⟩).2.grid.get
        ((⟨0, 0⟩ : Vector).plus ⟨1, 0⟩) = some 0 ∧
      ((actionTypes.move eaterWorld 0 ⟨0, 0⟩ ⟨"move", some "e"⟩).2.objs 0).energy =
        Num.round (20 - 1) ∧
      (Num.round 20 = Num.val 20 → (20 : ℚ) ≤ 9007199254740992 →
        ((actionTypes.move eaterWorld 0 ⟨0, 0⟩ ⟨"move", some "e"⟩).2.objs 0).energy =
          Num.val (20 - 1)) :=
  ⟨⟨by decide, rfl⟩,
    (move_spec eaterWorld 0 ⟨0, 0⟩ ⟨"move", some "e"⟩ 20 (by decide) rfl).2.1 "e" ⟨1, 0⟩
      (by decide) rfl rfl⟩

theorem reproduce_spec_witness :
    (0 < plantWorld.next ∧ (plantWorld.objs 0).energy = Num.val 16 ∧
        (plantWorld.objs 0).originChar ≠ ' ' ∧
        plantWorld.legend (plantWorld.objs 0).originChar = some Kind.Plant ∧
        (Kind.Plant.construct (plantWorld.objs 0).originChar rngZero).1.energy = Num.val 3) ∧
      ∃ w1 rng1, actionTypes.reproduce plantWorld rngZero 0 ⟨0, 0⟩ ⟨"reproduce", some "e"⟩ =
          Except.ok (true, w1, rng1) ∧
        (w1.objs 0).energy = Num.round (16 - 2 * 3) := by
  have hyp : 0 < plantWorld.next ∧ (plantWorld.objs 0).energy = Num.val 16 ∧
      (plantWorld.objs 0).originChar ≠ ' ' ∧
      plantWorld.legend (plantWorld.objs 0).originChar = some Kind.Plant ∧
      (Kind.Plant.construct (plantWorld.objs 0).originChar rngZero).1.energy = Num.val 3 :=
    ⟨by decide, rfl, by decide, by decide, by decide!⟩
  obtain ⟨ok, w1, rng1, hrun, -, hiff, heff, -⟩ :=
    reproduce_spec plantWorld rngZero 0 ⟨0, 0⟩ ⟨"reproduce", some "e"⟩ Kind.Plant 16 3
      hyp.1 hyp.2.1 hyp.2.2.1 hyp.2.2.2.1 hyp.2.2.2.2
  have hok : ok = true :=
    hiff.2 ⟨⟨"e", ⟨1, 0⟩, rfl, rfl, by decide, by decide⟩, by norm_num⟩
  subst hok
  exact ⟨hyp, w1, rng1, hrun, (heff "e" ⟨1, 0⟩ rfl rfl rfl).1⟩

theorem grow_spec_witness :
    (plantWorld.objs 0).energy = Num.val 16 ∧
      ((actionTypes.grow plantWorld 0).1 = true ∧
        ((actionTypes.grow plantWorld 0).2.objs 0).energy = Num.round (16 + 1 / 2) ∧
        (actionTypes.grow plantWorld 0).2.grid = plantWorld.grid) :=
  ⟨rfl, grow_spec plantWorld 0 16 rfl⟩

theorem letAct_spec_witness :
    (0 < loneEaterWorld.next ∧ (loneEaterWorld.objs 0).energy = Num.val 20 ∧
        loneEaterWorld.act rngZero 0 ⟨loneEaterWorld, ⟨0, 0⟩⟩ =
          Except.ok (none, loneEaterWorld, rngZero) ∧
        loneEaterWorld.handled rngZero 0 ⟨0, 0⟩ none =
          Except.ok (false, loneEaterWorld, rngZero)) ∧
      ∃ w3, loneEaterWorld.letAct rngZero 0 ⟨0, 0⟩ = Except.ok (w3, rngZero) ∧
        (w3.objs 0).energy = Num.round (20 - 3602879701896397 / 18014398509481984) ∧
        w3.grid = loneEaterWorld.grid := by
  have hyp : 0 < loneEaterWorld.next ∧ (loneEaterWorld.objs 0).energy = Num.val 20 ∧
      loneEaterWorld.act rngZero 0 ⟨loneEaterWorld, ⟨0, 0⟩⟩ =
        Except.ok (none, loneEaterWorld, rngZero) ∧
      loneEaterWorld.handled rngZero 0 ⟨0, 0⟩ none =
        Except.ok (false, loneEaterWorld, rngZero) :=
    ⟨by decide, rfl, by with_unfolding_all rfl, rfl⟩
  obtain ⟨w3, hrun, -, -, hpen⟩ :=
    letAct_spec loneEaterWorld rngZero 0 ⟨0, 0⟩ 20 hyp.1 hyp.2.1 none loneEaterWorld rngZero
      hyp.2.2.1 false loneEaterWorld rngZero hyp.2.2.2
  exact ⟨hyp, w3, hrun, (hpen rfl).2.1, (hpen rfl).2.2.2 (by decide!)⟩

/-- C7, as stated, fails: the `Plant` of `plantWorld` reproduces into the cell
to its east (object 1 is new and lands in the cell `(1, 0)`, the parent pays
`2 * 3`), and the loop then gives the offspring its action in the same turn. -/
theorem offspring_acts_counterexample :
    plantWorld.next = 1 ∧ plantWorld.grid.get ⟨1, 0⟩ = none ∧
      (plantWorld.turnAfter rngZero [⟨0, 0⟩]).1.calls = [(0, ⟨0, 0⟩)] ∧
      (plantWorld.turnAfter rngZero [⟨0, 0⟩]).1.world.grid.get ⟨1, 0⟩ = some 1 ∧
      ((plantWorld.turnAfter rngZero [⟨0, 0⟩]).1.world.objs 0).energy = Num.val 10 ∧
      (World.turn plantWorld rngZero).1.calls = [(0, ⟨0, 0⟩), (1, ⟨1, 0⟩)] :=
  ⟨rfl, by decide, by decide!, by decide!, by decide!, by decide!⟩

theorem offspring_behind_no_act_witness :
    (plantRowWorld.Allocated ∧
        plantRowWorld.grid.positions = [⟨0, 0⟩] ++ ⟨1, 0⟩ :: [⟨2, 0⟩] ∧
        (⟨0, 0⟩ : Vector) ∈ [(⟨0, 0⟩ : Vector)] ∧
        (plantRowWorld.turnAfter rngZero [⟨0, 0⟩]).1.world.next ≤ 2 ∧
        (plantRowWorld.turnAfter rngZero ([⟨0, 0⟩] ++ [⟨1, 0⟩])).1.world.grid.get ⟨0, 0⟩ =
          some 2) ∧
      ∀ call ∈ (World.turn plantRowWorld rngZero).1.calls, call.1 ≠ 2 := by
  have hwf : plantRowWorld.Allocated := by
    intro key r hr
    simp only [plantRowWorld] at hr ⊢
    split at hr
    · cases hr
      decide
    · split at hr
      · cases hr
        decide
      · cases hr
  have hsplit : plantRowWorld.grid.positions = [⟨0, 0⟩] ++ ⟨1, 0⟩ :: [⟨2, 0⟩] := by decide
  have hq : (⟨0, 0⟩ : Vector) ∈ [(⟨0, 0⟩ : Vector)] := by decide
  have hborn : (plantRowWorld.turnAfter rngZero [⟨0, 0⟩]).1.world.next ≤ 2 := by decide!
  have hplaced :
      (plantRowWorld.turnAfter rngZero ([⟨0, 0⟩] ++ [⟨1, 0⟩])).1.world.grid.get ⟨0, 0⟩ =
        some 2 := by
    decide!
  exact ⟨⟨hwf, hsplit, hq, hborn, hplaced⟩,
    offspring_behind_no_act plantRowWorld rngZero hwf [⟨0, 0⟩] [⟨2, 0⟩] ⟨1, 0⟩ hsplit 2
      ⟨0, 0⟩ hq hborn hplaced⟩

/-- C8, as stated, fails: the rendering of the one-cell world built from the
map `["#"]` is `"#\n"`, not the rows joined by `"\n"`, which is `"#"`. -/
theorem render_join_counterexample :
    ∃ w rng1, World.new [['#']] initLegend rngZero = Except.ok (w, rng1) ∧
      w.toString none = ['#', '\n'] ∧
      w.toString none ≠ List.intercalate ['\n'] [['#']] :=
  ⟨_, _, rfl, by decide!, by decide!⟩

theorem new_toString_witness :
    (([['#', '*'], [' ', 'O']] : List (List Char)) ≠ [] ∧
        (∀ r1 ∈ ([['#', '*'], [' ', 'O']] : List (List Char)),
          ∀ r2 ∈ ([['#', '*'], [' ', 'O']] : List (List Char)), r1.length = r2.length) ∧
        (∀ row ∈ ([['#', '*'], [' ', 'O']] : List (List Char)),
          row.length * ([['#', '*'], [' ', 'O']] : List (List Char)).length < 2 ^ 32) ∧
        (∀ row ∈ ([['#', '*'], [' ', 'O']] : List (List Char)), ∀ ch ∈ row,
          ch.toNat < 65536) ∧
        (∀ row ∈ ([['#', '*'], [' ', 'O']] : List (List Char)), ∀ ch ∈ row,
          ch = ' ' ∨ (initLegend ch).isSome = true)) ∧
      ∃ w rng1, World.new [['#', '*'], [' ', 'O']] initLegend rngZero = Except.ok (w, rng1) ∧
        w.toString none =
          ([['#', '*'], [' ', 'O']] : List (List Char)).flatMap fun row => row ++ ['\n'] :=
  ⟨⟨by decide, by decide, by decide!, by decide!, by decide⟩,
    World.new_toString [['#', '*'], [' ', 'O']] initLegend rngZero (by decide) (by decide)
      (by decide!) (fun row hrow ch hch => (by revert row ch; decide!)) (by decide)⟩

theorem look_spec_witness :
    "e" ∈ directionNames ∧
      ∃ off, directions "e" = some off ∧
        ((View.mk eaterWorld ⟨1, 0⟩).world.grid.isInside
            ((View.mk eaterWorld ⟨1, 0⟩).vector.plus off) = false →
          (View.mk eaterWorld ⟨1, 0⟩).look "e" = Except.ok '#') :=
  ⟨by decide,
    (look_spec (View.mk eaterWorld ⟨1, 0⟩) "e" (by decide)).imp fun _ h => ⟨h.1, h.2.1⟩⟩

/-- C15. For positions inside the grid: after `set(p, v)`, `get(p)` is `v` and
`get(q)` is what it was for every other `q`; the key `x + width * y` tells
positions apart and lies in `[0, width * height)`; `set` keeps the width and
the height. -/
theorem grid_set_get (g : Grid) (p q : Vector) (v : Option Ref)
    (hp : g.isInside p = true) (hq : g.isInside q = true) :
    (g.set p v).get p = v ∧
      (q ≠ p → (g.set p v).get q = g.get q) ∧
      (p.x + g.width * p.y = q.x + g.width * q.y → p = q) ∧
      (0 ≤ p.x + g.width * p.y ∧ p.x + g.width * p.y < (g.width * g.height : Nat)) ∧
      (g.set p v).width = g.width ∧ (g.set p v).height = g.height := by
  refine ⟨Grid.get_set_same g p v, Grid.get_set_other g p q v hp hq,
    Grid.key_injective g p q hp hq, ?_, rfl, rfl⟩
  rw [Grid.isInside_iff] at hp
  obtain ⟨h1, h2, h3, h4⟩ := hp
  constructor
  · have : 0 ≤ (g.width : Int) * p.y := mul_nonneg (by omega) h3
    omega
  · have h5 : (g.width : Int) * (p.y + 1) ≤ g.width * g.height :=
      Int.mul_le_mul_of_nonneg_left (by omega) (by omega)
    push_cast
    nlinarith

theorem grid_set_get_witness :
    (eaterWorld.grid.isInside ⟨0, 0⟩ = true ∧ eaterWorld.grid.isInside ⟨1, 0⟩ = true) ∧
      (eaterWorld.grid.set ⟨0, 0⟩ none).get ⟨0, 0⟩ = none ∧
      (eaterWorld.grid.set ⟨0, 0⟩ none).width = eaterWorld.grid.width :=
  ⟨⟨by decide, by decide⟩,
    (grid_set_get eaterWorld.grid ⟨0, 0⟩ ⟨1, 0⟩ none (by decide) (by decide)).1,
    (grid_set_get eaterWorld.grid ⟨0, 0⟩ ⟨1, 0⟩ none (by decide) (by decide)).2.2.2.2.1⟩

/-- What `Plant.prototype.act` returns, by cases on the energy and on
whether a neighbouring cell renders as a space. -/
theorem plant_act_ok (w : World) (rng : Rng) (this : Ref) (view : View) (e : ℚ)
    (he : (w.objs this).energy = Num.val e) :
    ∃ a rng1, Plant.act w rng this view = Except.ok (a, rng1) ∧
      ((15 < e ∧ ∃ d ∈ directionNames, view.look d = Except.ok ' ') →
        ∃ d, a = some ⟨"reproduce", some d⟩ ∧ d ∈ directionNames ∧
          view.look d = Except.ok ' ') ∧
      (¬(15 < e ∧ ∃ d ∈ directionNames, view.look d = Except.ok ' ') → e < 20 →
        a = some ⟨"grow", none⟩) ∧
      (¬(15 < e ∧ ∃ d ∈ directionNames, view.look d = Except.ok ' ') → 20 ≤ e →
        a = none) := by
  obtain ⟨res, rng1, hfind, hnone, hsome⟩ := View.find_ok view rng ' '
  by_cases h15 : 15 < e
  · cases res with
    | some d =>
        obtain ⟨hd, hl⟩ := hsome d rfl
        have hrun : Plant.act w rng this view =
            Except.ok (some ⟨"reproduce", some d⟩, rng1) := by
          unfold Plant.act
          simp [he, Num.gt, Num.lt, h15, hfind, bind, Except.bind, pure, Except.pure]
        refine ⟨_, _, hrun, fun _ => ⟨d, rfl, hd, hl⟩, fun hn => ?_, fun hn => ?_⟩
        · exact absurd ⟨h15, d, hd, hl⟩ hn
        · exact absurd ⟨h15, d, hd, hl⟩ hn
    | none =>
        have hno := hnone.1 rfl
        by_cases h20 : e < 20
        · have hrun : Plant.act w rng this view =
              Except.ok (some ⟨"grow", none⟩, rng1) := by
            unfold Plant.act
            simp [he, Num.gt, Num.lt, h15, hfind, bind, Except.bind, pure, Except.pure, h20]
          refine ⟨_, _, hrun, ?_, fun _ _ => rfl, fun _ h => absurd h20 (not_lt.mpr h)⟩
          rintro ⟨-, d, hd, hl⟩
          exact absurd hl (hno d hd)
        · have hrun : Plant.act w rng this view = Except.ok (none, rng1) := by
            unfold Plant.act
            simp [he, Num.gt, Num.lt, h15, hfind, bind, Except.bind, pure, Except.pure, h20]
          refine ⟨_, _, hrun, ?_, fun _ h => absurd h h20, fun _ _ => rfl⟩
          rintro ⟨-, d, hd, hl⟩
          exact absurd hl (hno d hd)
  · by_cases h20 : e < 20
    · have hrun : Plant.act w rng this view = Except.ok (some ⟨"grow", none⟩, rng) := by
        unfold Plant.act
        simp [he, Num.gt, Num.lt, h15, pure, Except.pure, h20]
      exact ⟨_, _, hrun, fun h => absurd h.1 h15, fun _ _ => rfl,
        fun _ h => absurd h20 (not_lt.mpr h)⟩
    · have hrun : Plant.act w rng this view = Except.ok (none, rng) := by
        unfold Plant.act
        simp [he, Num.gt, Num.lt, h15, pure, Except.pure, h20]
      exact ⟨_, _, hrun, fun h => absurd h.1 h15, fun _ h => absurd h h20, fun _ _ => rfl⟩

/-- What `PlantEater.prototype.act` returns, by cases on the energy and on
what the neighbouring cells render as. -/
theorem planteater_act_ok (w : World) (rng : Rng) (this : Ref) (view : View) (e : ℚ)
    (he : (w.objs this).energy = Num.val e) :
    ∃ a rng1, PlantEater.act w rng this view = Except.ok (a, rng1) ∧
      ((60 < e ∧ ∃ d ∈ directionNames, view.look d = Except.ok ' ') →
        ∃ d, a = some ⟨"reproduce", some d⟩ ∧ d ∈ directionNames ∧
          view.look d = Except.ok ' ') ∧
      (¬(60 < e ∧ ∃ d ∈ directionNames, view.look d = Except.ok ' ') →
        (∃ d ∈ directionNames, view.look d = Except.ok '*') →
        ∃ d, a = some ⟨"eat", some d⟩ ∧ d ∈ directionNames ∧ view.look d = Except.ok '*') ∧
      (¬(60 < e ∧ ∃ d ∈ directionNames, view.look d = Except.ok ' ') →
        (¬∃ d ∈ directionNames, view.look d = Except.ok '*') →
        (∃ d ∈ directionNames, view.look d = Except.ok ' ') →
        ∃ d, a = some ⟨"move", some d⟩ ∧ d ∈ directionNames ∧ view.look d = Except.ok ' ') ∧
      ((¬∃ d ∈ directionNames, view.look d = Except.ok '*') →
        (¬∃ d ∈ directionNames, view.look d = Except.ok ' ') → a = none) := by
  obtain ⟨space, rng1, hfs, hsnone, hssome⟩ := View.find_ok view rng ' '
  obtain ⟨plant, rng2, hfp, hpnone, hpsome⟩ := View.find_ok view rng1 '*'
  have hrest : ∃ a, (do
        let (plant, rng2) ← view.find rng1 '*'
        match plant with
        | some pl => pure (some ⟨"eat", some pl⟩, rng2)
        | none =>
            match space with
            | some sp => pure (some ⟨"move", some sp⟩, rng2)
            | none => pure (none, rng2) : Except Fault (Option Action × Rng)) =
          Except.ok (a, rng2) ∧
        ((∃ d ∈ directionNames, view.look d = Except.ok '*') →
          ∃ d, a = some ⟨"eat", some d⟩ ∧ d ∈ directionNames ∧
            view.look d = Except.ok '*') ∧
        ((¬∃ d ∈ directionNames, view.look d = Except.ok '*') →
          (∃ d ∈ directionNames, view.look d = Except.ok ' ') →
          ∃ d, a = some ⟨"move", some d⟩ ∧ d ∈ directionNames ∧
            view.look d = Except.ok ' ') ∧
        ((¬∃ d ∈ directionNames, view.look d = Except.ok '*') →
          (¬∃ d ∈ directionNames, view.look d = Except.ok ' ') → a = none) := by
    simp only [hfp, bind, Except.bind]
    cases plant with
    | some pl =>
        obtain ⟨hd, hl⟩ := hpsome pl rfl
        refine ⟨_, rfl, fun _ => ⟨pl, rfl, hd, hl⟩, fun hn => ?_, fun hn => ?_⟩
        · exact absurd ⟨pl, hd, hl⟩ hn
        · exact absurd ⟨pl, hd, hl⟩ hn
    | none =>
        have hno := hpnone.1 rfl
        cases space with
        | some sp =>
            obtain ⟨hd, hl⟩ := hssome sp rfl
            refine ⟨_, rfl, ?_, fun _ _ => ⟨sp, rfl, hd, hl⟩, fun _ hn => ?_⟩
            · rintro ⟨d, hd', hl'⟩
              exact absurd hl' (hno d hd')
            · exact absurd ⟨sp, hd, hl⟩ hn
        | none =>
            have hnos := hsnone.1 rfl
            refine ⟨_, rfl, ?_, ?_, fun _ _ => rfl⟩
            · rintro ⟨d, hd', hl'⟩
              exact absurd hl' (hno d hd')
            · rintro - ⟨d, hd', hl'⟩
              exact absurd hl' (hnos d hd')
  obtain ⟨ar, hr, hr1, hr2, hr3⟩ := hrest
  simp only [bind, Except.bind] at hr
  cases space with
  | some sp =>
      obtain ⟨hd, hl⟩ := hssome sp rfl
      by_cases h60 : 60 < e
      · have hrun : PlantEater.act w rng this view =
            Except.ok (some ⟨"reproduce", some sp⟩, rng1) := by
          unfold PlantEater.act
          simp [hfs, bind, Except.bind, he, Num.gt, Num.lt, h60, pure, Except.pure]
        refine ⟨_, _, hrun, fun _ => ⟨sp, rfl, hd, hl⟩, fun hn => ?_, fun hn => ?_,
          fun _ hn => ?_⟩
        · exact absurd ⟨h60, sp, hd, hl⟩ hn
        · exact absurd ⟨h60, sp, hd, hl⟩ hn
        · exact absurd ⟨sp, hd, hl⟩ hn
      · have hrun : PlantEater.act w rng this view = Except.ok (ar, rng2) := by
          unfold PlantEater.act
          simp only [hfs, bind, Except.bind, he, Num.gt, Num.lt, h60, decide_False,
            Bool.false_eq_true, if_false]
          exact hr
        exact ⟨ar, rng2, hrun, fun h => absurd h.1 h60, fun _ => hr1, fun _ => hr2, hr3⟩
  | none =>
      have hnos := hsnone.1 rfl
      have hrun : PlantEater.act w rng this view = Except.ok (ar, rng2) := by
        unfold PlantEater.act
        simp only [hfs, bind, Except.bind]
        exact hr
      refine ⟨ar, rng2, hrun, ?_, fun _ => hr1, fun _ => hr2, hr3⟩
      rintro ⟨-, d, hd', hl'⟩
      exact absurd hl' (hnos d hd')

theorem World.letAct_of_handled (w : World) (rng : Rng) (c : Ref) (p : Vector)
    (a : Option Action) (w1 w2 : World) (rng1 rng2 : Rng)
    (hact : w.act rng c ⟨w, p⟩ = Except.ok (a, w1, rng1))
    (hh : w1.handled rng1 c p a = Except.ok (true, w2, rng2)) :
    w.letAct rng c p = Except.ok (w2, rng2) := by
  unfold World.letAct
  simp [hact, hh, bind, Except.bind, pure, Except.pure]

/-- C11. A `Plant` with energy `e` proposes `reproduce` toward a neighbouring
cell that renders as empty when `e > 15` and there is one; otherwise `grow`
when `e < 20`; otherwise nothing. Run through `letAct` with energy 16 and no
empty neighbouring cell, it grows: its energy is then 16.5 and the grid is as
before. -/
theorem plant_act_spec (w : World) (rng : Rng) (c : Ref) (p : Vector) (view : View) (e : ℚ)
    (hk : (w.objs c).kind = Kind.Plant) (he : (w.objs c).energy = Num.val e) :
    (∃ a rng1, Plant.act w rng c view = Except.ok (a, rng1) ∧
      ((15 < e ∧ ∃ d ∈ directionNames, view.look d = Except.ok ' ') →
        ∃ d, a = some ⟨"reproduce", some d⟩ ∧ d ∈ directionNames ∧
          view.look d = Except.ok ' ') ∧
      (¬(15 < e ∧ ∃ d ∈ directionNames, view.look d = Except.ok ' ') → e < 20 →
        a = some ⟨"grow", none⟩) ∧
      (¬(15 < e ∧ ∃ d ∈ directionNames, view.look d = Except.ok ' ') → 20 ≤ e →
        a = none)) ∧
      (e = 16 → (∀ d ∈ directionNames, (View.mk w p).look d ≠ Except.ok ' ') →
        ∃ w1 rng1, w.letAct rng c p = Except.ok (w1, rng1) ∧
          (w1.objs c).energy = Num.val (16 + 1 / 2) ∧ w1.grid = w.grid) := by
  refine ⟨plant_act_ok w rng c view e he, ?_⟩
  intro h16 hno
  obtain ⟨a, rng1, hrun, -, hgrow, -⟩ := plant_act_ok w rng c ⟨w, p⟩ e he
  have ha : a = some ⟨"grow", none⟩ := by
    apply hgrow
    · rintro ⟨-, d, hd, hl⟩
      exact hno d hd hl
    · rw [h16]
      norm_num
  subst ha
  have hact : w.act rng c ⟨w, p⟩ = Except.ok (some ⟨"grow", none⟩, w, rng1) := by
    unfold World.act
    simp [hk, hrun, bind, Except.bind, pure, Except.pure]
  have hh : w.handled rng1 c p (some ⟨"grow", none⟩) =
      Except.ok (true, (actionTypes.grow w c).2, rng1) := by
    simp [World.handled, actionTypes.grow, pure, Except.pure]
  refine ⟨_, _, World.letAct_of_handled w rng c p _ w _ rng1 rng1 hact hh, ?_, rfl⟩
  simp only [actionTypes.grow, he, h16, Num.add]
  rw [show Num.round (16 + 1 / 2) = Num.val (16 + 1 / 2) by decide!]
  exact World.setEnergy_objs_same _ _ _

/-- C12. A `PlantEater` with energy `e` proposes `reproduce` toward an empty
neighbouring cell when `e > 60` and there is one; else `eat` toward a
neighbouring cell that renders as `'*'` when there is one; else `move` toward
an empty neighbouring cell when there is one; else nothing. -/
theorem planteater_act_spec (w : World) (rng : Rng) (this : Ref) (view : View) (e : ℚ)
    (he : (w.objs this).energy = Num.val e) :
    ∃ a rng1, PlantEater.act w rng this view = Except.ok (a, rng1) ∧
      ((60 < e ∧ ∃ d ∈ directionNames, view.look d = Except.ok ' ') →
        ∃ d, a = some ⟨"reproduce", some d⟩ ∧ d ∈ directionNames ∧
          view.look d = Except.ok ' ') ∧
      (¬(60 < e ∧ ∃ d ∈ directionNames, view.look d = Except.ok ' ') →
        (∃ d ∈ directionNames, view.look d = Except.ok '*') →
        ∃ d, a = some ⟨"eat", some d⟩ ∧ d ∈ directionNames ∧ view.look d = Except.ok '*') ∧
      (¬(60 < e ∧ ∃ d ∈ directionNames, view.look d = Except.ok ' ') →
        (¬∃ d ∈ directionNames, view.look d = Except.ok '*') →
        (∃ d ∈ directionNames, view.look d = Except.ok ' ') →
        ∃ d, a = some ⟨"move", some d⟩ ∧ d ∈ directionNames ∧ view.look d = Except.ok ' ') ∧
      ((¬∃ d ∈ directionNames, view.look d = Except.ok '*') →
        (¬∃ d ∈ directionNames, view.look d = Except.ok ' ') → a = none) :=
  planteater_act_ok w rng this view e he

theorem plant_act_spec_witness :
    ((lonePlantWorld.objs 0).kind = Kind.Plant ∧
        (lonePlantWorld.objs 0).energy = Num.val 16 ∧
        ∀ d ∈ directionNames, (View.mk lonePlantWorld ⟨0, 0⟩).look d ≠ Except.ok ' ') ∧
      ∃ w1 rng1, lonePlantWorld.letAct rngZero 0 ⟨0, 0⟩ = Except.ok (w1, rng1) ∧
        (w1.objs 0).energy = Num.val (16 + 1 / 2) ∧ w1.grid = lonePlantWorld.grid := by
  have hno : ∀ d ∈ directionNames, (View.mk lonePlantWorld ⟨0, 0⟩).look d ≠ Except.ok ' ' := by
    intro d hd
    simp only [directionNames, List.mem_cons, List.mem_singleton, List.not_mem_nil,
      or_false] at hd
    rcases hd with rfl | rfl | rfl | rfl | rfl | rfl | rfl | rfl <;>
      exact fun h => absurd (Except.ok.inj h) (by decide)
  exact ⟨⟨rfl, rfl, hno⟩,
    (plant_act_spec lonePlantWorld rngZero 0 ⟨0, 0⟩ (View.mk lonePlantWorld ⟨0, 0⟩) 16
      rfl rfl).2 rfl hno⟩

theorem planteater_act_spec_witness :
    (eaterPlantWorld.objs 0).energy = Num.val 20 ∧
      ∃ d, d ∈ directionNames ∧
        (View.mk eaterPlantWorld ⟨0, 0⟩).look d = Except.ok '*' ∧
        ∃ rng1, PlantEater.act eaterPlantWorld rngZero 0 (View.mk eaterPlantWorld ⟨0, 0⟩) =
          Except.ok (some ⟨"eat", some d⟩, rng1) := by
  obtain ⟨a, rng1, hrun, -, heat, -, -⟩ :=
    planteater_act_spec eaterPlantWorld rngZero 0 (View.mk eaterPlantWorld ⟨0, 0⟩) 20 rfl
  obtain ⟨d, ha, hd, hl⟩ := heat (fun h => absurd h.1 (by norm_num)) ⟨"e", by decide, rfl⟩
  subst ha
  exact ⟨rfl, d, hd, hl, rng1, hrun⟩

/-! ### Construction and the lengths of the rows -/

theorem elementFromChar_error (w : World) (rng : Rng) (ch : Char)
    (h : ¬(ch = ' ' ∨ ∃ k, w.legend ch = some k)) :
    elementFromChar w rng ch = Except.error Fault.typeError := by
  have h1 : ch ≠ ' ' := fun hc => h (Or.inl hc)
  have h2 : w.legend ch = none := by
    cases hl : w.legend ch with
    | none => rfl
    | some k => exact absurd (Or.inr ⟨k, hl⟩) h
  simp [elementFromChar, h1, h2, throw, throwThe, MonadExceptOf.throw]

/-- The inner loop of the constructor returns exactly when every character of
the row is a space or a key of the legend, whatever the length of the row. -/
theorem World.fillLine_returns (y : Nat) (row : List Char) :
    ∀ (w : World) (rng : Rng) (x : Nat),
      (LegalLine w.legend row →
        ∃ w1 rng1, World.fillLine w rng y row x = Except.ok (w1, rng1) ∧
          w1.grid.width = w.grid.width ∧ w1.grid.height = w.grid.height ∧
          w1.legend = w.legend) ∧
      (¬LegalLine w.legend row →
        World.fillLine w rng y row x = Except.error Fault.typeError) := by
  induction row with
  | nil =>
      intro w rng x
      refine ⟨fun _ => ⟨w, rng, rfl, rfl, rfl, rfl⟩, fun h => absurd ?_ h⟩
      intro ch hch
      simp at hch
  | cons ch rest ih =>
      intro w rng x
      by_cases hch : ch = ' ' ∨ ∃ k, w.legend ch = some k
      · obtain ⟨el, w0, rng0, hel, -⟩ := elementFromChar_legal w rng ch hch
        obtain ⟨hg0, hl0, -, -, -⟩ := elementFromChar_ok w rng ch el w0 rng0 hel
        obtain ⟨ih1, ih2⟩ :=
          ih { w0 with grid := w0.grid.set ⟨(x : Int), (y : Int)⟩ el } rng0 (x + 1)
        constructor
        · intro hlegal
          obtain ⟨w1, rng1, hfill, hw, hh, hl⟩ := ih1 (by
            intro c hc
            have := hlegal c (List.mem_cons_of_mem _ hc)
            simpa [hl0] using this)
          refine ⟨w1, rng1, ?_, ?_, ?_, ?_⟩
          · simp only [World.fillLine, hel, bind, Except.bind]
            exact hfill
          · rw [hw]
            show w0.grid.width = _
            rw [hg0]
          · rw [hh]
            show w0.grid.height = _
            rw [hg0]
          · rw [hl]
            exact hl0
        · intro hnot
          simp only [World.fillLine, hel, bind, Except.bind]
          apply ih2
          intro hrest
          apply hnot
          intro c hc
          rcases List.mem_cons.mp hc with rfl | hc'
          · exact hch
          · have := hrest c hc'
            simpa [hl0] using this
      · constructor
        · intro hlegal
          exact absurd (hlegal ch (List.mem_cons_self _ _)) hch
        · intro _
          simp only [World.fillLine, elementFromChar_error w rng ch hch, bind, Except.bind]

theorem World.fillLines_returns (rows : List (List Char)) :
    ∀ (w : World) (rng : Rng) (y : Nat),
      ((∀ row ∈ rows, LegalLine w.legend row) →
        ∃ w1 rng1, World.fillLines w rng rows y = Except.ok (w1, rng1) ∧
          w1.grid.width = w.grid.width ∧ w1.grid.height = w.grid.height ∧
          w1.legend = w.legend) ∧
      (¬(∀ row ∈ rows, LegalLine w.legend row) →
        World.fillLines w rng rows y = Except.error Fault.typeError) := by
  induction rows with
  | nil =>
      intro w rng y
      refine ⟨fun _ => ⟨w, rng, rfl, rfl, rfl, rfl⟩, fun h => absurd ?_ h⟩
      intro row hrow
      simp at hrow
  | cons row rest ih =>
      intro w rng y
      obtain ⟨h1, h2⟩ := World.fillLine_returns y row w rng 0
      by_cases hrow : LegalLine w.legend row
      · obtain ⟨w0, rng0, hfill, hw0, hh0, hl0⟩ := h1 hrow
        obtain ⟨ih1, ih2⟩ := ih w0 rng0 (y + 1)
        constructor
        · intro hlegal
          obtain ⟨w1, rng1, hfills, hw, hh, hl⟩ := ih1 (by
            intro r hr
            rw [hl0]
            exact hlegal r (List.mem_cons_of_mem _ hr))
          refine ⟨w1, rng1, ?_, by rw [hw, hw0], by rw [hh, hh0], by rw [hl, hl0]⟩
          simp only [World.fillLines, hfill, bind, Except.bind]
          exact hfills
        · intro hnot
          simp only [World.fillLines, hfill, bind, Except.bind]
          apply ih2
          intro hrest
          apply hnot
          intro r hr
          rcases List.mem_cons.mp hr with rfl | hr'
          · exact hrow
          · have := hrest r hr'
            rwa [hl0] at this
      · constructor
        · intro hlegal
          exact absurd (hlegal row (List.mem_cons_self _ _)) hrow
        · intro _
          simp only [World.fillLines, h2 hrow, bind, Except.bind]

/-- C14, as amended. Rows of different lengths raise no fault. For a map whose
characters are single code units, the constructor returns a world, of width
`map[0].length` and height `map.length`, when the map is not empty, the
product `map[0].length * map.length` is below `2 ^ 32` and the characters
other than the space are keys of the legend. Otherwise it throws: a
`TypeError` for an empty map, a `RangeError` for a product of `2 ^ 32` or
more, and a `TypeError` for a character that is neither a space nor a key of
the legend. -/
theorem new_returns_iff (map : List (List Char)) (legend : Char → Option Kind) (rng : Rng)
    (hunits : ∀ row ∈ map, UnitLine row) :
    ((map ≠ [] ∧ (map.headD []).length * map.length < 2 ^ 32 ∧
          ∀ row ∈ map, ∀ ch ∈ row, ch = ' ' ∨ (legend ch).isSome = true) →
        ∃ w rng1, World.new map legend rng = Except.ok (w, rng1) ∧
          w.grid.width = (map.headD []).length ∧ w.grid.height = map.length) ∧
      (map = [] → World.new map legend rng = Except.error Fault.typeError) ∧
      (map ≠ [] → 2 ^ 32 ≤ (map.headD []).length * map.length →
        World.new map legend rng = Except.error Fault.rangeError) ∧
      (map ≠ [] → (map.headD []).length * map.length < 2 ^ 32 →
        ¬(∀ row ∈ map, ∀ ch ∈ row, ch = ' ' ∨ (legend ch).isSome = true) →
        World.new map legend rng = Except.error Fault.typeError) := by
  have hconv : ∀ (rows : List (List Char)),
      (∀ row ∈ rows, ∀ ch ∈ row, ch = ' ' ∨ (legend ch).isSome = true) ↔
        ∀ row ∈ rows, LegalLine legend row := by
    intro rows
    constructor
    · intro h row hrow ch hch
      exact (h row hrow ch hch).imp id Option.isSome_iff_exists.mp
    · intro h row hrow ch hch
      exact (h row hrow ch hch).imp id Option.isSome_iff_exists.mpr
  cases map with
  | nil =>
      exact ⟨fun h => absurd rfl h.1, fun _ => rfl, fun h => absurd rfl h, fun h => absurd rfl h⟩
  | cons row0 rest =>
      by_cases hsz : row0.length * (row0 :: rest).length < 2 ^ 32
      · have hg : Grid.new row0.length (row0 :: rest).length =
            Except.ok ⟨fun _ => none, row0.length, (row0 :: rest).length⟩ := by
          unfold Grid.new
          rw [if_pos hsz]
          rfl
        have hnew : World.new (row0 :: rest) legend rng =
            World.fillLines ⟨⟨fun _ => none, row0.length, (row0 :: rest).length⟩, legend,
              fun _ => Entity.blank, 0⟩ rng (row0 :: rest) 0 := by
          simp only [World.new, hg, bind, Except.bind]
        obtain ⟨h1, h2⟩ :=
          World.fillLines_returns (row0 :: rest)
            ⟨⟨fun _ => none, row0.length, (row0 :: rest).length⟩, legend,
              fun _ => Entity.blank, 0⟩ rng 0
        refine ⟨?_, fun h => (by cases h), fun _ hge => absurd hsz (not_lt.mpr hge), ?_⟩
        · rintro ⟨-, -, hlegal⟩
          obtain ⟨w, rng1, hfill, hw, hh, -⟩ := h1 ((hconv _).1 hlegal)
          exact ⟨w, rng1, hnew.trans hfill, hw, hh⟩
        · intro _ _ hnot
          rw [hnew]
          apply h2
          intro hlegal
          exact hnot ((hconv _).2 hlegal)
      · have hg : Grid.new row0.length (row0 :: rest).length =
            Except.error Fault.rangeError := by
          unfold Grid.new
          rw [if_neg hsz]
          rfl
        have hnew : World.new (row0 :: rest) legend rng = Except.error Fault.rangeError := by
          simp only [World.new, hg, bind, Except.bind]
        refine ⟨fun h => absurd h.2.1 hsz, fun h => (by cases h), fun _ _ => hnew,
          fun _ h => absurd h hsz⟩

theorem new_returns_iff_witness :
    (∀ row ∈ ([['#', '#'], ['#']] : List (List Char)), UnitLine row) ∧
      ∃ w rng1, World.new [['#', '#'], ['#']] initLegend rngZero = Except.ok (w, rng1) ∧
        w.grid.width = 2 ∧ w.grid.height = 2 :=
  ⟨fun row hrow ch hch => (by revert row ch; decide!),
    (new_returns_iff [['#', '#'], ['#']] initLegend rngZero
      (fun row hrow ch hch => (by revert row ch; decide!))).1
      ⟨by decide, by decide!, by decide⟩⟩

/-- C14, as stated, fails: the map `["##", "#"]` has rows of lengths 2 and 1,
and the constructor returns a world for it. -/
theorem unequal_rows_counterexample :
    (['#', '#'] : List Char).length ≠ (['#'] : List Char).length ∧
      ∃ w rng1, World.new [['#', '#'], ['#']] initLegend rngZero = Except.ok (w, rng1) ∧
        w.grid.width = 2 ∧ w.grid.height = 2 :=
  ⟨by decide, _, _, rfl, rfl, rfl⟩

theorem Num.isNull_eq_false_iff (n : Num) : n.isNull = false ↔ n ≠ Num.undef := by
  cases n <;> simp [Num.isNull]

theorem move_effect (w : World) (c : Ref) (p : Vector) (a : Action) :
    World.GridEffect w (actionTypes.move w c p a).2 c p (some a) ∧
      World.ObjsKept w (actionTypes.move w c p a).2 c := by
  unfold actionTypes.move
  split
  · exact ⟨Or.inl rfl, fun _ _ _ => rfl⟩
  · rename_i dest hdest
    split
    · exact ⟨Or.inl rfl, fun _ _ _ => rfl⟩
    · rename_i hcond
      simp only [Bool.or_eq_true, not_or, Option.isSome_iff_ne_none, ne_eq, not_not] at hcond
      refine ⟨Or.inr (Or.inl ⟨a, dest, rfl, hdest, hcond.2, rfl⟩), ?_⟩
      intro r _ hr
      exact World.setEnergy_objs_other _ _ _ _ hr

theorem eat_effect (w : World) (c : Ref) (p : Vector) (a : Action) :
    World.GridEffect w (actionTypes.eat w c p a).2 c p (some a) ∧
      World.ObjsKept w (actionTypes.eat w c p a).2 c := by
  unfold actionTypes.eat
  split
  · exact ⟨Or.inl rfl, fun _ _ _ => rfl⟩
  · rename_i dest hdest
    split
    · exact ⟨Or.inl rfl, fun _ _ _ => rfl⟩
    · rename_i t ht
      split
      · exact ⟨Or.inl rfl, fun _ _ _ => rfl⟩
      · rename_i hcond
        have hne : (w.objs t).energy ≠ Num.undef := by
          rw [← Num.isNull_eq_false_iff]
          simpa using hcond
        refine ⟨Or.inr (Or.inr (Or.inl ⟨a, dest, t, rfl, hdest, ht, hne, rfl⟩)), ?_⟩
        intro r _ hr
        exact World.setEnergy_objs_other _ _ _ _ hr

theorem reproduce_effect (w : World) (rng : Rng) (c : Ref) (p : Vector) (a : Action)
    (ok : Bool) (w1 : World) (rng1 : Rng)
    (h : actionTypes.reproduce w rng c p a = Except.ok (ok, w1, rng1)) :
    World.GridEffect w w1 c p (some a) ∧ World.ObjsKept w w1 c := by
  unfold actionTypes.reproduce at h
  cases hel : elementFromChar w rng (w.objs c).originChar with
  | error f => simp [hel, bind, Except.bind] at h
  | ok res =>
      obtain ⟨el, w0, rng0⟩ := res
      obtain ⟨hg, -, -, hobjs, hb⟩ := elementFromChar_ok w rng _ el w0 rng0 hel
      have hcheck : w0.checkDestination a p = w.checkDestination a p := by
        unfold World.checkDestination
        rw [hg]
      simp only [hel, bind, Except.bind, hcheck] at h
      split at h
      · cases h
        exact ⟨Or.inl (by rw [hg]), fun r hr _ => hobjs r hr⟩
      · rename_i dest hdest
        split at h
        · cases h
        · rename_i b
          split at h
          · cases h
            exact ⟨Or.inl (by rw [hg]), fun r hr _ => hobjs r hr⟩
          · rename_i hcond
            cases h
            simp only [Bool.or_eq_true, not_or, Option.isSome_iff_ne_none, ne_eq,
              not_not] at hcond
            obtain ⟨hb1, hb2, -⟩ := hb b rfl
            refine ⟨Or.inr (Or.inr (Or.inr (Or.inl
              ⟨a, dest, rfl, hdest, by rw [← hg]; exact hcond.2, hb2, ?_⟩))), ?_⟩
            · simp only [Grid.set, World.setEnergy_grid, hg, hb1]
            · intro r hr hrc
              rw [← hobjs r hr]
              exact World.setEnergy_objs_other _ _ _ _ hrc

theorem World.handled_effect (w : World) (rng : Rng) (c : Ref) (p : Vector)
    (action : Option Action) (ok : Bool) (w1 : World) (rng1 : Rng)
    (h : w.handled rng c p action = Except.ok (ok, w1, rng1)) :
    World.GridEffect w w1 c p action ∧ World.ObjsKept w w1 c := by
  unfold World.handled at h
  split at h
  · cases h
    exact ⟨Or.inl rfl, fun _ _ _ => rfl⟩
  · rename_i a
    split at h
    · cases h
      exact ⟨Or.inl rfl, fun r _ hr => World.setEnergy_objs_other _ _ _ _ hr⟩
    · split at h
      · simp only [pure, Except.pure, Except.ok.injEq, Prod.mk.injEq] at h
        rw [← h.2.1]
        exact move_effect w c p a
      · split at h
        · simp only [pure, Except.pure, Except.ok.injEq, Prod.mk.injEq] at h
          rw [← h.2.1]
          exact eat_effect w c p a
        · split at h
          · exact reproduce_effect w rng c p a ok w1 rng1 h
          · cases h
            exact ⟨Or.inl rfl, fun _ _ _ => rfl⟩

/-- The effect of `letAct` on the grid, and its frame on the objects: the
energy, the constructor and the `originChar` of every object that existed,
other than `c`, are as before. -/
theorem World.letAct_effect (w : World) (rng : Rng) (c : Ref) (p : Vector)
    (action : Option Action) (w0 : World) (rng0 : Rng)
    (hact : w.act rng c ⟨w, p⟩ = Except.ok (action, w0, rng0))
    (w1 : World) (rng1 : Rng) (h : w.letAct rng c p = Except.ok (w1, rng1)) :
    World.GridEffect w w1 c p action ∧
      ∀ r, r < w.next → r ≠ c →
        (w1.objs r).energy = (w.objs r).energy ∧
        (w1.objs r).originChar = (w.objs r).originChar ∧
        (w1.objs r).kind = (w.objs r).kind := by
  obtain ⟨hg0, hn0, -, ho0⟩ := World.act_frame w rng c ⟨w, p⟩ action w0 rng0 hact
  unfold World.letAct at h
  simp only [hact, bind, Except.bind] at h
  cases hh : w0.handled rng0 c p action with
  | error f => simp [hh] at h
  | ok res2 =>
      obtain ⟨ok, w2, rng2⟩ := res2
      obtain ⟨heff, hkept⟩ := World.handled_effect w0 rng0 c p action ok w2 rng2 hh
      have hcheck : ∀ a, w0.checkDestination a p = w.checkDestination a p := by
        intro a
        unfold World.checkDestination
        rw [hg0]
      have heff' : World.GridEffect w w2 c p action := by
        unfold World.GridEffect at heff ⊢
        simp only [hg0, hcheck, hn0] at heff
        rcases heff with h1 | ⟨a, dest, h1, h2, h3, h4⟩ | ⟨a, dest, t, h1, h2, h3, h4, h5⟩ |
          ⟨a, dest, h1, h2, h3, h4, h5⟩ | h1
        · exact Or.inl h1
        · exact Or.inr (Or.inl ⟨a, dest, h1, h2, h3, h4⟩)
        · exact Or.inr (Or.inr (Or.inl ⟨a, dest, t, h1, h2, h3,
            by rw [← (ho0 t).1]; exact h4, h5⟩))
        · exact Or.inr (Or.inr (Or.inr (Or.inl ⟨a, dest, h1, h2, h3, h4, h5⟩)))
        · exact Or.inr (Or.inr (Or.inr (Or.inr h1)))
      have hobjs2 : ∀ r, r < w.next → r ≠ c →
          (w2.objs r).energy = (w.objs r).energy ∧
          (w2.objs r).originChar = (w.objs r).originChar ∧
          (w2.objs r).kind = (w.objs r).kind := by
        intro r hr hrc
        rw [hkept r (hn0 ▸ hr) hrc]
        exact ho0 r
      simp only [hh] at h
      split at h
      · cases h
        exact ⟨heff', hobjs2⟩
      · rename_i hfalse
        have hok : ok = false := by simpa using hfalse
        subst hok
        obtain ⟨hg2, -⟩ := World.handled_false_frame w0 rng0 c p action w2 rng2 hh
        cases h
        constructor
        · unfold World.penalty
          simp only
          split
          · refine Or.inr (Or.inr (Or.inr (Or.inr ?_)))
            simp only [Grid.set, World.setEnergy_grid, hg2, hg0]
          · exact Or.inl (by simp only [World.setEnergy_grid, hg2, hg0])
        · intro r hr hrc
          have : (w2.penalty c p).objs r = w2.objs r := by
            unfold World.penalty
            simp only
            split
            · exact World.setEnergy_objs_other _ _ _ _ hrc
            · exact World.setEnergy_objs_other _ _ _ _ hrc
          rw [this]
          exact hobjs2 r hr hrc

theorem World.letAct_ok_act (w : World) (rng : Rng) (c : Ref) (p : Vector) (w1 : World)
    (rng1 : Rng) (h : w.letAct rng c p = Except.ok (w1, rng1)) :
    ∃ action w0 rng0, w.act rng c ⟨w, p⟩ = Except.ok (action, w0, rng0) := by
  unfold World.letAct at h
  cases hact : w.act rng c ⟨w, p⟩ with
  | error f => simp [hact, bind, Except.bind] at h
  | ok res => exact ⟨res.1, res.2.1, res.2.2, rfl⟩

/-- C18. When `letAct` on `c` at the in-grid position `p` returns, the width
and the height of the grid are as before, every in-grid cell other than `p`
and other than the destination of the proposed action holds what it held, and
every object that existed, other than `c`, has the energy it had. -/
theorem letAct_local (w : World) (rng : Rng) (c : Ref) (p : Vector) (w1 : World) (rng1 : Rng)
    (hp : w.grid.isInside p = true) (hlet : w.letAct rng c p = Except.ok (w1, rng1)) :
    ∃ action w0 rng0, w.act rng c ⟨w, p⟩ = Except.ok (action, w0, rng0) ∧
      w1.grid.width = w.grid.width ∧ w1.grid.height = w.grid.height ∧
      (∀ q, w.grid.isInside q = true → q ≠ p →
        (∀ a dest, action = some a → w.checkDestination a p = some dest → q ≠ dest) →
        w1.grid.get q = w.grid.get q) ∧
      (∀ r, r < w.next → r ≠ c → (w1.objs r).energy = (w.objs r).energy) := by
  obtain ⟨action, w0, rng0, hact⟩ := World.letAct_ok_act w rng c p w1 rng1 hlet
  obtain ⟨-, hw, hh, -⟩ := World.letAct_cells w rng c p w1 rng1 hlet
  obtain ⟨heff, hobjs⟩ := World.letAct_effect w rng c p action w0 rng0 hact w1 rng1 hlet
  refine ⟨action, w0, rng0, hact, hw, hh, ?_, fun r hr hrc => (hobjs r hr hrc).1⟩
  intro q hq hqp hqd
  have hkp : q.x + w.grid.width * q.y ≠ p.x + w.grid.width * p.y :=
    fun hk => hqp (Grid.key_injective w.grid q p hq hp hk)
  have hkd : ∀ a dest, action = some a → w.checkDestination a p = some dest →
      q.x + w.grid.width * q.y ≠ dest.x + w.grid.width * dest.y := by
    intro a dest ha hd hk
    obtain ⟨d, off, -, -, rfl, hin⟩ := (World.checkDestination_eq_some w a p dest).1 hd
    exact hqd a _ ha hd (Grid.key_injective w.grid q _ hq hin hk)
  unfold Grid.get
  rw [hw]
  rcases heff with h1 | ⟨a, dest, h1, h2, h3, h4⟩ | ⟨a, dest, t, h1, h2, h3, h4, h5⟩ |
    ⟨a, dest, h1, h2, h3, h4, h5⟩ | h1
  · rw [h1]
  · rw [h4, Function.update_noteq (hkd a dest h1 h2), Function.update_noteq hkp]
  · rw [h5, Function.update_noteq (hkd a dest h1 h2)]
  · rw [h5, Function.update_noteq (hkd a dest h1 h2)]
  · rw [h1, Function.update_noteq hkp]

set_option exponentiation.threshold 2048 in
theorem letAct_local_witness :
    (eaterWorld.grid.isInside ⟨0, 0⟩ = true ∧
        eaterWorld.letAct rngZero 0 ⟨0, 0⟩ =
          Except.ok ((actionTypes.move eaterWorld 0 ⟨0, 0⟩ ⟨"move", some "e"⟩).2,
            rngZero.tail)) ∧
      (actionTypes.move eaterWorld 0 ⟨0, 0⟩ ⟨"move", some "e"⟩).2.grid.width =
        eaterWorld.grid.width := by
  have hlet : eaterWorld.letAct rngZero 0 ⟨0, 0⟩ =
      Except.ok ((actionTypes.move eaterWorld 0 ⟨0, 0⟩ ⟨"move", some "e"⟩).2,
        rngZero.tail) := by
    with_unfolding_all rfl
  obtain ⟨_, _, _, _, hw, _⟩ :=
    letAct_local eaterWorld rngZero 0 ⟨0, 0⟩ _ _ (by decide) hlet
  exact ⟨⟨by decide, hlet⟩, hw⟩

/-- One round of the loop of `turn`, with the test that lets the critter act:
nothing happens, or `letAct` is called on the critter `c` found in the cell,
which has an `act`. -/
theorem World.visit_acting (acc : TurnState × Option Fault) (v : Vector) :
    Grid.visit (fun s => s.world.grid) World.turnFn acc v = acc ∨
      ∃ c, acc.1.world.grid.space (v.x + acc.1.world.grid.width * v.y) = some c ∧
        (acc.1.world.objs c).hasAct = true ∧
        ((∃ w rng, acc.1.world.letAct acc.1.rng c v = Except.ok (w, rng) ∧
            Grid.visit (fun s => s.world.grid) World.turnFn acc v =
              (⟨w, rng, acc.1.acted ++ [c], acc.1.calls ++ [(c, v)]⟩, none)) ∨
          (∃ f, Grid.visit (fun s => s.world.grid) World.turnFn acc v =
              (⟨acc.1.world, acc.1.rng, acc.1.acted ++ [c], acc.1.calls ++ [(c, v)]⟩,
                some f))) := by
  unfold Grid.visit
  split
  · exact Or.inl rfl
  · split
    · rename_i c hc
      simp only at hc
      rw [mul_comm] at hc
      unfold World.turnFn
      split
      · rename_i hcond
        simp only [Bool.and_eq_true] at hcond
        refine Or.inr ⟨c, hc, hcond.1, ?_⟩
        split
        · rename_i w rng hlet
          exact Or.inl ⟨w, rng, hlet, rfl⟩
        · rename_i f hlet
          exact Or.inr ⟨f, rfl⟩
      · rename_i hnone _ _
        left
        cases acc with
        | mk s f =>
            simp only at hnone
            subst hnone
            rfl
    · exact Or.inl rfl

theorem World.letAct_allocated (w : World) (rng : Rng) (c : Ref) (p : Vector) (w1 : World)
    (rng1 : Rng) (h : w.letAct rng c p = Except.ok (w1, rng1)) (hwf : w.Allocated)
    (hc : c < w.next) : w1.Allocated := by
  obtain ⟨hn, -, -, hcells⟩ := World.letAct_cells w rng c p w1 rng1 h
  intro key r hr
  rcases hcells key r hr with h3 | h3 | ⟨-, h3⟩
  · exact lt_of_lt_of_le (hwf key r h3) hn
  · rw [h3]
    exact lt_of_lt_of_le hc hn
  · exact h3

/-- The call `letAct(c, p)`, with `c` in the cell `p`, keeps every reference in
at most one cell. -/
theorem World.letAct_unique (w : World) (rng : Rng) (c : Ref) (p : Vector) (w1 : World)
    (rng1 : Rng) (h : w.letAct rng c p = Except.ok (w1, rng1)) (hwf : w.Allocated)
    (hu : w.Unique) (hcp : w.grid.space (p.x + w.grid.width * p.y) = some c) :
    w1.Unique := by
  obtain ⟨action, w0, rng0, hact⟩ := World.letAct_ok_act w rng c p w1 rng1 h
  obtain ⟨heff, -⟩ := World.letAct_effect w rng c p action w0 rng0 hact w1 rng1 h
  intro k1 k2 r h1 h2
  rcases heff with he | ⟨a, dest, -, -, hd, he⟩ | ⟨a, dest, t, -, -, -, -, he⟩ |
    ⟨a, dest, -, -, hd, -, he⟩ | he
  · rw [he] at h1 h2
    exact hu k1 k2 r h1 h2
  · rw [he] at h1 h2
    simp only [Function.update_apply] at h1 h2
    unfold Grid.get at hd
    by_cases hk1 : k1 = dest.x + w.grid.width * dest.y
    · by_cases hk2 : k2 = dest.x + w.grid.width * dest.y
      · rw [hk1, hk2]
      · rw [if_pos hk1] at h1
        rw [if_neg hk2] at h2
        cases h1
        split at h2
        · cases h2
        · rename_i hkp
          exact absurd (hu k2 _ c h2 hcp) hkp
    · rw [if_neg hk1] at h1
      by_cases hk2 : k2 = dest.x + w.grid.width * dest.y
      · rw [if_pos hk2] at h2
        cases h2
        split at h1
        · cases h1
        · rename_i hkp
          exact absurd (hu k1 _ c h1 hcp) hkp
      · rw [if_neg hk2] at h2
        split at h1
        · cases h1
        · split at h2
          · cases h2
          · exact hu k1 k2 r h1 h2
  · rw [he] at h1 h2
    simp only [Function.update_apply] at h1 h2
    split at h1
    · cases h1
    · split at h2
      · cases h2
      · exact hu k1 k2 r h1 h2
  · rw [he] at h1 h2
    simp only [Function.update_apply] at h1 h2
    split at h1
    · split at h2
      · rename_i hk1 hk2
        rw [hk1, hk2]
      · cases h1
        exact absurd (hwf k2 _ h2) (lt_irrefl _)
    · split at h2
      · cases h2
        exact absurd (hwf k1 _ h1) (lt_irrefl _)
      · exact hu k1 k2 r h1 h2
  · rw [he] at h1 h2
    simp only [Function.update_apply] at h1 h2
    split at h1
    · cases h1
    · split at h2
      · cases h2
      · exact hu k1 k2 r h1 h2

/-- C17. If the grid holds allocated objects only and no reference is in two
cells before `turn`, no reference is in two cells after it, whatever the
random draws. -/
theorem turn_keeps_unique (w : World) (rng : Rng) (hwf : w.Allocated) (hu : w.Unique) :
    (World.turn w rng).1.world.Unique := by
  have hinv : (World.turn w rng).1.world.Allocated ∧ (World.turn w rng).1.world.Unique := by
    rw [World.turn_eq_turnAfter]
    unfold World.turnAfter
    apply foldl_invariant
      (fun acc : TurnState × Option Fault => acc.1.world.Allocated ∧ acc.1.world.Unique)
    · intro acc v ⟨h1, h2⟩
      rcases World.visit_acting acc v with h | ⟨c, hc, -, ⟨w1, rng1, hlet, h⟩ | ⟨f, h⟩⟩
      · rw [h]
        exact ⟨h1, h2⟩
      · rw [h]
        exact ⟨World.letAct_allocated _ _ _ _ _ _ hlet h1 (h1 _ c hc),
          World.letAct_unique _ _ _ _ _ _ hlet h1 h2 hc⟩
      · rw [h]
        exact ⟨h1, h2⟩
    · exact ⟨hwf, hu⟩
  exact hinv.2

theorem plantRowWorld_allocated : plantRowWorld.Allocated := by
  intro key r hr
  simp only [plantRowWorld] at hr ⊢
  split at hr
  · cases hr
    decide
  · split at hr
    · cases hr
      decide
    · cases hr

theorem plantRowWorld_unique : plantRowWorld.Unique := by
  intro k1 k2 r h1 h2
  simp only [plantRowWorld] at h1 h2
  split at h1
  · split at h2
    · omega
    · split at h2
      · cases h1
        cases h2
      · cases h2
  · split at h1
    · split at h2
      · cases h1
        cases h2
      · split at h2
        · omega
        · cases h2
    · cases h1

theorem turn_keeps_unique_witness :
    (plantRowWorld.Allocated ∧ plantRowWorld.Unique) ∧
      (World.turn plantRowWorld rngZero).1.world.Unique :=
  ⟨⟨plantRowWorld_allocated, plantRowWorld_unique⟩,
    turn_keeps_unique plantRowWorld rngZero plantRowWorld_allocated plantRowWorld_unique⟩

/-- The invariant behind the permanence of walls, along any prefix of the
loop of `turn`. -/
theorem World.turnAfter_wall (w : World) (rng : Rng) (hwf : w.Allocated) (key : Int) (r : Ref)
    (hcell : w.grid.space key = some r) (hkind : (w.objs r).kind = Kind.Wall)
    (henergy : (w.objs r).energy = Num.undef) (l : List Vector) :
    (w.turnAfter rng l).1.world.Allocated ∧
      (w.turnAfter rng l).1.world.grid.space key = some r ∧
      ((w.turnAfter rng l).1.world.objs r).kind = Kind.Wall ∧
      ((w.turnAfter rng l).1.world.objs r).energy = Num.undef ∧
      ((w.turnAfter rng l).1.world.objs r).originChar = (w.objs r).originChar ∧
      ∀ call ∈ (w.turnAfter rng l).1.calls, call.1 ≠ r := by
  unfold World.turnAfter
  apply foldl_invariant
    (fun acc : TurnState × Option Fault =>
      acc.1.world.Allocated ∧ acc.1.world.grid.space key = some r ∧
        (acc.1.world.objs r).kind = Kind.Wall ∧ (acc.1.world.objs r).energy = Num.undef ∧
        (acc.1.world.objs r).originChar = (w.objs r).originChar ∧
        ∀ call ∈ acc.1.calls, call.1 ≠ r)
  · intro acc v ⟨h1, h2, h3, h4, h5, h6⟩
    rcases World.visit_acting acc v with h | ⟨c, hc, hact, ⟨w1, rng1, hlet, h⟩ | ⟨f, h⟩⟩
    · rw [h]
      exact ⟨h1, h2, h3, h4, h5, h6⟩
    · have hne : r ≠ c := by
        intro heq
        rw [← heq] at hact
        simp [Entity.hasAct, h3] at hact
      have hkp : key ≠ v.x + acc.1.world.grid.width * v.y := by
        intro hk
        rw [hk, hc] at h2
        exact hne (Option.some.inj h2).symm
      obtain ⟨action, w0, rng0, hrun⟩ := World.letAct_ok_act _ _ _ _ _ _ hlet
      obtain ⟨heff, hobjs⟩ := World.letAct_effect _ _ _ _ action w0 rng0 hrun w1 rng1 hlet
      obtain ⟨ho1, ho2, ho3⟩ := hobjs r (h1 key r h2) hne
      rw [h]
      refine ⟨World.letAct_allocated _ _ _ _ _ _ hlet h1 (h1 _ c hc), ?_, by rw [ho3, h3],
        by rw [ho1, h4], by rw [ho2, h5], ?_⟩
      · show w1.grid.space key = some r
        rcases heff with he | ⟨a, dest, -, -, hd, he⟩ | ⟨a, dest, t, -, -, hd, ht, he⟩ |
          ⟨a, dest, -, -, hd, -, he⟩ | he
        · rw [he]
          exact h2
        · have hkd : key ≠ dest.x + acc.1.world.grid.width * dest.y := by
            intro hk
            unfold Grid.get at hd
            rw [← hk, h2] at hd
            cases hd
          rw [he, Function.update_noteq hkd, Function.update_noteq hkp]
          exact h2
        · have hkd : key ≠ dest.x + acc.1.world.grid.width * dest.y := by
            intro hk
            unfold Grid.get at hd
            rw [← hk, h2] at hd
            cases hd
            exact ht h4
          rw [he, Function.update_noteq hkd]
          exact h2
        · have hkd : key ≠ dest.x + acc.1.world.grid.width * dest.y := by
            intro hk
            unfold Grid.get at hd
            rw [← hk, h2] at hd
            cases hd
          rw [he, Function.update_noteq hkd]
          exact h2
        · rw [he, Function.update_noteq hkp]
          exact h2
      · intro call hcall
        simp only [List.mem_append, List.mem_singleton] at hcall
        rcases hcall with h7 | h7
        · exact h6 call h7
        · rw [h7]
          exact hne.symm
    · have hne : r ≠ c := by
        intro heq
        rw [← heq] at hact
        simp [Entity.hasAct, h3] at hact
      rw [h]
      refine ⟨h1, h2, h3, h4, h5, ?_⟩
      intro call hcall
      simp only [List.mem_append, List.mem_singleton] at hcall
      rcases hcall with h7 | h7
      · exact h6 call h7
      · rw [h7]
        exact hne.symm
  · exact ⟨hwf, hcell, hkind, henergy, rfl, fun call hcall => by simp at hcall⟩

/-- C19. A cell that holds a `Wall` (an object without `act` and without
energy) before `turn` holds the same object, still a `Wall` without energy,
after `turn` and at every point of its loop, and `letAct` is never called on
it, whatever the random draws. -/
theorem walls_permanent (w : World) (rng : Rng) (hwf : w.Allocated) (key : Int) (r : Ref)
    (hcell : w.grid.space key = some r) (hkind : (w.objs r).kind = Kind.Wall)
    (henergy : (w.objs r).energy = Num.undef) :
    ((World.turn w rng).1.world.grid.space key = some r ∧
        ((World.turn w rng).1.world.objs r).kind = Kind.Wall ∧
        ((World.turn w rng).1.world.objs r).energy = Num.undef ∧
        ((World.turn w rng).1.world.objs r).originChar = (w.objs r).originChar ∧
        ∀ call ∈ (World.turn w rng).1.calls, call.1 ≠ r) ∧
      ∀ visited : List Vector,
        (w.turnAfter rng visited).1.world.grid.space key = some r ∧
          ((w.turnAfter rng visited).1.world.objs r).kind = Kind.Wall ∧
          ((w.turnAfter rng visited).1.world.objs r).energy = Num.undef ∧
          ∀ call ∈ (w.turnAfter rng visited).1.calls, call.1 ≠ r := by
  constructor
  · rw [World.turn_eq_turnAfter]
    exact (World.turnAfter_wall w rng hwf key r hcell hkind henergy _).2
  · intro visited
    obtain ⟨-, h2, h3, h4, -, h6⟩ :=
      World.turnAfter_wall w rng hwf key r hcell hkind henergy visited
    exact ⟨h2, h3, h4, h6⟩

theorem wallWorld_allocated : wallWorld.Allocated := by
  intro key r hr
  simp only [wallWorld] at hr ⊢
  split at hr
  · cases hr
    decide
  · split at hr
    · cases hr
      decide
    · cases hr

theorem walls_permanent_witness :
    (wallWorld.Allocated ∧ wallWorld.grid.space 0 = some 0 ∧
        (wallWorld.objs 0).kind = Kind.Wall ∧ (wallWorld.objs 0).energy = Num.undef) ∧
      (World.turn wallWorld rngZero).1.world.grid.space 0 = some 0 ∧
      (World.turn wallWorld rngZero).1.calls = [(1, ⟨1, 0⟩)] :=
  ⟨⟨wallWorld_allocated, rfl, rfl, rfl⟩,
    (walls_permanent wallWorld rngZero wallWorld_allocated 0 0 rfl rfl rfl).1.1,
    by decide!⟩

/-- A reproduce that meets its three conditions: what it returns. -/
theorem reproduce_success (w : World) (rng : Rng) (c : Ref) (p : Vector) (a : Action)
    (k : Kind) (e b : ℚ) (dest : Vector) (hc : c < w.next)
    (he : (w.objs c).energy = Num.val e)
    (hch : (w.objs c).originChar ≠ ' ') (hk : w.legend (w.objs c).originChar = some k)
    (hb : (k.construct (w.objs c).originChar rng).1.energy = Num.val b)
    (hdest : w.checkDestination a p = some dest) (hfree : w.grid.get dest = none)
    (hen : 2 * b < e) :
    ∃ w1 rng1, actionTypes.reproduce w rng c p a = Except.ok (true, w1, rng1) ∧
      w1.grid = w.grid.set dest (some w.next) ∧
      (w1.objs c).energy = Num.round (e - 2 * b) ∧
      w1.objs w.next = (k.construct (w.objs c).originChar rng).1 := by
  have hne : c ≠ w.next := Nat.ne_of_lt hc
  have hobjs : (w.alloc (k.construct (w.objs c).originChar rng).1).2.objs c = w.objs c := by
    simp [World.alloc, Function.update_noteq hne]
  have hbaby : (w.alloc (k.construct (w.objs c).originChar rng).1).2.objs w.next =
      (k.construct (w.objs c).originChar rng).1 := by
    simp [World.alloc]
  have hcheck : (w.alloc (k.construct (w.objs c).originChar rng).1).2.checkDestination a p =
      w.checkDestination a p := rfl
  have hgrid : (w.alloc (k.construct (w.objs c).originChar rng).1).2.grid = w.grid := rfl
  have hle : ¬ e ≤ 2 * b := not_le.mpr hen
  obtain ⟨hb3, hb20, -, hbd⟩ := Kind.construct_energy k _ rng b hb
  have hcost : Num.mul (Num.val 2) (Num.val b) = Num.val (2 * b) :=
    Num.round_two_mul (by linarith) hbd
      (lt_of_le_of_lt (show 2 * b ≤ 40 by linarith) (by decide!))
  unfold actionTypes.reproduce
  rw [elementFromChar_legend w rng _ k hch hk]
  simp only [bind, Except.bind, hcheck, hdest, hbaby, hb, hobjs, he, hcost, Num.le, hgrid,
    hfree, hle, decide_False, Option.isSome_none, Bool.or_self, Bool.false_eq_true, if_false,
    pure, Except.pure, Num.sub]
  refine ⟨_, _, rfl, rfl, World.setEnergy_objs_same _ _ _, ?_⟩
  show (World.setEnergy _ c _).objs w.next = _
  rw [World.setEnergy_objs_other _ _ _ _ hne.symm, hbaby]

/-- C20, as amended. For a `Plant` `c` whose energy is a double `e > 15`, at the
in-grid position `p`, whose `originChar` the legend maps to `Plant`, in a
world where no entity on the grid renders as a space: if some neighbouring
in-grid cell is empty, `letAct` returns, a new `Plant` with an energy `b` in
`[3, 7]` is in a neighbouring cell that was empty, and the parent is still in
`p` with the double nearest to `e - 2 * b` as its energy, which is above 1 (no
penalty is taken). -/
theorem plant_reproduce_succeeds (w : World) (rng : Rng) (c : Ref) (p : Vector) (e : ℚ)
    (hc : c < w.next) (hp : w.grid.isInside p = true) (hcp : w.grid.get p = some c)
    (hkind : (w.objs c).kind = Kind.Plant) (he : (w.objs c).energy = Num.val e)
    (hdouble : Num.round e = Num.val e)
    (h15 : 15 < e) (hleg : w.legend (w.objs c).originChar = some Kind.Plant)
    (hvis : ∀ key r, w.grid.space key = some r → (w.objs r).originChar ≠ ' ')
    (hempty : ∃ d off, directions d = some off ∧ w.grid.isInside (p.plus off) = true ∧
      w.grid.get (p.plus off) = none) :
    ∃ w1 rng1 d off baby b e1, w.letAct rng c p = Except.ok (w1, rng1) ∧
      directions d = some off ∧ w.grid.isInside (p.plus off) = true ∧
      w.grid.get (p.plus off) = none ∧
      w1.grid.get (p.plus off) = some baby ∧ w.next ≤ baby ∧
      (w1.objs baby).kind = Kind.Plant ∧ (w1.objs baby).energy = Num.val b ∧
      3 ≤ b ∧ b ≤ 7 ∧
      w1.grid.get p = some c ∧ (w1.objs c).energy = Num.round (e - 2 * b) ∧
      (w1.objs c).energy = Num.val e1 ∧ 1 < e1 := by
  have hch : (w.objs c).originChar ≠ ' ' := hvis _ c hcp
  obtain ⟨a, rng1, hrun, hrep, -, -⟩ := plant_act_ok w rng c ⟨w, p⟩ e he
  obtain ⟨d0, off0, hd0, hin0, hfree0⟩ := hempty
  have hlook0 : (View.mk w p).look d0 = Except.ok ' ' := by
    rw [View.look_of_directions _ d0 off0 hd0]
    simp [hin0, hfree0, charFromElement]
  obtain ⟨d, ha, hd, hlook⟩ := hrep ⟨h15, d0, mem_of_directions d0 off0 hd0, hlook0⟩
  subst ha
  obtain ⟨off, hoff⟩ := directions_of_mem d hd
  rw [View.look_of_directions _ d off hoff] at hlook
  have hin : w.grid.isInside (p.plus off) = true := by
    by_contra hout
    simp only [hout, Bool.false_eq_true, if_false] at hlook
    exact absurd (Except.ok.inj hlook) (by decide)
  have hfree : w.grid.get (p.plus off) = none := by
    simp only [hin, if_true] at hlook
    cases hget : w.grid.get (p.plus off) with
    | none => rfl
    | some t =>
        rw [hget] at hlook
        exact absurd (Except.ok.inj hlook) (hvis _ t hget)
  have hdest : w.checkDestination ⟨"reproduce", some d⟩ p = some (p.plus off) :=
    (World.checkDestination_eq_some w _ p _).2 ⟨d, off, rfl, hoff, rfl, hin⟩
  have hact : w.act rng c ⟨w, p⟩ = Except.ok (some ⟨"reproduce", some d⟩, w, rng1) := by
    unfold World.act
    simp [hkind, hrun, bind, Except.bind, pure, Except.pure]
  obtain ⟨b, hb, hb3, hb7, -⟩ := Kind.construct_plant_energy (w.objs c).originChar rng1
  obtain ⟨w1, rng2, hrepr, hgrid, henergy, hbaby⟩ :=
    reproduce_success w rng1 c p ⟨"reproduce", some d⟩ Kind.Plant e b
      (p.plus off) hc he hch hleg hb hdest hfree (by linarith)
  have hh : w.handled rng1 c p (some ⟨"reproduce", some d⟩) = Except.ok (true, w1, rng2) := by
    simp [World.handled, hrepr]
  have hne : p ≠ p.plus off :=
    (Vector.plus_ne_self p off (directions_ne_zero d off hoff)).symm
  have hgap := Num.double_gt_fifteen h15 hdouble
  have e49 : Num.pow2 (-49) = 1 / 562949953421312 := by decide!
  rw [e49] at hgap
  obtain ⟨e1, he1, hlo, -⟩ := Num.round_between
    (by norm_num : (0 : ℚ) ≤ 1 + 1 / 562949953421312)
    (show 1 + 1 / 562949953421312 ≤ e - 2 * b by linarith)
    (show e - 2 * b ≤ e by linarith)
    (show Num.round (1 + 1 / 562949953421312) = Num.val (1 + 1 / 562949953421312) by decide!)
    hdouble
  refine ⟨w1, rng2, d, off, w.next, b, e1,
    World.letAct_of_handled w rng c p _ w w1 rng1 rng2 hact hh, hoff, hin, hfree, ?_,
    le_refl _, ?_, ?_, hb3, hb7, ?_, henergy, by rw [henergy, he1],
    lt_of_lt_of_le (by norm_num) hlo⟩
  · rw [hgrid]
    exact Grid.get_set_same _ _ _
  · rw [hbaby]
    rfl
  · rw [hbaby]
    exact hb
  · rw [hgrid, Grid.get_set_other _ _ _ _ hin hp hne]
    exact hcp

theorem plant_reproduce_succeeds_witness :
    (0 < plantWorld.next ∧ plantWorld.grid.isInside ⟨0, 0⟩ = true ∧
        plantWorld.grid.get ⟨0, 0⟩ = some 0 ∧ (plantWorld.objs 0).kind = Kind.Plant ∧
        (plantWorld.objs 0).energy = Num.val 16 ∧ Num.round 16 = Num.val 16 ∧
        (15 : ℚ) < 16 ∧
        plantWorld.legend (plantWorld.objs 0).originChar = some Kind.Plant ∧
        (∀ key r, plantWorld.grid.space key = some r → (plantWorld.objs r).originChar ≠ ' ') ∧
        ∃ d off, directions d = some off ∧
          plantWorld.grid.isInside ((⟨0, 0⟩ : Vector).plus off) = true ∧
          plantWorld.grid.get ((⟨0, 0⟩ : Vector).plus off) = none) ∧
      ∃ w1 rng1, plantWorld.letAct rngZero 0 ⟨0, 0⟩ = Except.ok (w1, rng1) ∧
        w1.grid.get ⟨0, 0⟩ = some 0 := by
  have hvis : ∀ key r, plantWorld.grid.space key = some r →
      (plantWorld.objs r).originChar ≠ ' ' := by
    intro key r _
    exact (by decide : ('*' : Char) ≠ ' ')
  have hempty : ∃ d off, directions d = some off ∧
      plantWorld.grid.isInside ((⟨0, 0⟩ : Vector).plus off) = true ∧
      plantWorld.grid.get ((⟨0, 0⟩ : Vector).plus off) = none :=
    ⟨"e", ⟨1, 0⟩, rfl, by decide, by decide⟩
  obtain ⟨w1, rng1, _, _, _, _, _, hrun, _, _, _, _, _, _, _, _, _, hparent, _, _, _⟩ :=
    plant_reproduce_succeeds plantWorld rngZero 0 ⟨0, 0⟩ 16 (by decide) (by decide)
      (by decide) rfl rfl (by decide!) (by norm_num) (by decide) hvis hempty
  exact ⟨⟨by decide, by decide, by decide, rfl, rfl, by decide!, by norm_num, by decide, hvis,
    hempty⟩, w1, rng1, hrun, hparent⟩

/-! ### The surrounded PlantEater -/

/-- A `Plant` whose energy is at most 15 grows when `letAct` is called on it,
and no random number is drawn. -/
theorem World.letAct_plant_grow (w : World) (rng : Rng) (c : Ref) (p : Vector) (e : ℚ)
    (hk : (w.objs c).kind = Kind.Plant) (he : (w.objs c).energy = Num.val e)
    (h15 : ¬ 15 < e) :
    w.letAct rng c p = Except.ok (w.setEnergy c (Num.round (e + 1 / 2)), rng) := by
  have h20 : e < 20 := by linarith [not_lt.mp h15]
  have hrun : Plant.act w rng c ⟨w, p⟩ = Except.ok (some ⟨"grow", none⟩, rng) := by
    unfold Plant.act
    simp [he, Num.gt, Num.lt, h15, pure, Except.pure, h20]
  have hact : w.act rng c ⟨w, p⟩ = Except.ok (some ⟨"grow", none⟩, w, rng) := by
    unfold World.act
    simp [hk, hrun, bind, Except.bind, pure, Except.pure]
  have hh : w.handled rng c p (some ⟨"grow", none⟩) =
      Except.ok (true, w.setEnergy c (Num.round (e + 1 / 2)), rng) := by
    simp only [World.handled, actionTypes.grow, pure, Except.pure, he, Num.add, if_true]
  exact World.letAct_of_handled w rng c p _ w _ rng rng hact hh

/-- One round of the loop of `turn` on a cell whose critter has not acted yet
and whose `letAct` returns. -/
theorem World.visit_letAct (w : World) (rng : Rng) (acted : List Ref)
    (calls : List (Ref × Vector)) (v : Vector) (c : Ref) (w1 : World) (rng1 : Rng)
    (hcell : w.grid.space (v.x + v.y * w.grid.width) = some c)
    (hact : (w.objs c).hasAct = true) (hnew : c ∉ acted)
    (hlet : w.letAct rng c v = Except.ok (w1, rng1)) :
    Grid.visit (fun s => s.world.grid) World.turnFn (⟨w, rng, acted, calls⟩, none) v =
      (⟨w1, rng1, acted ++ [c], calls ++ [(c, v)]⟩, none) := by
  simp [Grid.visit, hcell, World.turnFn, hact, hnew, hlet]

theorem surrounded_prefix (rng : Rng) :
    surroundedWorld.turnAfter rng [⟨0, 0⟩, ⟨1, 0⟩, ⟨2, 0⟩, ⟨0, 1⟩] =
      (⟨surroundedGrown, rng, [0, 1, 2, 3],
        [(0, ⟨0, 0⟩), (1, ⟨1, 0⟩), (2, ⟨2, 0⟩), (3, ⟨0, 1⟩)]⟩, none) := by
  have hr : Num.round (3 + 1 / 2) = Num.val (3 + 1 / 2) := by decide!
  have h0 := World.visit_letAct surroundedWorld rng [] [] ⟨0, 0⟩ 0
    (surroundedWorld.setEnergy 0 (Num.val (3 + 1 / 2))) rng (by decide) (by decide)
    (by decide)
    (hr ▸ World.letAct_plant_grow surroundedWorld rng 0 ⟨0, 0⟩ 3 (by decide) (by decide!)
      (by norm_num))
  have h1 := World.visit_letAct (surroundedWorld.setEnergy 0 (Num.val (3 + 1 / 2))) rng
    ([] ++ [0]) ([] ++ [(0, ⟨0, 0⟩)]) ⟨1, 0⟩ 1
    ((surroundedWorld.setEnergy 0 (Num.val (3 + 1 / 2))).setEnergy 1 (Num.val (3 + 1 / 2))) rng
    (by decide) (by decide) (by decide)
    (hr ▸ World.letAct_plant_grow _ rng 1 ⟨1, 0⟩ 3 (by decide) (by decide!) (by norm_num))
  have h2 := World.visit_letAct
    ((surroundedWorld.setEnergy 0 (Num.val (3 + 1 / 2))).setEnergy 1 (Num.val (3 + 1 / 2))) rng
    ([] ++ [0] ++ [1]) ([] ++ [(0, ⟨0, 0⟩)] ++ [(1, ⟨1, 0⟩)]) ⟨2, 0⟩ 2
    (((surroundedWorld.setEnergy 0 (Num.val (3 + 1 / 2))).setEnergy 1
      (Num.val (3 + 1 / 2))).setEnergy 2 (Num.val (3 + 1 / 2))) rng
    (by decide) (by decide) (by decide)
    (hr ▸ World.letAct_plant_grow _ rng 2 ⟨2, 0⟩ 3 (by decide) (by decide!) (by norm_num))
  have h3 := World.visit_letAct
    (((surroundedWorld.setEnergy 0 (Num.val (3 + 1 / 2))).setEnergy 1
      (Num.val (3 + 1 / 2))).setEnergy 2 (Num.val (3 + 1 / 2))) rng
    ([] ++ [0] ++ [1] ++ [2]) ([] ++ [(0, ⟨0, 0⟩)] ++ [(1, ⟨1, 0⟩)] ++ [(2, ⟨2, 0⟩)])
    ⟨0, 1⟩ 3
    ((((surroundedWorld.setEnergy 0 (Num.val (3 + 1 / 2))).setEnergy 1
      (Num.val (3 + 1 / 2))).setEnergy 2 (Num.val (3 + 1 / 2))).setEnergy 3
        (Num.val (3 + 1 / 2))) rng
    (by decide) (by decide) (by decide)
    (hr ▸ World.letAct_plant_grow _ rng 3 ⟨0, 1⟩ 3 (by decide) (by decide!) (by norm_num))
  unfold World.turnAfter
  simp only [List.foldl_cons, List.foldl_nil]
  rw [h0, h1, h2, h3]
  rfl

theorem eat_success (w : World) (c : Ref) (p : Vector) (a : Action) (dest : Vector) (t : Ref)
    (e E : ℚ) (hdest : w.checkDestination a p = some dest) (hget : w.grid.get dest = some t)
    (hE : (w.objs t).energy = Num.val E) (he : (w.objs c).energy = Num.val e) :
    actionTypes.eat w c p a =
      (true, { w.setEnergy c (Num.round (e + E)) with grid := w.grid.set dest none }) := by
  unfold actionTypes.eat
  simp only [hdest, hget, hE, he, Num.isNull, Num.add, Bool.false_eq_true, if_false]
  rfl

theorem World.visit_none (s : TurnState) (v : Vector)
    (hcell : s.world.grid.space (v.x + v.y * s.world.grid.width) = none) :
    Grid.visit (fun s => s.world.grid) World.turnFn (s, none) v = (s, none) := by
  simp [Grid.visit, hcell]

theorem World.visit_skip (s : TurnState) (v : Vector) (c : Ref)
    (hcell : s.world.grid.space (v.x + v.y * s.world.grid.width) = some c)
    (hskip : ¬((s.world.objs c).hasAct = true ∧ c ∉ s.acted)) :
    Grid.visit (fun s => s.world.grid) World.turnFn (s, none) v = (s, none) := by
  have hcond : ((s.world.objs c).hasAct && !(s.acted.contains c)) = false := by
    by_cases h1 : (s.world.objs c).hasAct = true
    · have h2 : c ∈ s.acted := by
        by_contra h
        exact hskip ⟨h1, h⟩
      simp [h1, h2]
    · simp [h1]
  simp only [Grid.visit, hcell, World.turnFn]
  rw [if_neg (by rw [hcond]; exact Bool.false_ne_true)]

/-- Once the `PlantEater` (object 4) has acted, the rest of the loop only
lets plants that have not acted grow: the grid and the energy of the
`PlantEater` stay as they are and nothing throws. -/
theorem surrounded_rest (g : Grid) (en : Num) (rest : List Vector) :
    ∀ s : TurnState, s.world.grid = g → (s.world.objs 4).energy = en → 4 ∈ s.acted →
      (∀ key r, g.space key = some r → r ≠ 4 →
        (s.world.objs r).kind = Kind.Plant ∧
          ∃ e, (s.world.objs r).energy = Num.val e ∧ (r ∉ s.acted → 0 ≤ e ∧ e ≤ 15)) →
      (rest.foldl (Grid.visit (fun s => s.world.grid) World.turnFn) (s, none)).2 = none ∧
        (rest.foldl (Grid.visit (fun s => s.world.grid) World.turnFn) (s, none)).1.world.grid =
          g ∧
        ((rest.foldl (Grid.visit (fun s => s.world.grid) World.turnFn)
          (s, none)).1.world.objs 4).energy = en := by
  induction rest with
  | nil =>
      intro s hg hen _ _
      exact ⟨rfl, hg, hen⟩
  | cons v rest ih =>
      intro s hg hen h4 hplants
      simp only [List.foldl_cons]
      cases hcell : s.world.grid.space (v.x + v.y * s.world.grid.width) with
      | none =>
          rw [World.visit_none s v hcell]
          exact ih s hg hen h4 hplants
      | some c =>
          by_cases hgo : (s.world.objs c).hasAct = true ∧ c ∉ s.acted
          · have hc4 : c ≠ 4 := fun h => hgo.2 (h ▸ h4)
            have hcg : g.space (v.x + v.y * s.world.grid.width) = some c := by
              rw [← hg]
              exact hcell
            obtain ⟨hk, e, he, hbound⟩ := hplants _ c hcg hc4
            have hlet := World.letAct_plant_grow s.world s.rng c v e hk he
              (not_lt.mpr (hbound hgo.2).2)
            obtain ⟨e1, he1, -, -⟩ := Num.round_between (le_refl 0)
              (show (0 : ℚ) ≤ e + 1 / 2 by linarith [(hbound hgo.2).1])
              (show e + 1 / 2 ≤ 16 by linarith [(hbound hgo.2).2])
              (show Num.round 0 = Num.val 0 by decide!)
              (show Num.round 16 = Num.val 16 by decide!)
            rw [World.visit_letAct s.world s.rng s.acted s.calls v c _ _ hcell hgo.1 hgo.2 hlet]
            apply ih
            · exact hg
            · show ((s.world.setEnergy c _).objs 4).energy = en
              rw [World.setEnergy_objs_other _ _ _ _ (Ne.symm hc4)]
              exact hen
            · exact List.mem_append_left _ h4
            · intro key r hr hr4
              show ((s.world.setEnergy c _).objs r).kind = Kind.Plant ∧
                ∃ e', ((s.world.setEnergy c _).objs r).energy = Num.val e' ∧
                  (r ∉ s.acted ++ [c] → 0 ≤ e' ∧ e' ≤ 15)
              by_cases hrc : r = c
              · subst hrc
                refine ⟨?_, e1, (World.setEnergy_objs_same _ _ _).trans he1, ?_⟩
                · simp [World.setEnergy, hk]
                · intro hnot
                  exact absurd (List.mem_append_right _ (List.mem_singleton_self r)) hnot
              · rw [World.setEnergy_objs_other _ _ _ _ hrc]
                obtain ⟨hk', e', he', hb'⟩ := hplants key r hr hr4
                exact ⟨hk', e', he', fun hnot => hb' fun hmem =>
                  hnot (List.mem_append_left _ hmem)⟩
          · rw [World.visit_skip s v c hcell hgo]
            exact ih s hg hen h4 hplants

theorem surroundedGrown_objs (r : Nat) (hr : r ≠ 4) :
    (surroundedGrown.objs r).kind = Kind.Plant ∧
      (surroundedGrown.objs r).energy = Num.val (if r < 4 then 3 + 1 / 2 else 3) := by
  by_cases h0 : r = 0
  · subst h0
    exact ⟨by decide, by decide!⟩
  by_cases h1 : r = 1
  · subst h1
    exact ⟨by decide, by decide!⟩
  by_cases h2 : r = 2
  · subst h2
    exact ⟨by decide, by decide!⟩
  by_cases h3 : r = 3
  · subst h3
    exact ⟨by decide, by decide!⟩
  have hlt : ¬ r < 4 := by omega
  simp only [surroundedGrown, World.setEnergy, Function.update_noteq h3,
    Function.update_noteq h2, Function.update_noteq h1, Function.update_noteq h0,
    surroundedWorld, if_neg hr, if_neg hlt]
  exact ⟨trivial, trivial⟩

theorem surroundedWorld_get (q : Vector) (hq : surroundedWorld.grid.isInside q = true) :
    surroundedWorld.grid.get q = some (q.x + 3 * q.y).toNat ∧
      0 ≤ q.x + 3 * q.y ∧ q.x + 3 * q.y < 9 := by
  rw [Grid.isInside_iff] at hq
  have hw : (surroundedWorld.grid.width : Int) = 3 := rfl
  have hh : (surroundedWorld.grid.height : Int) = 3 := rfl
  rw [hw, hh] at hq
  have hrange : 0 ≤ q.x + 3 * q.y ∧ q.x + 3 * q.y < 9 := by omega
  refine ⟨?_, hrange⟩
  show (if 0 ≤ q.x + ((3 : Nat) : Int) * q.y ∧ q.x + ((3 : Nat) : Int) * q.y < 9 then
    some (q.x + ((3 : Nat) : Int) * q.y).toNat else none) = _
  rw [if_pos (by simpa using hrange)]
  rfl

/-- C13, as amended. In the scenario of the surrounded `PlantEater`, whatever
the random draws: `turn` throws nothing, the `PlantEater` stays in the centre
and eats exactly one neighbouring `Plant`, whose cell is the only one to
become empty. Its energy is then 23 when the eaten plant comes after the centre
in row-major order, and 23.5 when it comes before (that plant has grown by 0.5
before being eaten). -/
theorem surrounded_turn (rng : Rng) :
    ∃ d off t, d ∈ directionNames ∧ directions d = some off ∧
      surroundedWorld.grid.get ((⟨1, 1⟩ : Vector).plus off) = some t ∧
      (surroundedWorld.objs t).kind = Kind.Plant ∧
      (World.turn surroundedWorld rng).2 = none ∧
      (World.turn surroundedWorld rng).1.world.grid =
        surroundedWorld.grid.set ((⟨1, 1⟩ : Vector).plus off) none ∧
      (World.turn surroundedWorld rng).1.world.grid.get ⟨1, 1⟩ = some 4 ∧
      ((World.turn surroundedWorld rng).1.world.objs 4).energy =
        Num.val (if t < 4 then 23 + 1 / 2 else 23) := by
  have he4 : (surroundedGrown.objs 4).energy = Num.val 20 := by decide!
  have hk4 : (surroundedGrown.objs 4).kind = Kind.PlantEater := by decide
  obtain ⟨a, rng1, hrun, -, heat, -, -⟩ :=
    planteater_act_ok surroundedGrown rng 4 ⟨surroundedGrown, ⟨1, 1⟩⟩ 20 he4
  obtain ⟨d, ha, hd, hlook⟩ := heat (fun h => absurd h.1 (by norm_num))
    ⟨"n", by decide, by with_unfolding_all rfl⟩
  subst ha
  obtain ⟨off, hoff⟩ := directions_of_mem d hd
  rw [View.look_of_directions _ d off hoff] at hlook
  have hin : surroundedWorld.grid.isInside ((⟨1, 1⟩ : Vector).plus off) = true := by
    by_contra hout
    have hout' : surroundedGrown.grid.isInside ((⟨1, 1⟩ : Vector).plus off) = false := by
      simpa using hout
    simp only [hout', Bool.false_eq_true, if_false] at hlook
    exact absurd (Except.ok.inj hlook) (by decide)
  obtain ⟨hget, hk0, hk9⟩ := surroundedWorld_get _ hin
  have hne : (⟨1, 1⟩ : Vector).plus off ≠ ⟨1, 1⟩ :=
    Vector.plus_ne_self _ off (directions_ne_zero d off hoff)
  have hkey4 : (((⟨1, 1⟩ : Vector).plus off).x + 3 * ((⟨1, 1⟩ : Vector).plus off).y) ≠ 4 := by
    intro hk
    apply hne
    apply Grid.key_injective surroundedWorld.grid _ _ hin (by decide)
    show _ + ((3 : Nat) : Int) * _ = (1 : Int) + ((3 : Nat) : Int) * 1
    simpa using hk
  have ht4 : (((⟨1, 1⟩ : Vector).plus off).x + 3 * ((⟨1, 1⟩ : Vector).plus off).y).toNat ≠ 4 := by
    omega
  obtain ⟨hkt, het⟩ := surroundedGrown_objs _ ht4
  have hdest : surroundedGrown.checkDestination ⟨"eat", some d⟩ ⟨1, 1⟩ =
      some ((⟨1, 1⟩ : Vector).plus off) :=
    (World.checkDestination_eq_some surroundedGrown _ _ _).2 ⟨d, off, rfl, hoff, rfl, hin⟩
  have heats := eat_success surroundedGrown 4 ⟨1, 1⟩ ⟨"eat", some d⟩ _ _ 20 _ hdest hget het he4
  have hact : surroundedGrown.act rng 4 ⟨surroundedGrown, ⟨1, 1⟩⟩ =
      Except.ok (some ⟨"eat", some d⟩, surroundedGrown, rng1) := by
    unfold World.act
    simp [hk4, hrun, bind, Except.bind, pure, Except.pure]
  have hh : surroundedGrown.handled rng1 4 ⟨1, 1⟩ (some ⟨"eat", some d⟩) =
      Except.ok (true, (actionTypes.eat surroundedGrown 4 ⟨1, 1⟩ ⟨"eat", some d⟩).2, rng1) := by
    simp [World.handled, heats, pure, Except.pure]
  have hlet := World.letAct_of_handled surroundedGrown rng 4 ⟨1, 1⟩ _ surroundedGrown _ rng1 rng1
    hact hh
  have hcentre := World.visit_letAct surroundedGrown rng [0, 1, 2, 3]
    [(0, ⟨0, 0⟩), (1, ⟨1, 0⟩), (2, ⟨2, 0⟩), (3, ⟨0, 1⟩)] ⟨1, 1⟩ 4 _ rng1
    (by decide) (by decide) (by decide) hlet
  have hturn : World.turn surroundedWorld rng =
      ([⟨2, 1⟩, ⟨0, 2⟩, ⟨1, 2⟩, ⟨2, 2⟩] : List Vector).foldl
        (Grid.visit (fun s => s.world.grid) World.turnFn)
        (Grid.visit (fun s => s.world.grid) World.turnFn
          (surroundedWorld.turnAfter rng [⟨0, 0⟩, ⟨1, 0⟩, ⟨2, 0⟩, ⟨0, 1⟩]) ⟨1, 1⟩) := by
    rw [World.turn_eq_turnAfter]
    have hpos : surroundedWorld.grid.positions =
        [⟨0, 0⟩, ⟨1, 0⟩, ⟨2, 0⟩, ⟨0, 1⟩] ++ ⟨1, 1⟩ :: [⟨2, 1⟩, ⟨0, 2⟩, ⟨1, 2⟩, ⟨2, 2⟩] := by
      decide
    rw [hpos]
    simp only [World.turnAfter, List.foldl_append, List.foldl_cons, List.foldl_nil]
  rw [hturn, surrounded_prefix, hcentre, heats]
  obtain ⟨hfault, hgrid, hen⟩ := surrounded_rest
    (surroundedWorld.grid.set ((⟨1, 1⟩ : Vector).plus off) none)
    (Num.round (20 + (if (((⟨1, 1⟩ : Vector).plus off).x +
      3 * ((⟨1, 1⟩ : Vector).plus off).y).toNat < 4 then 3 + 1 / 2 else 3)))
    [⟨2, 1⟩, ⟨0, 2⟩, ⟨1, 2⟩, ⟨2, 2⟩]
    ⟨{ surroundedGrown.setEnergy 4 (Num.round (20 + (if (((⟨1, 1⟩ : Vector).plus off).x +
        3 * ((⟨1, 1⟩ : Vector).plus off).y).toNat < 4 then 3 + 1 / 2 else 3))) with
        grid := surroundedGrown.grid.set ((⟨1, 1⟩ : Vector).plus off) none },
      rng1, [0, 1, 2, 3] ++ [4],
      [(0, ⟨0, 0⟩), (1, ⟨1, 0⟩), (2, ⟨2, 0⟩), (3, ⟨0, 1⟩)] ++ [(4, ⟨1, 1⟩)]⟩
    rfl (World.setEnergy_objs_same _ _ _)
    (List.mem_append_right _ (List.mem_singleton_self 4))
    (by
      intro key r _ hr4
      show ((surroundedGrown.setEnergy 4 _).objs r).kind = Kind.Plant ∧
        ∃ e, ((surroundedGrown.setEnergy 4 _).objs r).energy = Num.val e ∧ _
      rw [World.setEnergy_objs_other _ _ _ _ hr4]
      obtain ⟨hk, he⟩ := surroundedGrown_objs r hr4
      refine ⟨hk, _, he, fun _ => ?_⟩
      split <;> norm_num)
  refine ⟨d, off, _, hd, hoff, hget, ?_, hfault, hgrid, ?_, ?_⟩
  · have := (surroundedGrown_objs _ ht4).1
    revert this
    generalize (((⟨1, 1⟩ : Vector).plus off).x + 3 * ((⟨1, 1⟩ : Vector).plus off).y).toNat = t
    intro _
    simp only [surroundedWorld]
    split <;> simp_all
  · rw [hgrid, Grid.get_set_other _ _ _ _ hin (by decide) hne.symm]
    decide
  · rw [hen]
    split
    · exact (by decide! : Num.round (20 + (3 + 1 / 2)) = Num.val (23 + 1 / 2))
    · exact (by decide! : Num.round (20 + 3) = Num.val 23)

/-- C13, as stated, fails: when every draw is `0` the `PlantEater` eats the
plant to its north, which has already grown to 3.5, and ends the turn with
energy 23.5, not 23. -/
theorem surrounded_energy_counterexample :
    (surroundedWorld.objs 4).energy = Num.val 20 ∧
      (World.turn surroundedWorld rngZero).1.world.grid.get ⟨1, 0⟩ = none ∧
      ((World.turn surroundedWorld rngZero).1.world.objs 4).energy = Num.val (47 / 2) ∧
      ((World.turn surroundedWorld rngZero).1.world.objs 4).energy ≠ Num.val 23 := by
  decide!

/-- C16, on a world that breaks it. The world built from the map `["*O"]` with a
legend that puts a `BouncingCritter` under `'*'` holds a critter without energy
and a `PlantEater` with energy 20. In the turn the critter fails to move, the
penalty turns its missing energy into `NaN`, the `PlantEater` eats it, and the
`PlantEater` is left on the grid with energy `NaN`. -/
theorem bouncer_breaks_energy :
    ∃ w rng1, World.new [['*', 'O']] bounceLegend rngZero = Except.ok (w, rng1) ∧
      w.grid.get ⟨0, 0⟩ = some 0 ∧ (w.objs 0).energy = Num.undef ∧
      w.grid.get ⟨1, 0⟩ = some 1 ∧ (w.objs 1).energy = Num.val 20 ∧
      (World.turn w rng1).2 = none ∧
      (World.turn w rng1).1.world.grid.get ⟨0, 0⟩ = none ∧
      (World.turn w rng1).1.world.grid.get ⟨1, 0⟩ = some 1 ∧
      ((World.turn w rng1).1.world.objs 1).energy = Num.nan :=
  ⟨_, _, rfl, by decide!, by decide!, by decide!, by decide!, by decide!, by decide!,
    by decide!, by decide!⟩

/-! ### Rounding in the handlers -/

/-- A computation that a check finds to return a result with a given
property. -/
theorem ok_of_check {ε α : Type} (x : Except ε α) (P : α → Bool)
    (h : (match x with
      | Except.ok a => P a
      | Except.error _ => false) = true) :
    ∃ a, x = Except.ok a ∧ P a = true := by
  cases x with
  | ok a => exact ⟨a, rfl, h⟩
  | error e => cases h

/-- C1, as stated, fails: a `PlantEater` whose energy is the double
`2 ^ 53 + 2` moves east and is left with `2 ^ 53`, that is 2 less and not 1
less: `2 ^ 53 + 1` is no double and the tie goes to the even neighbour. -/
theorem move_rounding_counterexample :
    bigEaterWorld.grid.isInside ⟨0, 0⟩ = true ∧
      (bigEaterWorld.objs 0).energy = Num.val 9007199254740994 ∧
      Num.round 9007199254740994 = Num.val 9007199254740994 ∧
      (actionTypes.move bigEaterWorld 0 ⟨0, 0⟩ ⟨"move", some "e"⟩).1 = true ∧
      ((actionTypes.move bigEaterWorld 0 ⟨0, 0⟩ ⟨"move", some "e"⟩).2.objs 0).energy =
        Num.val 9007199254740992 ∧
      ((actionTypes.move bigEaterWorld 0 ⟨0, 0⟩ ⟨"move", some "e"⟩).2.objs 0).energy ≠
        Num.val (9007199254740994 - 1) := by
  decide!

/-- C2, as stated, fails: in the world built from the map `["O*"]` when
`Math.random()` gives `2 ^ (-53)`, the `Plant` has energy `3 + 2 ^ (-51)`
(`3.0000000000000004`); the `PlantEater` with energy 20 eats it and ends with
energy 23, which is not `20 + (3 + 2 ^ (-51))`. -/
theorem eat_rounding_counterexample :
    ∃ w rng1, World.new [['O', '*']] initLegend rngTiny = Except.ok (w, rng1) ∧
      (w.objs 0).energy = Num.val 20 ∧
      w.grid.get ⟨1, 0⟩ = some 1 ∧
      (w.objs 1).energy = Num.val (3 + 1 / 2251799813685248) ∧
      (actionTypes.eat w 0 ⟨0, 0⟩ ⟨"eat", some "e"⟩).1 = true ∧
      ((actionTypes.eat w 0 ⟨0, 0⟩ ⟨"eat", some "e"⟩).2.objs 0).energy = Num.val 23 ∧
      ((actionTypes.eat w 0 ⟨0, 0⟩ ⟨"eat", some "e"⟩).2.objs 0).energy ≠
        Num.val (20 + (3 + 1 / 2251799813685248)) :=
  ⟨_, _, rfl, by decide!, by decide!, by decide!, by decide!, by decide!, by decide!⟩

/-- C3, as stated, fails: the `Plant` of `plantWorld`, with energy 16,
reproduces when `Math.random()` gives `2 ^ (-53)`; the baby has energy
`b = 3 + 2 ^ (-51)` and the parent is left with energy 10, which is not
`16 - 2 * b`. -/
theorem reproduce_rounding_counterexample :
    (plantWorld.objs 0).energy = Num.val 16 ∧
      (Kind.Plant.construct (plantWorld.objs 0).originChar rngTiny).1.energy =
        Num.val (3 + 1 / 2251799813685248) ∧
      ∃ r, actionTypes.reproduce plantWorld rngTiny 0 ⟨0, 0⟩ ⟨"reproduce", some "e"⟩ =
          Except.ok r ∧
        r.1 = true ∧ r.2.1.grid.get ⟨1, 0⟩ = some 1 ∧
        (r.2.1.objs 1).energy = Num.val (3 + 1 / 2251799813685248) ∧
        (r.2.1.objs 0).energy = Num.val 10 ∧
        (r.2.1.objs 0).energy ≠ Num.val (16 - 2 * (3 + 1 / 2251799813685248)) := by
  refine ⟨by decide!, by decide!, ?_⟩
  obtain ⟨r, hr, hP⟩ := ok_of_check
    (actionTypes.reproduce plantWorld rngTiny 0 ⟨0, 0⟩ ⟨"reproduce", some "e"⟩)
    (fun r => decide (r.1 = true ∧ r.2.1.grid.get ⟨1, 0⟩ = some 1 ∧
      (r.2.1.objs 1).energy = Num.val (3 + 1 / 2251799813685248) ∧
      (r.2.1.objs 0).energy = Num.val 10 ∧
      (r.2.1.objs 0).energy ≠ Num.val (16 - 2 * (3 + 1 / 2251799813685248))))
    (by decide!)
  exact ⟨r, hr, of_decide_eq_true hP⟩

/-- C4, as stated, fails: the `Plant` built from the map `["*"]` when
`Math.random()` gives `2 ^ (-53)` has energy `3 + 2 ^ (-51)`; it grows to
`3.5 + 2 ^ (-51)` (`3.5000000000000004`) and a second grow leaves it with
energy 4, which is not 0.5 more. -/
theorem grow_rounding_counterexample :
    ∃ w rng1, World.new [['*']] initLegend rngTiny = Except.ok (w, rng1) ∧
      (w.objs 0).energy = Num.val (3 + 1 / 2251799813685248) ∧
      ((actionTypes.grow w 0).2.objs 0).energy = Num.val (7 / 2 + 1 / 2251799813685248) ∧
      (actionTypes.grow (actionTypes.grow w 0).2 0).1 = true ∧
      ((actionTypes.grow (actionTypes.grow w 0).2 0).2.objs 0).energy = Num.val 4 ∧
      ((actionTypes.grow (actionTypes.grow w 0).2 0).2.objs 0).energy ≠
        Num.val (7 / 2 + 1 / 2251799813685248 + 1 / 2) :=
  ⟨_, _, rfl, by decide!, by decide!, by decide!, by decide!, by decide!⟩

/-- C5, as stated, fails: a lone `PlantEater` with energy 1 proposes nothing
and takes the penalty. After one `letAct` its energy is the double `0.8`, which
is not `1 - 1 / 5`; after five turns its energy is `2 ^ (-54)`, above 0, and it
is still on the grid, where five losses of exactly 0.2 would leave 0 and have
it removed. -/
theorem penalty_rounding_counterexample :
    (starvingWorld.objs 0).energy = Num.val 1 ∧
      (∃ r, starvingWorld.letAct rngZero 0 ⟨0, 0⟩ = Except.ok r ∧
        (r.1.objs 0).energy = Num.val (3602879701896397 / 4503599627370496) ∧
        (r.1.objs 0).energy ≠ Num.val (1 - 1 / 5)) ∧
      (∀ n ∈ [0, 1, 2, 3, 4], (World.turn (starvingAfter n) rngZero).2 = none ∧
        (World.turn (starvingAfter n) rngZero).1.calls = [(0, ⟨0, 0⟩)]) ∧
      (starvingAfter 5).grid.get ⟨0, 0⟩ = some 0 ∧
      ((starvingAfter 5).objs 0).energy = Num.val (1 / 18014398509481984) ∧
      (1 : ℚ) - 5 * (1 / 5) = 0 := by
  refine ⟨by decide!, ?_, by decide!, by decide!, by decide!, by norm_num⟩
  obtain ⟨r, hr, hP⟩ := ok_of_check (starvingWorld.letAct rngZero 0 ⟨0, 0⟩)
    (fun r => decide ((r.1.objs 0).energy = Num.val (3602879701896397 / 4503599627370496) ∧
      (r.1.objs 0).energy ≠ Num.val (1 - 1 / 5)))
    (by decide!)
  exact ⟨r, hr, of_decide_eq_true hP⟩

/-- C20, as stated, fails: the `Plant` of `plantWorld`, with energy 16 and an
empty cell to its east, reproduces when `Math.random()` gives `2 ^ (-53)`; the
new `Plant` has energy `b = 3 + 2 ^ (-51)`, within `[3, 7)`, and the parent is
left with energy 10, which is not `16 - 2 * b`. Moreover a `Plant` is made with
energy 7 when `Math.random()` gives `1 - 2 ^ (-53)`. -/
theorem plant_reproduce_rounding_counterexample :
    (plantWorld.objs 0).kind = Kind.Plant ∧ (plantWorld.objs 0).energy = Num.val 16 ∧
      plantWorld.grid.get ⟨0, 0⟩ = some 0 ∧ plantWorld.grid.get ⟨1, 0⟩ = none ∧
      (∃ r, plantWorld.letAct rngTiny 0 ⟨0, 0⟩ = Except.ok r ∧
        r.1.grid.get ⟨1, 0⟩ = some 1 ∧ (r.1.objs 1).kind = Kind.Plant ∧
        (r.1.objs 1).energy = Num.val (3 + 1 / 2251799813685248) ∧
        r.1.grid.get ⟨0, 0⟩ = some 0 ∧
        (r.1.objs 0).energy = Num.val 10 ∧
        (r.1.objs 0).energy ≠ Num.val (16 - 2 * (3 + 1 / 2251799813685248))) ∧
      (Kind.Plant.construct '*' rngMax).1.energy = Num.val 7 := by
  refine ⟨by decide, by decide!, by decide, by decide, ?_, by decide!⟩
  obtain ⟨r, hr, hP⟩ := ok_of_check (plantWorld.letAct rngTiny 0 ⟨0, 0⟩)
    (fun r => decide (r.1.grid.get ⟨1, 0⟩ = some 1 ∧ (r.1.objs 1).kind = Kind.Plant ∧
      (r.1.objs 1).energy = Num.val (3 + 1 / 2251799813685248) ∧
      r.1.grid.get ⟨0, 0⟩ = some 0 ∧
      (r.1.objs 0).energy = Num.val 10 ∧
      (r.1.objs 0).energy ≠ Num.val (16 - 2 * (3 + 1 / 2251799813685248))))
    (by decide!)
  exact ⟨r, hr, of_decide_eq_true hP⟩

end ELife
